import Mathlib

set_option maxHeartbeats 1000000

/-!
Verification development for a small C-like compiler.

The repository contains several parallel front-end implementations.  This file
gives shallow embeddings of the parts the properties below are about:

* `CG`      — the int-only lowering `class CodeGen` (src/src/codegen.cpp, src/src/ast.hpp);
* `CGen`    — the typed lowering `class CodeGenerator` (src/codegen.cpp, src/ast_nodes.h);
* `IRGen`   — the double-only lowering `class clike::IRGenerator` (src/src/ir_generator.cpp);
* `TLexer`  — the token scanner `Lexer::getNextToken` (src/lexer.cpp);
* `CLexer`  — the token scanner `clike::Lexer::getNextToken` (src/src/lexer.cpp);
* `CParser` — the recursive-descent parser `clike::Parser` (src/src/parser.cpp).

The LLVM IR builder, basic blocks and the verifier are external library objects;
they are modelled by explicit state: blocks are lists of instructions, the
builder cursor is an optional block id, and the verifier model checks the
documented block well-formedness rules (each block ends in a terminator and has
no terminator before its last instruction).  Instruction result-name hints
("addtmp" and the like) are printing metadata and are not modelled, except for
alloca names, which identify the slots.
-/

namespace CG

/-- Expressions of src/src/ast.hpp (NumberExpr holds a long long). -/
inductive Expr where
  | number (value : Int)
  | varRef (name : String)
  | binary (op : String) (lhs rhs : Expr)
  | unary (op : String) (operand : Expr)
  | call (callee : String) (args : List Expr)
  | assign (name : String) (value : Expr)


/-- Statements of src/src/ast.hpp.  `ReturnStmt.value` is dereferenced
unconditionally by `CodeGen::codegenStmt`, so it is modelled as required. -/
inductive Stmt where
  | ret (value : Expr)
  | exprStmt (e : Expr)
  | varDecl (name : String) (init : Option Expr)
  | ifStmt (cond : Expr) (thenStmts elseStmts : List Stmt)
  | whileStmt (cond : Expr) (body : List Stmt)


structure FunctionParam where
  name : String


structure Function where
  name : String
  params : List FunctionParam
  body : List Stmt


structure ExternDecl where
  name : String
  params : List FunctionParam


structure TranslationUnit where
  externs : List ExternDecl
  functions : List Function


/-- IR values.  Everything `CodeGen` builds is i32 (icmp results are i1 but are
always fed into zext or condbr), so value types are not tracked here. -/
inductive Value where
  | constInt (value : Int)
  | inst (id : Nat)
  | arg (index : Nat)


/-- The IR instructions emitted by `CodeGen`. -/
inductive Instr where
  | alloca (name : String)
  | load (slot : Value)
  | store (value slot : Value)
  | add (lhs rhs : Value)
  | sub (lhs rhs : Value)
  | mul (lhs rhs : Value)
  | sdiv (lhs rhs : Value)
  | srem (lhs rhs : Value)
  | icmpEq (lhs rhs : Value)
  | icmpNe (lhs rhs : Value)
  | icmpSlt (lhs rhs : Value)
  | icmpSle (lhs rhs : Value)
  | icmpSgt (lhs rhs : Value)
  | icmpSge (lhs rhs : Value)
  | zext (v : Value)
  | band (lhs rhs : Value)
  | bor (lhs rhs : Value)
  | neg (v : Value)
  | br (target : Nat)
  | condBr (cond : Value) (thenBlk elseBlk : Nat)
  | ret (value : Value)
  | call (callee : String) (args : List Value)


def Instr.isTerminator : Instr → Bool
  | .br _ => true
  | .condBr .. => true
  | .ret _ => true
  | _ => false

def Instr.isAlloca : Instr → Bool
  | .alloca _ => true
  | _ => false

structure BasicBlock where
  name : String
  instrs : List Instr


/-- An `llvm::Function` of the module: its name, the names given to its
arguments at declaration time, and the ids of its attached basic blocks in
order.  The head of `blocks` is the entry block. -/
structure Fn where
  name : String
  paramNames : List String
  blocks : List Nat


/-- The mutable lowering state: the module (function list plus a store of all
created basic blocks, attached or not), the builder insertion point, and the
`namedAllocas` symbol map of `class CodeGen` (an association list; the first
matching entry is the binding, matching `std::map` lookups since names are
erased before reinsertion only at function boundaries, where the map is
cleared). -/
structure St where
  nextId : Nat
  blockMap : List (Nat × BasicBlock)
  funcs : List Fn
  insertPt : Option Nat
  namedAllocas : List (String × Value)


def initState : St := ⟨0, [], [], none, []⟩

def lookupBlock (s : St) (bid : Nat) : Option BasicBlock :=
  (s.blockMap.find? (fun p => p.1 == bid)).map Prod.snd

def updateBlock (s : St) (bid : Nat) (f : BasicBlock → BasicBlock) : St :=
  { s with blockMap := s.blockMap.map (fun p => if p.1 == bid then (p.1, f p.2) else p) }

/-- `IRBuilder` insertion: append to the block the cursor points at.  The
cursor always sits at the end of the block, so LLVM will happily insert after
an existing terminator — exactly that behavior matters below.  With no
insertion block set the C++ would dereference null; the model emits nothing. -/
def emit (i : Instr) (s : St) : Value × St :=
  match s.insertPt with
  | none => (.inst s.nextId, { s with nextId := s.nextId + 1 })
  | some bid =>
      (.inst s.nextId,
        { (updateBlock s bid (fun bb => { bb with instrs := bb.instrs ++ [i] })) with
            nextId := s.nextId + 1 })

/-- `llvm::BasicBlock::Create(ctx, name)` — a detached block. -/
def createBlock (name : String) (s : St) : Nat × St :=
  (s.nextId,
   { s with nextId := s.nextId + 1, blockMap := s.blockMap ++ [(s.nextId, ⟨name, []⟩)] })

def listModify (f : α → α) : Nat → List α → List α
  | _, [] => []
  | 0, a :: as => f a :: as
  | n+1, a :: as => a :: listModify f n as

/-- `function->insert(function->end(), bb)` — attach a block at the end. -/
def attachBlock (fidx bid : Nat) (s : St) : St :=
  { s with funcs := listModify (fun fn => { fn with blocks := fn.blocks ++ [bid] }) fidx s.funcs }

/-- `llvm::BasicBlock::Create(ctx, name, function)` — create attached. -/
def createBlockIn (name : String) (fidx : Nat) (s : St) : Nat × St :=
  let (bid, s) := createBlock name s
  (bid, attachBlock fidx bid s)

def setInsertPoint (bid : Nat) (s : St) : St := { s with insertPt := some bid }

/-- `BasicBlock::getTerminator()`: the last instruction if it is a terminator,
otherwise null. -/
def getTerminator (bb : BasicBlock) : Option Instr :=
  match bb.instrs.getLast? with
  | some i => if i.isTerminator then some i else none
  | none => none

def blockTerminated (s : St) (bid : Nat) : Bool :=
  match lookupBlock s bid with
  | some bb => (getTerminator bb).isSome
  | none => false

/-- `module->getFunction(name)` (as an index into the function list). -/
def getFunction (s : St) (name : String) : Option Nat :=
  s.funcs.findIdx? (fun fn => fn.name == name)

/-- `f->getEntryBlock()`: the first attached block. -/
def entryBlock (s : St) (fidx : Nat) : Option Nat :=
  match s.funcs.get? fidx with
  | some fn => fn.blocks.head?
  | none => none

/-- `static AllocaInst *createEntryBlockAlloca(f, name, ty, builder)`
(src/src/codegen.cpp:49): a temporary builder positioned at
`f->getEntryBlock().begin()` inserts the alloca before the entry block's first
instruction. -/
def createEntryBlockAlloca (fidx : Nat) (name : String) (s : St) : Value × St :=
  match entryBlock s fidx with
  | some bid =>
      (.inst s.nextId,
        { (updateBlock s bid (fun bb => { bb with instrs := Instr.alloca name :: bb.instrs })) with
            nextId := s.nextId + 1 })
  | none => (.inst s.nextId, { s with nextId := s.nextId + 1 })

def findAlloca (s : St) (name : String) : Option Value :=
  (s.namedAllocas.find? (fun p => p.1 == name)).map Prod.snd

def bindAlloca (name : String) (v : Value) (s : St) : St :=
  { s with namedAllocas := (name, v) :: s.namedAllocas }

/-- The function that owns a block (`block->getParent()`). -/
def parentOf (s : St) (bid : Nat) : Option Nat :=
  s.funcs.findIdx? (fun fn => fn.blocks.contains bid)

mutual
/-- `CodeGen::codegenExpr` with the dispatched member functions
(`codegenBinary`, `codegenUnary`, `codegenCall`, `codegenAssign`) inlined at
their dispatch sites.  Thrown `std::runtime_error`s become `.error`. -/
def codegenExpr (e : Expr) (s : St) : Except String (Value × St) :=
  match e with
  | .number n => .ok (.constInt n, s)
  | .varRef name =>
      match findAlloca s name with
      | none => .error ("Unknown variable: " ++ name)
      | some slot => .ok (emit (.load slot) s)
  | .binary op lhs rhs =>
      -- CodeGen::codegenBinary
      match codegenExpr lhs s with
      | .error msg => .error msg
      | .ok (l, s) =>
        match codegenExpr rhs s with
        | .error msg => .error msg
        | .ok (r, s) =>
          if op == "+" then .ok (emit (.add l r) s)
          else if op == "-" then .ok (emit (.sub l r) s)
          else if op == "*" then .ok (emit (.mul l r) s)
          else if op == "/" then .ok (emit (.sdiv l r) s)
          else if op == "%" then .ok (emit (.srem l r) s)
          else if op == "==" then
            let (c, s) := emit (.icmpEq l r) s
            .ok (emit (.zext c) s)
          else if op == "!=" then
            let (c, s) := emit (.icmpNe l r) s
            .ok (emit (.zext c) s)
          else if op == "<" then
            let (c, s) := emit (.icmpSlt l r) s
            .ok (emit (.zext c) s)
          else if op == "<=" then
            let (c, s) := emit (.icmpSle l r) s
            .ok (emit (.zext c) s)
          else if op == ">" then
            let (c, s) := emit (.icmpSgt l r) s
            .ok (emit (.zext c) s)
          else if op == ">=" then
            let (c, s) := emit (.icmpSge l r) s
            .ok (emit (.zext c) s)
          else if op == "&&" then
            -- non-short-circuit: (L != 0) & (R != 0), zext to i32
            let (lne, s) := emit (.icmpNe l (.constInt 0)) s
            let (rne, s) := emit (.icmpNe r (.constInt 0)) s
            let (andv, s) := emit (.band lne rne) s
            .ok (emit (.zext andv) s)
          else if op == "||" then
            let (lne, s) := emit (.icmpNe l (.constInt 0)) s
            let (rne, s) := emit (.icmpNe r (.constInt 0)) s
            let (orv, s) := emit (.bor lne rne) s
            .ok (emit (.zext orv) s)
          else .error ("Unknown binary operator: " ++ op)
  | .unary op operand =>
      -- CodeGen::codegenUnary
      match codegenExpr operand s with
      | .error msg => .error msg
      | .ok (v, s) =>
        if op == "-" then .ok (emit (.neg v) s)
        else if op == "+" then .ok (v, s)
        else if op == "!" then
          let (isZero, s) := emit (.icmpEq v (.constInt 0)) s
          .ok (emit (.zext isZero) s)
        else .error ("Unknown unary operator: " ++ op)
  | .call callee args =>
      -- CodeGen::codegenCall — note: no arity check against the callee
      match getFunction s callee with
      | none => .error ("Unknown function referenced: " ++ callee)
      | some _ =>
        match codegenExprs args s with
        | .error msg => .error msg
        | .ok (argsV, s) => .ok (emit (.call callee argsV) s)
  | .assign name value =>
      -- CodeGen::codegenAssign — the slot is looked up before the value is lowered
      match findAlloca s name with
      | none => .error ("Unknown variable: " ++ name)
      | some slot =>
        match codegenExpr value s with
        | .error msg => .error msg
        | .ok (v, s) =>
          let (_, s) := emit (.store v slot) s
          .ok (v, s)

/-- The argument loop of `CodeGen::codegenCall`: left to right. -/
def codegenExprs (es : List Expr) (s : St) : Except String (List Value × St) :=
  match es with
  | [] => .ok ([], s)
  | e :: rest =>
      match codegenExpr e s with
      | .error msg => .error msg
      | .ok (v, s) =>
        match codegenExprs rest s with
        | .error msg => .error msg
        | .ok (vs, s) => .ok (v :: vs, s)
end

mutual
/-- `CodeGen::codegenStmt` with `codegenVarDecl`, `codegenIf`, `codegenWhile`
inlined at their dispatch sites.  There is no terminator check before a
statement is lowered: a `return` is emitted into the current block
unconditionally. -/
def codegenStmt (stmt : Stmt) (fidx : Nat) (s : St) : Except String St :=
  match stmt with
  | .ret v =>
      match codegenExpr v s with
      | .error msg => .error msg
      | .ok (rv, s) => .ok (emit (.ret rv) s).2
  | .exprStmt e =>
      match codegenExpr e s with
      | .error msg => .error msg
      | .ok (_, s) => .ok s
  | .varDecl name init =>
      -- CodeGen::codegenVarDecl: func = builder->GetInsertBlock()->getParent()
      match s.insertPt with
      | none => .error ("null insertion block")
      | some cur =>
        match parentOf s cur with
        | none => .error ("insertion block has no parent function")
        | some ownerIdx =>
          let (slot, s) := createEntryBlockAlloca ownerIdx name s
          let s := bindAlloca name slot s
          match init with
          | none => .ok s
          | some ie =>
              match codegenExpr ie s with
              | .error msg => .error msg
              | .ok (iv, s) => .ok (emit (.store iv slot) s).2
  | .ifStmt cond thenStmts elseStmts =>
      -- CodeGen::codegenIf
      match codegenExpr cond s with
      | .error msg => .error msg
      | .ok (condV, s) =>
        let (condCmp, s) := emit (.icmpNe condV (.constInt 0)) s
        let (thenBB, s) := createBlockIn ("then") fidx s
        let (elseBB, s) := createBlock ("else") s
        let (mergeBB, s) := createBlock ("ifcont") s
        let (_, s) := emit (.condBr condCmp thenBB elseBB) s
        let s := setInsertPoint thenBB s
        match codegenStmts thenStmts fidx s with
        | .error msg => .error msg
        | .ok s =>
          -- the check is on thenBB itself, not on the builder's current block
          let s := if blockTerminated s thenBB then s else (emit (.br mergeBB) s).2
          let s := attachBlock fidx elseBB s
          let s := setInsertPoint elseBB s
          match codegenStmts elseStmts fidx s with
          | .error msg => .error msg
          | .ok s =>
            let s := if blockTerminated s elseBB then s else (emit (.br mergeBB) s).2
            let s := attachBlock fidx mergeBB s
            .ok (setInsertPoint mergeBB s)
  | .whileStmt cond body =>
      -- CodeGen::codegenWhile
      let (condBB, s) := createBlockIn ("loop.cond") fidx s
      let (bodyBB, s) := createBlock ("loop.body") s
      let (afterBB, s) := createBlock ("loop.after") s
      let (_, s) := emit (.br condBB) s
      let s := setInsertPoint condBB s
      match codegenExpr cond s with
      | .error msg => .error msg
      | .ok (condV, s) =>
        let (condCmp, s) := emit (.icmpNe condV (.constInt 0)) s
        let (_, s) := emit (.condBr condCmp bodyBB afterBB) s
        let s := attachBlock fidx bodyBB s
        let s := setInsertPoint bodyBB s
        match codegenStmts body fidx s with
        | .error msg => .error msg
        | .ok s =>
          let s := if blockTerminated s bodyBB then s else (emit (.br condBB) s).2
          let s := attachBlock fidx afterBB s
          .ok (setInsertPoint afterBB s)

def codegenStmts (stmts : List Stmt) (fidx : Nat) (s : St) : Except String St :=
  match stmts with
  | [] => .ok s
  | st :: rest =>
      match codegenStmt st fidx s with
      | .error msg => .error msg
      | .ok s => codegenStmts rest fidx s
end

/-- `CodeGen::declareExtern`: an i32 signature with one i32 per parameter;
argument names are set from the parameter names. -/
def declareExtern (d : ExternDecl) (s : St) : St :=
  { s with funcs := s.funcs ++ [⟨d.name, d.params.map (·.name), []⟩] }

/-- `CodeGen::declareFunction`: same shape as `declareExtern`. -/
def declareFunction (fn : Function) (s : St) : St :=
  { s with funcs := s.funcs ++ [⟨fn.name, fn.params.map (·.name), []⟩] }

/-- The parameter loop in `CodeGen::emitIR`: one entry-block alloca per
argument, bind it, store the incoming argument. -/
def paramLoop (fidx : Nat) (names : List String) (idx : Nat) (s : St) : St :=
  match names with
  | [] => s
  | n :: rest =>
      let (slot, s) := createEntryBlockAlloca fidx n s
      let s := bindAlloca n slot s
      let (_, s) := emit (.store (.arg idx) slot) s
      paramLoop fidx rest (idx + 1) s

/-- Entry-block and parameter setup at the top of the per-function loop of
`CodeGen::emitIR`: create "entry", point the builder at it, clear
`namedAllocas`, run the parameter loop. -/
def setupEntryAndParams (fidx : Nat) (names : List String) (s : St) : St :=
  let (entryId, s) := createBlockIn ("entry") fidx s
  let s := setInsertPoint entryId s
  let s := { s with namedAllocas := [] }
  paramLoop fidx names 0 s

/-- The terminator backstop at the bottom of the per-function loop of
`CodeGen::emitIR`: `if (!entry->getTerminator()) builder->CreateRet(0)`.
The test is on the ENTRY block; the synthesized `ret 0` goes to the builder's
current insertion block. -/
def synthesizeDefaultReturn (fidx : Nat) (s : St) : St :=
  match entryBlock s fidx with
  | some entryId =>
      if blockTerminated s entryId then s else (emit (.ret (.constInt 0)) s).2
  | none => s

/-- Model of the basic-block structure checks of `llvm::verifyFunction`: a
block must end in a terminator and must not contain a terminator before its
last instruction. -/
def wellFormedBlock (bb : BasicBlock) : Bool :=
  match bb.instrs.getLast? with
  | none => false
  | some last => last.isTerminator && bb.instrs.dropLast.all (fun i => !i.isTerminator)

def verifyFn (s : St) (fn : Fn) : Bool :=
  fn.blocks.all (fun bid =>
    match lookupBlock s bid with
    | some bb => wellFormedBlock bb
    | none => false)

def verifyFunctionOk (fidx : Nat) (s : St) : Bool :=
  match s.funcs.get? fidx with
  | some fn => verifyFn s fn
  | none => false

/-- `llvm::verifyModule`: every function with a body must verify
(declarations without blocks are fine). -/
def verifyModuleOk (s : St) : Bool :=
  s.funcs.all (fun fn => fn.blocks.isEmpty || verifyFn s fn)

/-- The body of the per-function loop in `CodeGen::emitIR`. -/
def lowerFunction (fn : Function) (s : St) : Except String St :=
  match getFunction s fn.name with
  | none => .error ("Function not found after declaration")
  | some fidx =>
    let names := ((s.funcs.get? fidx).map Fn.paramNames).getD []
    let s := setupEntryAndParams fidx names s
    match codegenStmts fn.body fidx s with
    | .error msg => .error msg
    | .ok s =>
      let s := synthesizeDefaultReturn fidx s
      if verifyFunctionOk fidx s then .ok s else .error ("Generated invalid function IR")

def lowerFunctions (fns : List Function) (s : St) : Except String St :=
  match fns with
  | [] => .ok s
  | fn :: rest =>
      match lowerFunction fn s with
      | .error msg => .error msg
      | .ok s => lowerFunctions rest s

/-- The declaration phase at the top of `CodeGen::emitIR`: first all externs,
then all functions, before any body is lowered. -/
def declarePhase (tu : TranslationUnit) : St :=
  let s := tu.externs.foldl (fun s d => declareExtern d s) initState
  tu.functions.foldl (fun s fn => declareFunction fn s) s

/-- `CodeGen::emitIR`: declare all externs and functions first, then lower
each function body in order, then verify the module.  The source returns the
printed IR text; the model returns the final module state. -/
def emitIR (tu : TranslationUnit) : Except String St :=
  match lowerFunctions tu.functions (declarePhase tu) with
  | .error msg => .error msg
  | .ok s => if verifyModuleOk s then .ok s else .error ("Generated invalid module IR")

end CG

namespace CGen

/-- LLVM types as produced by `TypeNode::getLLVMType` and the literal
lowerings of `class CodeGenerator` (src/codegen.cpp, src/ast_nodes.h). -/
inductive Ty where
  | i1
  | i8
  | i32
  | fl32
  | f64
  | voidTy
  | ptr (pointee : Ty)
deriving DecidableEq

/-- `Type::getLLVMType` (src/ast_nodes.cpp:27) and
`CodeGenerator::getLLVMType`: unknown names default to int. -/
def getLLVMType : String → Ty
  | "int" => .i32
  | "float" => .fl32
  | "char" => .i8
  | "void" => .voidTy
  | _ => .i32

def Ty.isFloatingPointTy : Ty → Bool
  | .fl32 => true
  | .f64 => true
  | _ => false

def Ty.isIntegerTy : Ty → Bool
  | .i1 => true
  | .i8 => true
  | .i32 => true
  | _ => false

def Ty.isVoidTy : Ty → Bool
  | .voidTy => true
  | _ => false

/-- `getPointerElementType()`; null on a non-pointer (where LLVM would
assert). -/
def Ty.pointerElement : Ty → Option Ty
  | .ptr t => some t
  | _ => none

/-- The underlying `llvm::Value`: constants, instruction results, raw
function arguments. -/
inductive CRef where
  | constInt (value : Int)
  | constFP (value : Float)
  | inst (id : Nat)
  | argRef (index : Nat)

/-- A typed IR value; `v.ty` models `v->getType()`. -/
structure CValue where
  ty : Ty
  ref : CRef

/-- Instructions emitted by `class CodeGenerator`. -/
inductive CInstr where
  | alloca (ty : Ty) (name : String)
  | load (ty : Ty) (slot : CValue)
  | store (value slot : CValue)
  | add (lhs rhs : CValue)
  | fadd (lhs rhs : CValue)
  | sub (lhs rhs : CValue)
  | fsub (lhs rhs : CValue)
  | mul (lhs rhs : CValue)
  | fmul (lhs rhs : CValue)
  | sdiv (lhs rhs : CValue)
  | fdiv (lhs rhs : CValue)
  | srem (lhs rhs : CValue)
  | icmpEq (lhs rhs : CValue)
  | icmpNe (lhs rhs : CValue)
  | icmpSlt (lhs rhs : CValue)
  | icmpSgt (lhs rhs : CValue)
  | icmpSle (lhs rhs : CValue)
  | icmpSge (lhs rhs : CValue)
  | fcmpOeq (lhs rhs : CValue)
  | fcmpOne (lhs rhs : CValue)
  | fcmpOlt (lhs rhs : CValue)
  | fcmpOgt (lhs rhs : CValue)
  | fcmpOle (lhs rhs : CValue)
  | fcmpOge (lhs rhs : CValue)
  | andB (lhs rhs : CValue)
  | orB (lhs rhs : CValue)
  | notB (v : CValue)
  | negI (v : CValue)
  | fnegI (v : CValue)
  | sitofp (v : CValue) (target : Ty)
  | fptosi (v : CValue) (target : Ty)
  | intcast (v : CValue) (target : Ty)
  | br (target : Nat)
  | condBr (cond : CValue) (thenBlk elseBlk : Nat)
  | ret (value : CValue)
  | retVoid
  | call (callee : String) (args : List CValue)

def CInstr.isTerminator : CInstr → Bool
  | .br _ => true
  | .condBr .. => true
  | .ret _ => true
  | .retVoid => true
  | _ => false

def CInstr.isAlloca : CInstr → Bool
  | .alloca .. => true
  | _ => false

/-- Is `i` a conversion emitted by signed-int-to-float promotion? -/
def CInstr.isSitofp : CInstr → Bool
  | .sitofp .. => true
  | _ => false

structure CBlock where
  name : String
  instrs : List CInstr

structure CFn where
  name : String
  paramTys : List Ty
  paramNames : List String
  retTy : Ty
  blocks : List Nat

/-- State of `class CodeGenerator`: module, builder cursor,
`scope_stack` (head = innermost scope; each scope an association list with
first-match lookup standing for `std::map`), the `break_stack` and
`continue_stack` of block ids, and `current_function`. -/
structure CSt where
  nextId : Nat
  blockMap : List (Nat × CBlock)
  funcs : List CFn
  insertPt : Option Nat
  scopes : List (List (String × CValue))
  breakStack : List Nat
  continueStack : List Nat
  currentFunction : Option Nat

/-- The constructor runs `initialize()`, which enters the global scope. -/
def initStateC : CSt := ⟨0, [], [], none, [[]], [], [], none⟩

def lookupBlockC (s : CSt) (bid : Nat) : Option CBlock :=
  (s.blockMap.find? (fun p => p.1 == bid)).map Prod.snd

def updateBlockC (s : CSt) (bid : Nat) (f : CBlock → CBlock) : CSt :=
  { s with blockMap := s.blockMap.map (fun p => if p.1 == bid then (p.1, f p.2) else p) }

/-- Append an instruction at the builder cursor and return its result value
with the given type. -/
def emitv (i : CInstr) (ty : Ty) (s : CSt) : CValue × CSt :=
  match s.insertPt with
  | none => (⟨ty, .inst s.nextId⟩, { s with nextId := s.nextId + 1 })
  | some bid =>
      (⟨ty, .inst s.nextId⟩,
        { (updateBlockC s bid (fun bb => { bb with instrs := bb.instrs ++ [i] })) with
            nextId := s.nextId + 1 })

/-- Emit an instruction whose result is not used. -/
def emitn (i : CInstr) (s : CSt) : CSt := (emitv i .voidTy s).2

/-- Helper: repackage an `emitv` result as an optional value. -/
def pairUp (p : CValue × CSt) : Option CValue × CSt := (some p.1, p.2)

def createBlockC (name : String) (s : CSt) : Nat × CSt :=
  (s.nextId,
   { s with nextId := s.nextId + 1, blockMap := s.blockMap ++ [(s.nextId, ⟨name, []⟩)] })

def listModifyC (f : α → α) : Nat → List α → List α
  | _, [] => []
  | 0, a :: as => f a :: as
  | n+1, a :: as => a :: listModifyC f n as

def attachBlockC (fidx bid : Nat) (s : CSt) : CSt :=
  { s with funcs := listModifyC (fun fn => { fn with blocks := fn.blocks ++ [bid] }) fidx s.funcs }

def createBlockInC (name : String) (fidx : Nat) (s : CSt) : Nat × CSt :=
  let (bid, s) := createBlockC name s
  (bid, attachBlockC fidx bid s)

def setInsertPointC (bid : Nat) (s : CSt) : CSt := { s with insertPt := some bid }

def parentOfC (s : CSt) (bid : Nat) : Option Nat :=
  s.funcs.findIdx? (fun fn => fn.blocks.contains bid)

def getTerminatorC (bb : CBlock) : Option CInstr :=
  match bb.instrs.getLast? with
  | some i => if i.isTerminator then some i else none
  | none => none

def blockTerminatedC (s : CSt) (bid : Nat) : Bool :=
  match lookupBlockC s bid with
  | some bb => (getTerminatorC bb).isSome
  | none => false

/-- `CodeGenerator::enterScope`. -/
def enterScope (s : CSt) : CSt := { s with scopes := [] :: s.scopes }

/-- `CodeGenerator::exitScope`. -/
def exitScope (s : CSt) : CSt :=
  { s with scopes := match s.scopes with
    | [] => []
    | _ :: rest => rest }

/-- `CodeGenerator::getVariable`: innermost scope outward. -/
def getVariable (s : CSt) (name : String) : Option CValue :=
  match s.scopes.findSome? (fun sc => (sc.find? (fun p => p.1 == name)).map Prod.snd) with
  | some v => some v
  | none => none

/-- `CodeGenerator::setVariable`: bind in the innermost scope. -/
def setVariable (name : String) (v : CValue) (s : CSt) : CSt :=
  { s with scopes := match s.scopes with
    | [] => []
    | sc :: rest => ((name, v) :: sc) :: rest }

/-- `CodeGenerator::getFunction` = `module->getFunction(name)`. -/
def getFunctionC (s : CSt) (name : String) : Option Nat :=
  s.funcs.findIdx? (fun fn => fn.name == name)

/-- `CodeGenerator::createCast` (src/codegen.cpp:72): int-to-float uses
`CreateSIToFP`, float-to-int `CreateFPToSI`, int-to-int `CreateIntCast`;
anything else (including an exact type match) returns the value unchanged. -/
def createCast (v : CValue) (target : Ty) (s : CSt) : CValue × CSt :=
  if v.ty = target then (v, s)
  else if v.ty.isIntegerTy && target.isFloatingPointTy then
    emitv (.sitofp v target) target s
  else if v.ty.isFloatingPointTy && target.isIntegerTy then
    emitv (.fptosi v target) target s
  else if v.ty.isIntegerTy && target.isIntegerTy then
    emitv (.intcast v target) target s
  else (v, s)

/-- The AST of src/ast_nodes.h: a single `ASTNode` hierarchy.  Nodes not
reached by the properties below (unary expressions, string literals, array
accesses, externs) are omitted.  `IntegerLiteralNode` holds an int,
`FloatLiteralNode` a float — hence float literals lower to f32 constants. -/
inductive Node where
  | intLit (value : Int)
  | floatLit (value : Float)
  | charLit (value : Int)
  | boolLit (value : Bool)
  | identifier (name : String)
  | binaryExpr (op : String) (left right : Node)
  | assignment (lhs rhs : Node)
  | functionCall (name : String) (args : List Node)
  | compound (stmts : List Node)
  | exprStmt (e : Option Node)
  | ifStmt (cond thenStmt : Node) (elseStmt : Option Node)
  | whileStmt (cond body : Node)
  | forStmt (init cond inc : Option Node) (body : Node)
  | returnStmt (e : Option Node)
  | breakStmt
  | continueStmt
  | varDecl (tyName name : String) (init : Option Node)

end CGen

namespace CGen

/-- `CodeGenerator::codegenIdentifier` (src/codegen.cpp): look the name up in
the scope stack and load from its slot; null (with a `cerr` message) when the
name is unknown. -/
def codegenIdentifier (name : String) (s : CSt) : Except String (Option CValue × CSt) :=
  match getVariable s name with
  | none => .ok (none, s)   -- "Error: Undefined variable" on cerr
  | some slot =>
    match slot.ty.pointerElement with
    | none => .error ("getPointerElementType on a non-pointer value")
    | some elemTy => .ok (pairUp (emitv (.load elemTy slot) elemTy s))

/-- `CodeGenerator::codegenBreakStatement` (src/codegen.cpp:370): branch to
the top of `break_stack`; outside a loop only an error is printed. -/
def codegenBreakStatement (s : CSt) : Except String (Option CValue × CSt) :=
  match s.breakStack with
  | [] => .ok (none, s)
  | b :: _ => .ok (none, emitn (.br b) s)

/-- `CodeGenerator::codegenContinueStatement` (src/codegen.cpp:378). -/
def codegenContinueStatement (s : CSt) : Except String (Option CValue × CSt) :=
  match s.continueStack with
  | [] => .ok (none, s)
  | c :: _ => .ok (none, emitn (.br c) s)

mutual
/-- The virtual `codegen` dispatch of src/ast_nodes.cpp into the
`CodeGenerator::codegenX` member functions (src/codegen.cpp), one case per
node class.  `fuel` bounds the recursion depth of the C++ (which would
overflow the stack on deeper inputs); every recursive call decrements it.
Expressions return null (`none`) on the soft error paths that print to
`cerr`; paths on which the C++ dereferences a null pointer or violates an
LLVM assertion are modelled as `.error`. -/
def codegenNode : Nat → Node → CSt → Except String (Option CValue × CSt)
  | 0, _, _ => .error ("recursion limit exceeded")
  | fuel+1, n, s =>
    match n with
    | .intLit v => .ok (some ⟨.i32, .constInt v⟩, s)
    | .floatLit v => .ok (some ⟨.fl32, .constFP v⟩, s)
    | .charLit v => .ok (some ⟨.i8, .constInt v⟩, s)
    | .boolLit b => .ok (some ⟨.i1, .constInt (if b then 1 else 0)⟩, s)
    | .identifier name => codegenIdentifier name s
    | .binaryExpr op left right => codegenBinaryExpression fuel op left right s
    | .assignment lhs rhs => codegenAssignment fuel lhs rhs s
    | .functionCall name args => codegenFunctionCall fuel name args s
    | .compound stmts => codegenCompoundStatement fuel stmts s
    | .exprStmt e =>
        match e with
        | some e => codegenNode fuel e s
        | none => .ok (none, s)
    | .ifStmt cond thenStmt elseStmt => codegenIfStatement fuel cond thenStmt elseStmt s
    | .whileStmt cond body => codegenWhileStatement fuel cond body s
    | .forStmt init cond inc body => codegenForStatement fuel init cond inc body s
    | .returnStmt e => codegenReturnStatement fuel e s
    | .breakStmt => codegenBreakStatement s
    | .continueStmt => codegenContinueStatement s
    | .varDecl tyName name init => codegenVariableDeclaration fuel tyName name init s
termination_by structural fuel => fuel

/-- `CodeGenerator::codegenBinaryExpression` (src/codegen.cpp:408): both
operands are lowered first; the operator is picked by string comparison, the
floating variant when EITHER operand is floating — with no cast of the other
operand. -/
def codegenBinaryExpression (fuel : Nat) (op : String) (left right : Node) (s : CSt) :
    Except String (Option CValue × CSt) :=
  match fuel with
  | 0 => .error ("recursion limit exceeded")
  | fuel+1 =>
    match codegenNode fuel left s with
    | .error msg => .error msg
    | .ok (none, s) =>
      -- the right operand is still evaluated before the null check
      match codegenNode fuel right s with
      | .error msg => .error msg
      | .ok (_, s) => .ok (none, s)
    | .ok (some l, s) =>
      match codegenNode fuel right s with
      | .error msg => .error msg
      | .ok (none, s) => .ok (none, s)
      | .ok (some r, s) =>
        let fp := l.ty.isFloatingPointTy || r.ty.isFloatingPointTy
        if op == "+" then
          .ok (if fp then pairUp (emitv (.fadd l r) l.ty s) else pairUp (emitv (.add l r) l.ty s))
        else if op == "-" then
          .ok (if fp then pairUp (emitv (.fsub l r) l.ty s) else pairUp (emitv (.sub l r) l.ty s))
        else if op == "*" then
          .ok (if fp then pairUp (emitv (.fmul l r) l.ty s) else pairUp (emitv (.mul l r) l.ty s))
        else if op == "/" then
          .ok (if fp then pairUp (emitv (.fdiv l r) l.ty s) else pairUp (emitv (.sdiv l r) l.ty s))
        else if op == "%" then .ok (pairUp (emitv (.srem l r) l.ty s))
        else if op == "==" then
          .ok (if fp then pairUp (emitv (.fcmpOeq l r) .i1 s) else pairUp (emitv (.icmpEq l r) .i1 s))
        else if op == "!=" then
          .ok (if fp then pairUp (emitv (.fcmpOne l r) .i1 s) else pairUp (emitv (.icmpNe l r) .i1 s))
        else if op == "<" then
          .ok (if fp then pairUp (emitv (.fcmpOlt l r) .i1 s) else pairUp (emitv (.icmpSlt l r) .i1 s))
        else if op == ">" then
          .ok (if fp then pairUp (emitv (.fcmpOgt l r) .i1 s) else pairUp (emitv (.icmpSgt l r) .i1 s))
        else if op == "<=" then
          .ok (if fp then pairUp (emitv (.fcmpOle l r) .i1 s) else pairUp (emitv (.icmpSle l r) .i1 s))
        else if op == ">=" then
          .ok (if fp then pairUp (emitv (.fcmpOge l r) .i1 s) else pairUp (emitv (.icmpSge l r) .i1 s))
        else if op == "&&" then .ok (pairUp (emitv (.andB l r) l.ty s))
        else if op == "||" then .ok (pairUp (emitv (.orB l r) l.ty s))
        else .ok (none, s)    -- "Error: Unknown binary operator" on cerr
termination_by structural fuel

/-- `CodeGenerator::codegenAssignment`: rhs first, then the lhs pattern. -/
def codegenAssignment (fuel : Nat) (lhs rhs : Node) (s : CSt) :
    Except String (Option CValue × CSt) :=
  match fuel with
  | 0 => .error ("recursion limit exceeded")
  | fuel+1 =>
    match codegenNode fuel rhs s with
    | .error msg => .error msg
    | .ok (none, s) => .ok (none, s)
    | .ok (some rv, s) =>
      match lhs with
      | .identifier name =>
        match getVariable s name with
        | none => .ok (none, s)   -- "Error: Undefined variable" on cerr
        | some slot =>
          match slot.ty.pointerElement with
          | none => .error ("getPointerElementType on a non-pointer value")
          | some varTy =>
            let (casted, s) := createCast rv varTy s
            let s := emitn (.store casted slot) s
            .ok (some casted, s)
      | _ => .ok (none, s)        -- non-identifier target: fall through to nullptr
termination_by structural fuel

/-- `CodeGenerator::codegenFunctionCall` (src/codegen.cpp:577): no arity
check against the callee. -/
def codegenFunctionCall (fuel : Nat) (name : String) (args : List Node) (s : CSt) :
    Except String (Option CValue × CSt) :=
  match fuel with
  | 0 => .error ("recursion limit exceeded")
  | fuel+1 =>
    match getFunctionC s name with
    | none => .ok (none, s)       -- "Error: Unknown function" on cerr
    | some fidx =>
      match codegenCallArgs fuel args s with
      | .error msg => .error msg
      | .ok (none, s) => .ok (none, s)
      | .ok (some argVals, s) =>
        let retTy := ((s.funcs.get? fidx).map CFn.retTy).getD .i32
        .ok (pairUp (emitv (.call name argVals) retTy s))
termination_by structural fuel

/-- `CodeGenerator::codegenCompoundStatement`. -/
def codegenCompoundStatement (fuel : Nat) (stmts : List Node) (s : CSt) :
    Except String (Option CValue × CSt) :=
  match fuel with
  | 0 => .error ("recursion limit exceeded")
  | fuel+1 =>
    let s := enterScope s
    match codegenNodes fuel stmts s with
    | .error msg => .error msg
    | .ok (last, s) => .ok (last, exitScope s)
termination_by structural fuel

/-- `CodeGenerator::codegenIfStatement` (src/codegen.cpp:212): the branches
to the merge block are unconditional. -/
def codegenIfStatement (fuel : Nat) (cond thenStmt : Node) (elseStmt : Option Node) (s : CSt) :
    Except String (Option CValue × CSt) :=
  match fuel with
  | 0 => .error ("recursion limit exceeded")
  | fuel+1 =>
    match codegenNode fuel cond s with
    | .error msg => .error msg
    | .ok (none, s) => .ok (none, s)
    | .ok (some condV, s) =>
      let (cmp, s) := emitv (.icmpNe condV ⟨.i32, .constInt 0⟩) .i1 s
      match s.insertPt.bind (parentOfC s) with
      | none => .error ("insertion block has no parent function")
      | some fidx =>
        let (thenBB, s) := createBlockInC ("then") fidx s
        let (elseBB, s) := createBlockC ("else") s
        let (mergeBB, s) := createBlockC ("ifcont") s
        let s := emitn (.condBr cmp thenBB elseBB) s
        let s := setInsertPointC thenBB s
        match codegenNode fuel thenStmt s with
        | .error msg => .error msg
        | .ok (_, s) =>
          let s := emitn (.br mergeBB) s
          let s := attachBlockC fidx elseBB s
          let s := setInsertPointC elseBB s
          match ((match elseStmt with
                 | some e => codegenNode fuel e s
                 | none => .ok (none, s)) :
                Except String (Option CValue × CSt)) with
          | .error msg => .error msg
          | .ok (_, s) =>
            let s := emitn (.br mergeBB) s
            let s := attachBlockC fidx mergeBB s
            .ok (none, setInsertPointC mergeBB s)
termination_by structural fuel

/-- `CodeGenerator::codegenWhileStatement` (src/codegen.cpp:251): pushes
`(after, cond)` onto the loop stacks, lowers the body, pops on exit. -/
def codegenWhileStatement (fuel : Nat) (cond body : Node) (s : CSt) :
    Except String (Option CValue × CSt) :=
  match fuel with
  | 0 => .error ("recursion limit exceeded")
  | fuel+1 =>
    match s.insertPt.bind (parentOfC s) with
    | none => .error ("insertion block has no parent function")
    | some fidx =>
      let (condBB, s) := createBlockInC ("whilecond") fidx s
      let (bodyBB, s) := createBlockC ("whilebody") s
      let (afterBB, s) := createBlockC ("whileafter") s
      let s := { s with breakStack := afterBB :: s.breakStack,
                        continueStack := condBB :: s.continueStack }
      let s := emitn (.br condBB) s
      let s := setInsertPointC condBB s
      match codegenNode fuel cond s with
      | .error msg => .error msg
      | .ok (none, _) => .error ("null condition value dereferenced")
      | .ok (some condV, s) =>
        let (cmp, s) := emitv (.icmpNe condV ⟨.i32, .constInt 0⟩) .i1 s
        let s := emitn (.condBr cmp bodyBB afterBB) s
        let s := attachBlockC fidx bodyBB s
        let s := setInsertPointC bodyBB s
        match codegenNode fuel body s with
        | .error msg => .error msg
        | .ok (_, s) =>
          let s := emitn (.br condBB) s
          let s := attachBlockC fidx afterBB s
          let s := setInsertPointC afterBB s
          let s := { s with breakStack := s.breakStack.tail,
                            continueStack := s.continueStack.tail }
          .ok (none, s)
termination_by structural fuel

/-- `CodeGenerator::codegenForStatement` (src/codegen.cpp:290): pushes
`(after, inc)` onto the loop stacks, lowers the body, pops on exit. -/
def codegenForStatement (fuel : Nat) (init cond inc : Option Node) (body : Node) (s : CSt) :
    Except String (Option CValue × CSt) :=
  match fuel with
  | 0 => .error ("recursion limit exceeded")
  | fuel+1 =>
    match s.insertPt.bind (parentOfC s) with
    | none => .error ("insertion block has no parent function")
    | some fidx =>
      let (initBB, s) := createBlockInC ("forinit") fidx s
      let (condBB, s) := createBlockC ("forcond") s
      let (bodyBB, s) := createBlockC ("forbody") s
      let (incBB, s) := createBlockC ("forinc") s
      let (afterBB, s) := createBlockC ("forafter") s
      let s := { s with breakStack := afterBB :: s.breakStack,
                        continueStack := incBB :: s.continueStack }
      let s := emitn (.br initBB) s
      let s := setInsertPointC initBB s
      match ((match init with
             | some i => codegenNode fuel i s
             | none => .ok (none, s)) : Except String (Option CValue × CSt)) with
      | .error msg => .error msg
      | .ok (_, s) =>
        let s := emitn (.br condBB) s
        let s := attachBlockC fidx condBB s
        let s := setInsertPointC condBB s
        match ((match cond with
               | some c =>
                 match codegenNode fuel c s with
                 | .error msg => .error msg
                 | .ok (none, _) => .error ("null condition value dereferenced")
                 | .ok (some condV, s) => .ok (emitv (.icmpNe condV ⟨.i32, .constInt 0⟩) .i1 s)
               | none => .ok (⟨.i1, .constInt 1⟩, s)) : Except String (CValue × CSt)) with
        | .error msg => .error msg
        | .ok (cmp, s) =>
          let s := emitn (.condBr cmp bodyBB afterBB) s
          let s := attachBlockC fidx bodyBB s
          let s := setInsertPointC bodyBB s
          match codegenNode fuel body s with
          | .error msg => .error msg
          | .ok (_, s) =>
            let s := emitn (.br incBB) s
            let s := attachBlockC fidx incBB s
            let s := setInsertPointC incBB s
            match ((match inc with
                   | some i => codegenNode fuel i s
                   | none => .ok (none, s)) : Except String (Option CValue × CSt)) with
            | .error msg => .error msg
            | .ok (_, s) =>
              let s := emitn (.br condBB) s
              let s := attachBlockC fidx afterBB s
              let s := setInsertPointC afterBB s
              let s := { s with breakStack := s.breakStack.tail,
                                continueStack := s.continueStack.tail }
              .ok (none, s)
termination_by structural fuel

/-- `CodeGenerator::codegenReturnStatement` (src/codegen.cpp:352). -/
def codegenReturnStatement (fuel : Nat) (e : Option Node) (s : CSt) :
    Except String (Option CValue × CSt) :=
  match fuel with
  | 0 => .error ("recursion limit exceeded")
  | fuel+1 =>
    match e with
    | some e =>
      match codegenNode fuel e s with
      | .error msg => .error msg
      | .ok (rv, s) =>
        match s.currentFunction.bind (fun i => (s.funcs.get? i).map CFn.retTy) with
        | none => .error ("current_function is null")
        | some retTy =>
          if retTy.isVoidTy then .ok (none, emitn .retVoid s)
          else
            match rv with
            | none => .error ("null return value dereferenced")
            | some rv =>
              let (casted, s) := createCast rv retTy s
              .ok (none, emitn (.ret casted) s)
    | none => .ok (none, emitn .retVoid s)
termination_by structural fuel

/-- `CodeGenerator::codegenVariableDeclaration` (src/codegen.cpp:165):
`builder->CreateAlloca` — at the CURRENT insertion point. -/
def codegenVariableDeclaration (fuel : Nat) (tyName name : String) (init : Option Node) (s : CSt) :
    Except String (Option CValue × CSt) :=
  match fuel with
  | 0 => .error ("recursion limit exceeded")
  | fuel+1 =>
    let varTy := getLLVMType tyName
    let (slot, s) := emitv (.alloca varTy name) (.ptr varTy) s
    let s := setVariable name slot s
    match init with
    | none => .ok (some slot, s)
    | some ie =>
      match codegenNode fuel ie s with
      | .error msg => .error msg
      | .ok (none, s) => .ok (some slot, s)   -- init failed: no store
      | .ok (some iv, s) =>
        let (casted, s) := createCast iv varTy s
        .ok (some slot, emitn (.store casted slot) s)
termination_by structural fuel

/-- The statement loop of `codegenCompoundStatement` (keeps the last value). -/
def codegenNodes : Nat → List Node → CSt → Except String (Option CValue × CSt)
  | _, [], s => .ok (none, s)
  | 0, _ :: _, _ => .error ("recursion limit exceeded")
  | fuel+1, n :: rest, s =>
      match codegenNode fuel n s with
      | .error msg => .error msg
      | .ok (v, s) =>
        match rest with
        | [] => .ok (v, s)
        | m :: ms => codegenNodes fuel (m :: ms) s
termination_by structural fuel _ => fuel

/-- The argument loop of `codegenFunctionCall`: left to right, abort (return
nullptr) on a null argument. -/
def codegenCallArgs : Nat → List Node → CSt → Except String (Option (List CValue) × CSt)
  | _, [], s => .ok (some [], s)
  | 0, _ :: _, _ => .error ("recursion limit exceeded")
  | fuel+1, n :: rest, s =>
      match codegenNode fuel n s with
      | .error msg => .error msg
      | .ok (none, s) => .ok (none, s)
      | .ok (some v, s) =>
        match codegenCallArgs fuel rest s with
        | .error msg => .error msg
        | .ok (none, s) => .ok (none, s)
        | .ok (some vs, s) => .ok (some (v :: vs), s)
termination_by structural fuel _ => fuel
end
structure Param where
  tyName : String
  name : String

/-- A `FunctionDefinitionNode` (return type, name, parameters, body). -/
structure FuncDef where
  retTyName : String
  name : String
  params : List Param
  body : Node

/-- The parameter loop of `codegenFunctionDefinition`: parameters are bound
directly to the incoming argument values — no stack slots are created. -/
def bindParams (params : List Param) (idx : Nat) (s : CSt) : CSt :=
  match params with
  | [] => s
  | p :: rest =>
      bindParams rest (idx + 1) (setVariable p.name ⟨getLLVMType p.tyName, .argRef idx⟩ s)

/-- `CodeGenerator::codegenFunctionDefinition` (src/codegen.cpp:96).  After
the body, a return is synthesized only when the return type is void and the
current block lacks a terminator. -/
def codegenFunctionDefinition (fuel : Nat) (fd : FuncDef) (s : CSt) : Except String CSt :=
  let retTy := getLLVMType fd.retTyName
  let fidx := s.funcs.length
  let s := { s with funcs := s.funcs ++
      [⟨fd.name, fd.params.map (fun p => getLLVMType p.tyName), fd.params.map Param.name, retTy, []⟩] }
  let (entryBB, s) := createBlockInC ("entry") fidx s
  let s := setInsertPointC entryBB s
  let s := enterScope s
  let s := bindParams fd.params 0 s
  let s := { s with currentFunction := some fidx }
  match codegenNode fuel fd.body s with
  | .error msg => .error msg
  | .ok (_, s) =>
    let s := if retTy.isVoidTy && !(match s.insertPt with
                                    | some bid => blockTerminatedC s bid
                                    | none => false) then emitn .retVoid s else s
    let s := exitScope s
    .ok { s with currentFunction := none }

end CGen

namespace IRGen

/-- Values of `clike::IRGenerator` (src/src/ir_generator.cpp): every
expression value is a double; the 32-bit `constInt` appears only in the
return of the synthesized `main` wrapper. -/
inductive IRv where
  | constFP (value : Float)
  | constInt (value : Int)
  | inst (id : Nat)
  | argRef (index : Nat)

/-- Instructions emitted by `clike::IRGenerator` (the subset reachable from
the embedded nodes). -/
inductive IInstr where
  | alloca (name : String)
  | load (slot : IRv) (name : String)
  | store (value slot : IRv)
  | fadd (lhs rhs : IRv)
  | fsub (lhs rhs : IRv)
  | fmul (lhs rhs : IRv)
  | fdiv (lhs rhs : IRv)
  | fcmpUlt (lhs rhs : IRv)
  | fcmpUgt (lhs rhs : IRv)
  | fcmpUeq (lhs rhs : IRv)
  | call (callee : String) (args : List IRv)
  | ret (v : IRv)

structure IBlock where
  name : String
  instrs : List IInstr

structure IFn where
  name : String
  arity : Nat
  blocks : List Nat

/-- State: module (functions and block store), builder cursor, and
`symbolTable_` — a stack of scopes; the C++ keeps a vector with the innermost
scope at the back and searches back to front, modelled here with the innermost
scope at the head. -/
structure ISt where
  nextId : Nat
  blockMap : List (Nat × IBlock)
  funcs : List IFn
  insertPt : Option Nat
  symbolTable : List (List (String × IRv))

def lookupBlockI (s : ISt) (bid : Nat) : Option IBlock :=
  (s.blockMap.find? (fun p => p.1 == bid)).map Prod.snd

def updateBlockI (s : ISt) (bid : Nat) (f : IBlock → IBlock) : ISt :=
  { s with blockMap := s.blockMap.map (fun p => if p.1 == bid then (p.1, f p.2) else p) }

def emitI (i : IInstr) (s : ISt) : IRv × ISt :=
  match s.insertPt with
  | none => (.inst s.nextId, { s with nextId := s.nextId + 1 })
  | some bid =>
      (.inst s.nextId,
        { (updateBlockI s bid (fun bb => { bb with instrs := bb.instrs ++ [i] })) with
            nextId := s.nextId + 1 })

def parentOfI (s : ISt) (bid : Nat) : Option Nat :=
  s.funcs.findIdx? (fun fn => fn.blocks.contains bid)

def entryBlockI (s : ISt) (fidx : Nat) : Option Nat :=
  match s.funcs.get? fidx with
  | some fn => fn.blocks.head?
  | none => none

/-- `IRGenerator::createEntryBlockAlloca` (src/src/ir_generator.cpp:305):
a temporary builder at the entry block's begin() — the alloca is prepended. -/
def createEntryBlockAllocaI (fidx : Nat) (name : String) (s : ISt) : IRv × ISt :=
  match entryBlockI s fidx with
  | some bid =>
      (.inst s.nextId,
        { (updateBlockI s bid (fun bb => { bb with instrs := IInstr.alloca name :: bb.instrs })) with
            nextId := s.nextId + 1 })
  | none => (.inst s.nextId, { s with nextId := s.nextId + 1 })

/-- `IRGenerator::getSymbol`: innermost scope first. -/
def getSymbol (s : ISt) (name : String) : Option IRv :=
  s.symbolTable.findSome? (fun sc => (sc.find? (fun p => p.1 == name)).map Prod.snd)

/-- `IRGenerator::addSymbol`: into the innermost scope. -/
def addSymbol (name : String) (v : IRv) (s : ISt) : ISt :=
  { s with symbolTable := match s.symbolTable with
    | [] => [[(name, v)]]
    | sc :: rest => ((name, v) :: sc) :: rest }

/-- `IRGenerator::getFunction` = `module_->getFunction(name)`. -/
def getFunctionI (s : ISt) (name : String) : Option Nat :=
  s.funcs.findIdx? (fun fn => fn.name == name)

/-- Expressions of the clike AST (src/include/ast.h); `BinaryExpr` carries a
single operator character. -/
inductive IExpr where
  | number (value : Float)
  | varE (name : String)
  | binary (op : Char) (left right : IExpr)
  | call (callee : String) (args : List IExpr)

mutual
/-- The `IRGenerator::codegen` overloads on expressions
(src/src/ir_generator.cpp:45-91) with `createBinaryOperation` inlined.
Failed lowerings return null (`none`) after printing to `cerr`; the state
keeps whatever was emitted before the failure. -/
def codegenExprI (e : IExpr) (s : ISt) : Option IRv × ISt :=
  match e with
  | .number v => (some (.constFP v), s)
  | .varE name =>
      match getSymbol s name with
      | none => (none, s)     -- "Unknown variable" on cerr
      | some slot =>
        let (v, s) := emitI (.load slot name) s
        (some v, s)
  | .binary op left right =>
      match codegenExprI left s with
      | (none, s) =>
        let (_, s) := codegenExprI right s
        (none, s)
      | (some l, s) =>
        match codegenExprI right s with
        | (none, s) => (none, s)
        | (some r, s) =>
          -- IRGenerator::createBinaryOperation (src/src/ir_generator.cpp:334)
          if op = '+' then let (v, s) := emitI (.fadd l r) s; (some v, s)
          else if op = '-' then let (v, s) := emitI (.fsub l r) s; (some v, s)
          else if op = '*' then let (v, s) := emitI (.fmul l r) s; (some v, s)
          else if op = '/' then let (v, s) := emitI (.fdiv l r) s; (some v, s)
          else if op = '<' then let (v, s) := emitI (.fcmpUlt l r) s; (some v, s)
          else if op = '>' then let (v, s) := emitI (.fcmpUgt l r) s; (some v, s)
          else if op = '=' then let (v, s) := emitI (.fcmpUeq l r) s; (some v, s)
          else (none, s)      -- "Invalid binary operator" on cerr
  | .call callee args =>
      -- IRGenerator::codegen(CallExpr&) (src/src/ir_generator.cpp:71):
      -- unknown callee and arity mismatch are checked before the arguments
      match getFunctionI s callee with
      | none => (none, s)     -- "Unknown function" on cerr
      | some fidx =>
        if ((s.funcs.get? fidx).map IFn.arity).getD 0 ≠ args.length then
          (none, s)           -- "Incorrect number of arguments" on cerr
        else
          match codegenArgsI args s with
          | (none, s) => (none, s)
          | (some argVals, s) =>
            let (v, s) := emitI (.call callee argVals) s
            (some v, s)

/-- The argument loop of `codegen(CallExpr&)`: left to right, abort on a null
argument. -/
def codegenArgsI (args : List IExpr) (s : ISt) : Option (List IRv) × ISt :=
  match args with
  | [] => (some [], s)
  | a :: rest =>
      match codegenExprI a s with
      | (none, s) => (none, s)
      | (some v, s) =>
        match codegenArgsI rest s with
        | (none, s) => (none, s)
        | (some vs, s) => (some (v :: vs), s)
end

/-- `IRGenerator::codegen(VarDeclStmt&)` (src/src/ir_generator.cpp:97): an
entry-block alloca; with an initializer the initializer value is stored, and
without one the constant 0.0 is stored; then the name is bound.  The paths on
which the C++ dereferences a null builder block are `.error`. -/
def codegenVarDeclI (name : String) (init : Option IExpr) (s : ISt) :
    Except String (Option IRv × ISt) :=
  match s.insertPt.bind (parentOfI s) with
  | none => .error ("insertion block has no parent function")
  | some fidx =>
    let (slot, s) := createEntryBlockAllocaI fidx name s
    match init with
    | some e =>
      match codegenExprI e s with
      | (none, s) => .ok (none, s)    -- init failed: returns before binding
      | (some iv, s) =>
        let (_, s) := emitI (.store iv slot) s
        .ok (some slot, addSymbol name slot s)
    | none =>
      -- Initialize with 0.0
      let (_, s) := emitI (.store (.constFP 0.0) slot) s
      .ok (some slot, addSymbol name slot s)

/-- `IRGenerator::enterScope` (src/src/ir_generator.cpp:310): push a fresh
innermost scope. -/
def enterScopeI (s : ISt) : ISt := { s with symbolTable := [] :: s.symbolTable }

/-- `IRGenerator::exitScope` (src/src/ir_generator.cpp:314): pops only while
more than one scope remains. -/
def exitScopeI (s : ISt) : ISt :=
  { s with symbolTable :=
      if s.symbolTable.length > 1 then s.symbolTable.tail else s.symbolTable }

def IInstr.isTerminator : IInstr → Bool
  | .ret _ => true
  | _ => false

def getTerminatorI (bb : IBlock) : Option IInstr :=
  match bb.instrs.getLast? with
  | some i => if i.isTerminator then some i else none
  | none => none

/-- `builder_->GetInsertBlock()->getTerminator()` as a Bool. -/
def blockTerminatedI (s : ISt) (bid : Nat) : Bool :=
  match lookupBlockI s bid with
  | some bb => (getTerminatorI bb).isSome
  | none => false

/-- Statements of the clike AST as `IRGenerator` lowers them; `if`, `while`
and `return` statements are omitted (no property below reaches them). -/
inductive IStmt where
  | exprS (e : IExpr)
  | varDeclS (name : String) (init : Option IExpr)
  | blockS (stmts : List IStmt)

mutual
/-- The `IRGenerator::codegen` overloads on statements
(src/src/ir_generator.cpp:93, 97, 200), with `fuel` bounding the recursion
depth of the C++ as elsewhere in this file.  `codegen(ExprStmt&)` forwards
the expression's value (null included); `codegen(BlockStmt&)` lowers its
statements in a fresh scope and ABORTS at the first null statement value:
the rest of the block is skipped and null is returned (an empty block also
returns null, `lastValue` never being assigned). -/
def codegenStmtI : Nat → IStmt → ISt → Except String (Option IRv × ISt)
  | 0, _, _ => .error ("recursion limit exceeded")
  | fuel+1, st, s =>
    match st with
    | .exprS e => .ok (codegenExprI e s)
    | .varDeclS name init => codegenVarDeclI name init s
    | .blockS stmts =>
        match codegenStmtsI fuel stmts (enterScopeI s) with
        | .error msg => .error msg
        | .ok (v, s) => .ok (v, exitScopeI s)
termination_by structural fuel => fuel

/-- The statement loop of `codegen(BlockStmt&)` (src/src/ir_generator.cpp:204). -/
def codegenStmtsI : Nat → List IStmt → ISt → Except String (Option IRv × ISt)
  | _, [], s => .ok (none, s)
  | 0, _ :: _, _ => .error ("recursion limit exceeded")
  | fuel+1, st :: rest, s =>
      match codegenStmtI fuel st s with
      | .error msg => .error msg
      | .ok (none, s) => .ok (none, s)
      | .ok (some v, s) =>
          match rest with
          | [] => .ok (some v, s)
          | r :: rs => codegenStmtsI fuel (r :: rs) s
termination_by structural fuel _ => fuel
end

/-- A `clike::FunctionDef` (name, argument names, body). -/
structure IFnDef where
  name : String
  args : List String
  body : IStmt

/-- The argument loop of `codegen(FunctionDef&)`: an entry-block alloca per
argument, a store of the incoming argument, and a binding. -/
def argLoopI (fidx : Nat) : List String → Nat → ISt → ISt
  | [], _, s => s
  | a :: rest, idx, s =>
      let (slot, s) := createEntryBlockAllocaI fidx a s
      let (_, s) := emitI (.store (.argRef idx) slot) s
      argLoopI fidx rest (idx + 1) (addSymbol a slot s)

/-- The prefix of `IRGenerator::codegen(FunctionDef&)`
(src/src/ir_generator.cpp:216): create the function and its entry block,
point the builder there, enter the argument scope and bind the arguments. -/
def funcSetupI (fd : IFnDef) (s : ISt) : Nat × ISt :=
  let fidx := s.funcs.length
  let s := { s with funcs := s.funcs ++ [(⟨fd.name, fd.args.length, []⟩ : IFn)] }
  let bid := s.nextId
  let s := { s with nextId := s.nextId + 1,
                    blockMap := s.blockMap ++ [(bid, (⟨"entry", []⟩ : IBlock))] }
  let s := { s with funcs := CGen.listModifyC
                      (fun fn => { fn with blocks := fn.blocks ++ [bid] }) fidx s.funcs }
  let s := { s with insertPt := some bid }
  (fidx, argLoopI fidx fd.args 0 (enterScopeI s))

/-- `llvm::Function::eraseFromParent`: the function and its basic blocks
leave the module. -/
def eraseFunctionI (fidx : Nat) (s : ISt) : ISt :=
  match s.funcs.get? fidx with
  | none => s
  | some fn =>
      { s with funcs := s.funcs.eraseIdx fidx,
               blockMap := s.blockMap.filter (fun p => !(fn.blocks.contains p.1)) }

/-- The block checks of `llvm::verifyFunction` (modelled as for `CodeGen`):
every block of the function ends in its only terminator. -/
def wellFormedBlockI (bb : IBlock) : Bool :=
  match bb.instrs.getLast? with
  | none => false
  | some last => last.isTerminator && bb.instrs.dropLast.all (fun i => !i.isTerminator)

def verifyFnOkI (s : ISt) (fidx : Nat) : Bool :=
  match s.funcs.get? fidx with
  | some fn =>
      fn.blocks.all (fun bid =>
        match lookupBlockI s bid with
        | some bb => wellFormedBlockI bb
        | none => false)
  | none => false

/-- `IRGenerator::codegen(FunctionDef&)` (src/src/ir_generator.cpp:216): a
redeclared name is refused (null); a NULL BODY VALUE erases the function from
the module and returns null — the fatal path; otherwise a `ret 0.0` backstop
is added when the current block lacks a terminator, and the function is
erased again when `llvm::verifyFunction` rejects it. -/
def codegenFunctionDefI (fuel : Nat) (fd : IFnDef) (s : ISt) :
    Except String (Option Nat × ISt) :=
  match getFunctionI s fd.name with
  | some _ => .ok (none, s)     -- "Function already exists" on cerr
  | none =>
    let (fidx, s) := funcSetupI fd s
    match codegenStmtI fuel fd.body s with
    | .error msg => .error msg
    | .ok (none, s) => .ok (none, exitScopeI (eraseFunctionI fidx s))
    | .ok (some _, s) =>
        match s.insertPt with
        | none => .error ("null insertion block dereferenced")
        | some bid =>
          let s := if blockTerminatedI s bid then s else (emitI (.ret (.constFP 0.0)) s).2
          let s := exitScopeI s
          if verifyFnOkI s fidx then .ok (some fidx, s)
          else .ok (none, eraseFunctionI fidx s)

/-- The function loop of `IRGenerator::codegen(Program&)`
(src/src/ir_generator.cpp:281): the first null function aborts the remaining
ones. -/
def codegenFnsI (fuel : Nat) : List IFnDef → ISt → Except String (Option ISt)
  | [], s => .ok (some s)
  | fd :: rest, s =>
      match codegenFunctionDefI fuel fd s with
      | .error msg => .error msg
      | .ok (none, _) => .ok none
      | .ok (some _, s) => codegenFnsI fuel rest s

/-- `IRGenerator::createMainFunction` (src/src/ir_generator.cpp:349): a fresh
`main` whose entry block returns the 32-bit constant 0 (the lookup inside it
finds the just-created `main` itself, so no user call is emitted there). -/
def createMainFunctionI (s : ISt) : ISt :=
  let fidx := s.funcs.length
  let s := { s with funcs := s.funcs ++ [(⟨"main", 0, []⟩ : IFn)] }
  let bid := s.nextId
  let s := { s with nextId := s.nextId + 1,
                    blockMap := s.blockMap ++ [(bid, (⟨"entry", []⟩ : IBlock))] }
  let s := { s with funcs := CGen.listModifyC
                      (fun fn => { fn with blocks := fn.blocks ++ [bid] }) fidx s.funcs }
  let s := { s with insertPt := some bid }
  (emitI (.ret (.constInt 0)) s).2

/-- `IRGenerator::codegen(Program&)` (src/src/ir_generator.cpp:276): null on
the first failed function — the module pointer the caller receives is null. -/
def codegenProgramI (fuel : Nat) (fds : List IFnDef) (s : ISt) :
    Except String (Option ISt) :=
  match codegenFnsI fuel fds s with
  | .error msg => .error msg
  | .ok none => .ok none
  | .ok (some s) =>
      .ok (some (if (getFunctionI s ("main")).isSome then s else createMainFunctionI s))

/-- Straight-line memory semantics for the emitted instructions: the last
store to a stack slot wins; slots are identified by the id of their alloca
instruction. -/
def memStep (m : List (Nat × IRv)) : IInstr → List (Nat × IRv)
  | .store v (.inst id) => (id, v) :: m
  | _ => m

def memAfter (instrs : List IInstr) : List (Nat × IRv) :=
  instrs.foldl memStep []

def memLookup (m : List (Nat × IRv)) (id : Nat) : Option IRv :=
  (m.find? (fun p => p.1 == id)).map Prod.snd

/-- Does the instruction store to slot `id`? -/
def storesTo (i : IInstr) (id : Nat) : Bool :=
  match i with
  | .store _ (.inst sid) => sid == id
  | _ => false

end IRGen

namespace TLexer

/-- Token kinds of src/lexer.cpp.  The enum constants this file uses
(`tok_semicolon`, `tok_assign`, ...) are not defined anywhere in the
repository; only their distinctness matters, so they are modelled as an
inductive.  Basic arithmetic operator characters are returned as themselves
(`charT`). -/
inductive TTok where
  | eofT
  | kwDef
  | kwExt
  | kwIf
  | kwThen
  | kwElse
  | kwFor
  | kwWhile
  | kwReturn
  | kwInt
  | kwDouble
  | kwVoid
  | kwBool
  | numberT
  | identifierT
  | eqT
  | neT
  | leT
  | geT
  | assignT
  | ltT
  | gtT
  | semicolonT
  | commaT
  | lparenT
  | rparenT
  | lbraceT
  | rbraceT
  | charT (c : Char)
deriving DecidableEq

/-- Lexer state: `currentChar` plus the remaining characters (the C++ keeps
the whole string and an index; `'\x00'` is the end sentinel set by
`advance`), and the `IdentifierStr`/`NumVal` side channels. -/
structure TLSt where
  cur : Char
  rest : List Char
  identifierStr : String
  numVal : Float

def nulChar : Char := Char.ofNat 0

def mkLexer (s : String) : TLSt :=
  match s.toList with
  | [] => ⟨nulChar, [], "", 0.0⟩
  | c :: r => ⟨c, r, "", 0.0⟩

/-- `Lexer::advance`. -/
def advanceT (st : TLSt) : TLSt :=
  match st.rest with
  | [] => { st with cur := nulChar, rest := [] }
  | c :: r => { st with cur := c, rest := r }

/-- C `isspace`. -/
def isSpaceC (c : Char) : Bool :=
  -- space, tab, newline, vertical tab, form feed, carriage return
  c = ' ' || c = '\t' || c = '\n' || c = Char.ofNat 11 || c = Char.ofNat 12 || c = '\r'

/-- The loop of `Lexer::skipWhitespace`, on the current char and the
remaining input (the identifier/number side channels ride along). -/
def skipWsGo (idStr : String) (nv : Float) : Char → List Char → TLSt
  | c, [] => if isSpaceC c then ⟨nulChar, [], idStr, nv⟩ else ⟨c, [], idStr, nv⟩
  | c, c2 :: r =>
      if isSpaceC c then skipWsGo idStr nv c2 r else ⟨c, c2 :: r, idStr, nv⟩

/-- `Lexer::skipWhitespace`. -/
def skipWhitespaceT (st : TLSt) : TLSt :=
  skipWsGo st.identifierStr st.numVal st.cur st.rest

/-- The line-comment loop of `Lexer::skipComment`. -/
def skipLineGo (idStr : String) (nv : Float) : Char → List Char → TLSt
  | c, [] =>
      if c ≠ nulChar ∧ c ≠ '\n' then ⟨nulChar, [], idStr, nv⟩ else ⟨c, [], idStr, nv⟩
  | c, c2 :: r =>
      if c ≠ nulChar ∧ c ≠ '\n' then skipLineGo idStr nv c2 r
      else ⟨c, c2 :: r, idStr, nv⟩

def skipLineCommentT (st : TLSt) : TLSt :=
  skipLineGo st.identifierStr st.numVal st.cur st.rest

/-- The block-comment loop of `Lexer::skipComment`. -/
def skipBlockGo (idStr : String) (nv : Float) : Char → List Char → TLSt
  | c, rest =>
      if c ≠ nulChar then
        if c = '*' ∧ rest.head? = some '/' then
          advanceT (advanceT ⟨c, rest, idStr, nv⟩)
        else
          match rest with
          | [] => ⟨nulChar, [], idStr, nv⟩
          | c2 :: r => skipBlockGo idStr nv c2 r
      else ⟨c, rest, idStr, nv⟩

def skipBlockCommentT (st : TLSt) : TLSt :=
  skipBlockGo st.identifierStr st.numVal st.cur st.rest

/-- `Lexer::skipComment` (only reached when `cur = '/'` and the next char
makes a comment). -/
def skipCommentT (st : TLSt) : TLSt :=
  match st.rest.head? with
  | some '/' => skipLineCommentT st
  | some '*' => skipBlockCommentT (advanceT (advanceT st))
  | _ => st

/-- The loop of `Lexer::readNumber`: digits and dots. -/
def readNumGo (idStr : String) (nv : Float) (acc : List Char) :
    Char → List Char → List Char × TLSt
  | c, [] =>
      if c.isDigit ∨ c = '.' then (acc ++ [c], ⟨nulChar, [], idStr, nv⟩)
      else (acc, ⟨c, [], idStr, nv⟩)
  | c, c2 :: r =>
      if c.isDigit ∨ c = '.' then readNumGo idStr nv (acc ++ [c]) c2 r
      else (acc, ⟨c, c2 :: r, idStr, nv⟩)

/-- `Lexer::readNumber`. -/
def readNumberT (st : TLSt) (acc : List Char) : List Char × TLSt :=
  readNumGo st.identifierStr st.numVal acc st.cur st.rest

/-- The loop of `Lexer::readIdentifier`. -/
def readIdentGo (idStr : String) (nv : Float) (acc : List Char) :
    Char → List Char → List Char × TLSt
  | c, [] =>
      if c.isAlphanum ∨ c = '_' then (acc ++ [c], ⟨nulChar, [], idStr, nv⟩)
      else (acc, ⟨c, [], idStr, nv⟩)
  | c, c2 :: r =>
      if c.isAlphanum ∨ c = '_' then readIdentGo idStr nv (acc ++ [c]) c2 r
      else (acc, ⟨c, c2 :: r, idStr, nv⟩)

/-- `Lexer::readIdentifier`. -/
def readIdentifierT (st : TLSt) (acc : List Char) : List Char × TLSt :=
  readIdentGo st.identifierStr st.numVal acc st.cur st.rest

/-- Model of `std::stod` on the digit-and-dot strings `readNumber` yields.
Never evaluated by any proof below; it records that `NumVal` is the parsed
double. -/
def stodT (s : String) : Float :=
  match s.splitOn "." with
  | [] => 0.0
  | [ip] => Float.ofNat (ip.toNat?.getD 0)
  | ip :: fp :: _ =>
      Float.ofNat (ip.toNat?.getD 0) +
        Float.ofNat (fp.toNat?.getD 0) / Float.ofNat (10 ^ fp.length)

/-- The keyword table of `Lexer::getNextToken`. -/
def keywordT (s : String) : Option TTok :=
  if s = "def" then some .kwDef
  else if s = "extern" then some .kwExt
  else if s = "if" then some .kwIf
  else if s = "then" then some .kwThen
  else if s = "else" then some .kwElse
  else if s = "for" then some .kwFor
  else if s = "while" then some .kwWhile
  else if s = "return" then some .kwReturn
  else if s = "int" then some .kwInt
  else if s = "double" then some .kwDouble
  else if s = "void" then some .kwVoid
  else if s = "bool" then some .kwBool
  else none

/-- `Lexer::getNextToken` (src/lexer.cpp:89).  The function recurses after a
comment and — crucially — after an unrecognized character ("Unknown
character, skip it", src/lexer.cpp:182).  The recursion is bounded by fuel;
`getNextTokenT` below supplies enough fuel to cover the whole input.  There
is no error channel at all: the state carries none and no token kind encodes
an error. -/
def gettokGo : Nat → TLSt → TTok × TLSt
  | 0, st => (.eofT, st)    -- fuel cannot run out when supplied by getNextTokenT
  | fuel + 1, st =>
    let st := skipWhitespaceT st
    if st.cur = '/' ∧ (st.rest.head? = some '/' ∨ st.rest.head? = some '*') then
      gettokGo fuel (skipCommentT st)
    else if st.cur = nulChar then (.eofT, st)
    else if st.cur.isDigit then
      let (numStr, st) := readNumberT st []
      (.numberT, { st with numVal := stodT (String.mk numStr) })
    else if st.cur.isAlpha ∨ st.cur = '_' then
      let (idStr, st) := readIdentifierT st []
      let s := String.mk idStr
      match keywordT s with
      | some k => (k, { st with identifierStr := s })
      | none => (.identifierT, { st with identifierStr := s })
    else if st.cur = '=' ∧ st.rest.head? = some '=' then (.eqT, advanceT (advanceT st))
    else if st.cur = '!' ∧ st.rest.head? = some '=' then (.neT, advanceT (advanceT st))
    else if st.cur = '<' ∧ st.rest.head? = some '=' then (.leT, advanceT (advanceT st))
    else if st.cur = '>' ∧ st.rest.head? = some '=' then (.geT, advanceT (advanceT st))
    else
      let thisChar := st.cur
      let st := advanceT st
      if thisChar = '=' then (.assignT, st)
      else if thisChar = '<' then (.ltT, st)
      else if thisChar = '>' then (.gtT, st)
      else if thisChar = ';' then (.semicolonT, st)
      else if thisChar = ',' then (.commaT, st)
      else if thisChar = '(' then (.lparenT, st)
      else if thisChar = ')' then (.rparenT, st)
      else if thisChar = '{' then (.lbraceT, st)
      else if thisChar = '}' then (.rbraceT, st)
      else if thisChar = '+' ∨ thisChar = '-' ∨ thisChar = '*' ∨ thisChar = '/' then
        (.charT thisChar, st)
      else gettokGo fuel st    -- unknown character: silently skipped

/-- One `getNextToken` call. -/
def getNextTokenT (st : TLSt) : TTok × TLSt :=
  gettokGo (st.rest.length + 2) st

end TLexer

namespace CLexer

/-- `clike::TokenType` (src/include/lexer.h). -/
inductive CTokType where
  | NUMBER
  | IDENTIFIER
  | IF
  | ELSE
  | WHILE
  | RETURN
  | VAR
  | PLUS
  | MINUS
  | MULTIPLY
  | DIVIDE
  | ASSIGN
  | EQUAL
  | LESS
  | GREATER
  | LESS_EQUAL
  | GREATER_EQUAL
  | NOT_EQUAL
  | LEFT_PAREN
  | RIGHT_PAREN
  | LEFT_BRACE
  | RIGHT_BRACE
  | SEMICOLON
  | COMMA
  | END_OF_FILE
  | UNKNOWN
deriving DecidableEq

/-- `clike::Token`. -/
structure CTok where
  type : CTokType
  value : String
  line : Int
  column : Int
deriving DecidableEq

/-- Lexer state: the remaining input (the C++ keeps the full string and an
index) and the 1-based position counters. -/
structure CLSt where
  input : List Char
  line : Int
  column : Int

def mkCLexer (s : String) : CLSt := ⟨s.toList, 1, 1⟩

/-- `Lexer::isDigit` = `std::isdigit`. -/
def isDigitC (c : Char) : Bool := c.isDigit

/-- `Lexer::isAlpha` = `std::isalpha(c) || c == '_'`. -/
def isAlphaC (c : Char) : Bool := c.isAlpha || c = '_'

def isAlphaNumericC (c : Char) : Bool := isAlphaC c || isDigitC c

/-- `Lexer::isOperator`. -/
def isOperatorC (c : Char) : Bool :=
  c = '+' || c = '-' || c = '*' || c = '/' ||
  c = '=' || c = '<' || c = '>' || c = '!'

/-- `Lexer::skipWhitespace` (with `skipComment` inlined: it consumes up to
but not including the next newline; each `advance` bumps the column). -/
def skipWhitespaceC : List Char → Int → Int → List Char × Int × Int
  | [], line, col => ([], line, col)
  | c :: r, line, col =>
      if c = ' ' ∨ c = '\t' then skipWhitespaceC r line (col + 1)
      else if c = '\n' then skipWhitespaceC r (line + 1) 1
      else if c = '\r' then
        if r.head? = some '\n' then skipWhitespaceC r.tail (line + 1) 1
        else skipWhitespaceC r (line + 1) 1
      else if c = '/' ∧ r.head? = some '/' then
        skipWhitespaceC (r.dropWhile (fun ch => ch ≠ '\n')) line
          (col + 1 + ((r.takeWhile (fun ch => ch ≠ '\n')).length : Int))
      else (c :: r, line, col)
termination_by l _ _ => l.length
decreasing_by
  all_goals simp
  · have h2 : r.tail.Sublist r := List.tail_sublist r
    have := h2.length_le
    omega
  · have h2 : (List.dropWhile (fun ch => !decide (ch = '\n')) r).Sublist r :=
      List.dropWhile_sublist _
    have := h2.length_le
    omega

/-- `Lexer::readNumber`: digits, then optionally a dot and more digits. -/
def readNumberC (l : List Char) (line col : Int) :
    String × List Char × Int × Int :=
  let digits := l.takeWhile isDigitC
  let rest := l.dropWhile isDigitC
  match rest with
  | '.' :: r2 =>
      let frac := r2.takeWhile isDigitC
      let rest2 := r2.dropWhile isDigitC
      (String.mk (digits ++ '.' :: frac), rest2,
       line, col + (digits.length : Int) + 1 + (frac.length : Int))
  | _ => (String.mk digits, rest, line, col + (digits.length : Int))

/-- `Lexer::getKeywordType` (UNKNOWN when not a keyword). -/
def getKeywordType (s : String) : CTokType :=
  if s = "if" then .IF
  else if s = "else" then .ELSE
  else if s = "while" then .WHILE
  else if s = "return" then .RETURN
  else if s = "var" then .VAR
  else .UNKNOWN

/-- `Lexer::readIdentifier`. -/
def readIdentifierC (l : List Char) (line col : Int) :
    String × List Char × Int × Int :=
  let chars := l.takeWhile isAlphaNumericC
  (String.mk chars, l.dropWhile isAlphaNumericC, line, col + (chars.length : Int))

/-- `Lexer::readOperator`: maximal munch over the four two-char operators;
an operator character combination not in the table yields UNKNOWN. -/
def readOperatorC (c : Char) (r : List Char) (line col : Int) :
    CTok × List Char × Int × Int :=
  let two := match r.head? with
    | some c2 =>
        let tc := String.mk [c, c2]
        if tc = "==" ∨ tc = "!=" ∨ tc = "<=" ∨ tc = ">=" then some c2 else none
    | none => none
  match two with
  | some c2 =>
      let v := String.mk [c, c2]
      let ty := if v = "==" then CTokType.EQUAL
        else if v = "<=" then CTokType.LESS_EQUAL
        else if v = ">=" then CTokType.GREATER_EQUAL
        else CTokType.NOT_EQUAL
      (⟨ty, v, line, col⟩, r.tail, line, col + 2)
  | none =>
      let v := String.mk [c]
      let ty := if v = "+" then CTokType.PLUS
        else if v = "-" then CTokType.MINUS
        else if v = "*" then CTokType.MULTIPLY
        else if v = "/" then CTokType.DIVIDE
        else if v = "=" then CTokType.ASSIGN
        else if v = "<" then CTokType.LESS
        else if v = ">" then CTokType.GREATER
        else CTokType.UNKNOWN
      (⟨ty, v, line, col⟩, r, line, col + 1)

/-- `clike::Lexer::getNextToken` (src/src/lexer.cpp:10).  An unrecognized
byte is consumed and returned as an UNKNOWN token — no error is raised and
the stream continues after it. -/
def getNextTokenC (st : CLSt) : CTok × CLSt :=
  let (l, line, col) := skipWhitespaceC st.input st.line st.column
  match l with
  | [] => (⟨.END_OF_FILE, "", line, col⟩, ⟨[], line, col⟩)
  | c :: r =>
    if isDigitC c then
      let (v, l2, line2, col2) := readNumberC (c :: r) line col
      (⟨.NUMBER, v, line, col⟩, ⟨l2, line2, col2⟩)
    else if isAlphaC c then
      let (v, l2, line2, col2) := readIdentifierC (c :: r) line col
      let kw := getKeywordType v
      if kw ≠ .UNKNOWN then (⟨kw, v, line, col⟩, ⟨l2, line2, col2⟩)
      else (⟨.IDENTIFIER, v, line, col⟩, ⟨l2, line2, col2⟩)
    else if isOperatorC c then
      let (tok, l2, line2, col2) := readOperatorC c r line col
      (tok, ⟨l2, line2, col2⟩)
    else
      -- single-character tokens; anything else becomes UNKNOWN
      let ty := if c = '(' then CTokType.LEFT_PAREN
        else if c = ')' then CTokType.RIGHT_PAREN
        else if c = '{' then CTokType.LEFT_BRACE
        else if c = '}' then CTokType.RIGHT_BRACE
        else if c = ';' then CTokType.SEMICOLON
        else if c = ',' then CTokType.COMMA
        else CTokType.UNKNOWN
      (⟨ty, String.mk [c], line, col + 1⟩, ⟨r, line, col + 1⟩)

end CLexer

namespace CParser

open CLexer

/-- Expressions of the clike AST (src/include/ast.h) as the parser builds
them; `NumberExpr` holds the `std::stod` of the lexeme. -/
inductive CExpr where
  | numberE (value : Float)
  | variableE (name : String)
  | binaryE (op : Char) (left right : CExpr)
  | callE (callee : String) (args : List CExpr)

/-- Statements of the clike AST.  `ExprStmt` may carry a null expression
(`parseStatement` wraps whatever `parseExpression` returned). -/
inductive CStmt where
  | exprS (e : Option CExpr)
  | varDeclS (name : String) (init : Option CExpr)
  | ifS (cond : CExpr) (thenS : CStmt) (elseS : Option CStmt)
  | whileS (cond : CExpr) (body : CStmt)
  | returnS (e : Option CExpr)
  | blockS (stmts : List CStmt)

/-- Parser state: `currentToken_` plus the tokens the lexer would still
deliver (`getNextToken` past the end yields END_OF_FILE), and a count of the
messages `reportError` wrote to `cerr` (their text is not modelled). -/
structure PState where
  cur : CTok
  rest : List CTok
  errs : Nat

def eofTok : CTok := ⟨.END_OF_FILE, "", 0, 0⟩

/-- `Parser::advance` (pull the next token). -/
def advanceP (s : PState) : PState :=
  ⟨s.rest.headD eofTok, s.rest.tail, s.errs⟩

/-- `Parser::reportError`: prints and continues. -/
def reportError (s : PState) : PState := { s with errs := s.errs + 1 }

/-- `Parser::expect`: consume on a match, otherwise report and do NOT
consume — parsing continues. -/
def expectP (t : CTokType) (s : PState) : PState :=
  if s.cur.type = t then advanceP s else reportError s

/-- Model of `std::stod` for the parser's NUMBER lexemes.  Never evaluated
by any proof below. -/
def stodP (s : String) : Float :=
  match s.splitOn "." with
  | [] => 0.0
  | [ip] => Float.ofNat (ip.toNat?.getD 0)
  | ip :: fp :: _ =>
      Float.ofNat (ip.toNat?.getD 0) +
        Float.ofNat (fp.toNat?.getD 0) / Float.ofNat (10 ^ fp.length)

mutual
/-- `clike::Parser::parseStatement` (src/src/parser.cpp:65).  All parser
functions take explicit fuel and recurse at fuel `n` from `n + 1`; the fuel-0
answer is null.  On the paths where the C++ builds a node with a null child
(after `reportError` already fired), the model collapses the node to null. -/
def parseStatement : Nat → PState → Option CStmt × PState
  | 0, s => (none, s)
  | n + 1, s =>
    match s.cur.type with
    | .IF => parseIfStatement n s
    | .WHILE => parseWhileStatement n s
    | .RETURN => parseReturnStatement n s
    | .VAR => parseVarDeclaration n s
    | .LEFT_BRACE =>
        match parseBlock n s with
        | (none, s) => (none, s)
        | (some stmts, s) => (some (.blockS stmts), s)
    | _ =>
        let (e, s) := parseExpression n s
        (some (.exprS e), s)

/-- `Parser::parseExpression`. -/
def parseExpression : Nat → PState → Option CExpr × PState
  | 0, s => (none, s)
  | n + 1, s => parseAssignment n s

/-- `Parser::parseAssignment` (assignment is parsed as a right-associative
`'='` BinaryExpr). -/
def parseAssignment : Nat → PState → Option CExpr × PState
  | 0, s => (none, s)
  | n + 1, s =>
    let (left, s) := parseEquality n s
    if s.cur.type = .ASSIGN then
      let s := advanceP s
      match parseAssignment n s with
      | (none, s) => (none, s)
      | (some right, s) =>
        match left with
        | none => (none, s)    -- C++ wraps a null lhs here
        | some l => (some (.binaryE '=' l right), s)
    else (left, s)

def parseEquality : Nat → PState → Option CExpr × PState
  | 0, s => (none, s)
  | n + 1, s =>
    let (left, s) := parseComparison n s
    parseEqualityLoop n left s

def parseEqualityLoop : Nat → Option CExpr → PState → Option CExpr × PState
  | 0, left, s => (left, s)
  | n + 1, left, s =>
    if s.cur.type = .EQUAL ∨ s.cur.type = .NOT_EQUAL then
      let op := if s.cur.type = .EQUAL then '=' else '!'
      let s := advanceP s
      match parseComparison n s with
      | (none, s) => (none, s)
      | (some right, s) =>
        match left with
        | none => (none, s)
        | some l => parseEqualityLoop n (some (.binaryE op l right)) s
    else (left, s)

/-- `Parser::parseComparison` — note the source collapses `<=` to `<` and
`>=` to `>` ("We'll handle <= as < for now"). -/
def parseComparison : Nat → PState → Option CExpr × PState
  | 0, s => (none, s)
  | n + 1, s =>
    let (left, s) := parseAddition n s
    parseComparisonLoop n left s

def parseComparisonLoop : Nat → Option CExpr → PState → Option CExpr × PState
  | 0, left, s => (left, s)
  | n + 1, left, s =>
    if s.cur.type = .LESS ∨ s.cur.type = .GREATER ∨
       s.cur.type = .LESS_EQUAL ∨ s.cur.type = .GREATER_EQUAL then
      let op := if s.cur.type = .LESS then '<'
        else if s.cur.type = .GREATER then '>'
        else if s.cur.type = .LESS_EQUAL then '<'
        else if s.cur.type = .GREATER_EQUAL then '>'
        else '<'
      let s := advanceP s
      match parseAddition n s with
      | (none, s) => (none, s)
      | (some right, s) =>
        match left with
        | none => (none, s)
        | some l => parseComparisonLoop n (some (.binaryE op l right)) s
    else (left, s)

def parseAddition : Nat → PState → Option CExpr × PState
  | 0, s => (none, s)
  | n + 1, s =>
    let (left, s) := parseMultiplication n s
    parseAdditionLoop n left s

def parseAdditionLoop : Nat → Option CExpr → PState → Option CExpr × PState
  | 0, left, s => (left, s)
  | n + 1, left, s =>
    if s.cur.type = .PLUS ∨ s.cur.type = .MINUS then
      let op := if s.cur.type = .PLUS then '+' else '-'
      let s := advanceP s
      match parseMultiplication n s with
      | (none, s) => (none, s)
      | (some right, s) =>
        match left with
        | none => (none, s)
        | some l => parseAdditionLoop n (some (.binaryE op l right)) s
    else (left, s)

def parseMultiplication : Nat → PState → Option CExpr × PState
  | 0, s => (none, s)
  | n + 1, s =>
    let (left, s) := parsePrimary n s
    parseMultiplicationLoop n left s

def parseMultiplicationLoop : Nat → Option CExpr → PState → Option CExpr × PState
  | 0, left, s => (left, s)
  | n + 1, left, s =>
    if s.cur.type = .MULTIPLY ∨ s.cur.type = .DIVIDE then
      let op := if s.cur.type = .MULTIPLY then '*' else '/'
      let s := advanceP s
      match parsePrimary n s with
      | (none, s) => (none, s)
      | (some right, s) =>
        match left with
        | none => (none, s)
        | some l => parseMultiplicationLoop n (some (.binaryE op l right)) s
    else (left, s)

/-- `Parser::parsePrimary` (src/src/parser.cpp:175).  For an identifier the
parser peeks the token after the current one (`lexer_.peekToken()`) to spot
a call. -/
def parsePrimary : Nat → PState → Option CExpr × PState
  | 0, s => (none, s)
  | n + 1, s =>
    match s.cur.type with
    | .NUMBER =>
        (some (.numberE (stodP s.cur.value)), advanceP s)
    | .IDENTIFIER =>
        let name := s.cur.value
        if (s.rest.headD eofTok).type = .LEFT_PAREN then
          parseCall n name (advanceP s)
        else (some (.variableE name), advanceP s)
    | .LEFT_PAREN =>
        let s := advanceP s
        match parseExpression n s with
        | (none, s) => (none, s)
        | (some e, s) => (some e, expectP .RIGHT_PAREN s)
    | _ => (none, reportError s)

/-- `Parser::parseCall`.  The do/while tests `match(COMMA)` without
consuming, so a comma makes the next iteration re-parse from the comma. -/
def parseCall : Nat → String → PState → Option CExpr × PState
  | 0, _, s => (none, s)
  | n + 1, callee, s =>
    let s := expectP .LEFT_PAREN s
    if s.cur.type ≠ .RIGHT_PAREN then parseCallLoop n callee [] s
    else (some (.callE callee []), expectP .RIGHT_PAREN s)

def parseCallLoop : Nat → String → List CExpr → PState → Option CExpr × PState
  | 0, _, _, s => (none, s)
  | n + 1, callee, args, s =>
    match parseExpression n s with
    | (none, s) => (none, s)
    | (some a, s) =>
      if s.cur.type = .COMMA then parseCallLoop n callee (args ++ [a]) s
      else (some (.callE callee (args ++ [a])), expectP .RIGHT_PAREN s)

/-- `Parser::parseBlock`. -/
def parseBlock : Nat → PState → Option (List CStmt) × PState
  | 0, s => (none, s)
  | n + 1, s =>
    let s := expectP .LEFT_BRACE s
    match parseBlockLoop n [] s with
    | (none, s) => (none, s)
    | (some stmts, s) => (some stmts, expectP .RIGHT_BRACE s)

def parseBlockLoop : Nat → List CStmt → PState → Option (List CStmt) × PState
  | 0, acc, s => (some acc, s)
  | n + 1, acc, s =>
    if s.cur.type ≠ .RIGHT_BRACE ∧ s.cur.type ≠ .END_OF_FILE then
      match parseStatement n s with
      | (none, s) => (none, s)
      | (some st, s) =>
        let s := if s.cur.type = .SEMICOLON then advanceP s else s
        parseBlockLoop n (acc ++ [st]) s
    else (some acc, s)

/-- `clike::Parser::parseIfStatement` (src/src/parser.cpp:232): parse the
condition and the then-statement, then attach an else-branch exactly when the
CURRENT token is `else` — which an inner nested if has already consumed if it
could. -/
def parseIfStatement : Nat → PState → Option CStmt × PState
  | 0, s => (none, s)
  | n + 1, s =>
    let s := expectP .IF s
    let s := expectP .LEFT_PAREN s
    match parseExpression n s with
    | (none, s) => (none, s)
    | (some cond, s) =>
      let s := expectP .RIGHT_PAREN s
      match parseStatement n s with
      | (none, s) => (none, s)
      | (some thenS, s) =>
        if s.cur.type = .ELSE then
          let s := advanceP s
          match parseStatement n s with
          | (none, s) => (none, s)
          | (some elseS, s) => (some (.ifS cond thenS (some elseS)), s)
        else (some (.ifS cond thenS none), s)

def parseWhileStatement : Nat → PState → Option CStmt × PState
  | 0, s => (none, s)
  | n + 1, s =>
    let s := expectP .WHILE s
    let s := expectP .LEFT_PAREN s
    match parseExpression n s with
    | (none, s) => (none, s)
    | (some cond, s) =>
      let s := expectP .RIGHT_PAREN s
      match parseStatement n s with
      | (none, s) => (none, s)
      | (some body, s) => (some (.whileS cond body), s)

def parseReturnStatement : Nat → PState → Option CStmt × PState
  | 0, s => (none, s)
  | n + 1, s =>
    let s := expectP .RETURN s
    if s.cur.type ≠ .SEMICOLON ∧ s.cur.type ≠ .RIGHT_BRACE then
      match parseExpression n s with
      | (none, s) => (none, s)
      | (some e, s) => (some (.returnS (some e)), s)
    else (some (.returnS none), s)

def parseVarDeclaration : Nat → PState → Option CStmt × PState
  | 0, s => (none, s)
  | n + 1, s =>
    let s := expectP .VAR s
    if s.cur.type ≠ .IDENTIFIER then (none, reportError s)
    else
      let name := s.cur.value
      let s := advanceP s
      if s.cur.type = .ASSIGN then
        let s := advanceP s
        match parseExpression n s with
        | (none, s) => (none, s)
        | (some init, s) => (some (.varDeclS name (some init)), s)
      else (some (.varDeclS name none), s)
end

end CParser

namespace CG

def funcNames (s : St) : List String := s.funcs.map Fn.name

/-- `bid` is the entry block of one of the functions `fns`. -/
def isEntryOf (fns : List Fn) (bid : Nat) : Prop :=
  ∃ fn ∈ fns, fn.blocks.head? = some bid

/-- `bid` is the entry block of some function of the module. -/
def isEntryBlockId (s : St) (bid : Nat) : Prop := isEntryOf s.funcs bid

/-- Every alloca instruction of every created block sits in an entry block. -/
def allocasOnly (bm : List (Nat × BasicBlock)) (fns : List Fn) : Prop :=
  ∀ p ∈ bm, ∀ i ∈ p.2.instrs, i.isAlloca = true → isEntryOf fns p.1

def allocasOnlyInEntry (s : St) : Prop := allocasOnly s.blockMap s.funcs

/-- Every block id present in the store of `s` is still present in `s2`. -/
def keysGrow (s s2 : St) : Prop :=
  ∀ bid, (lookupBlock s bid).isSome = true → (lookupBlock s2 bid).isSome = true

/-- State facts preserved by expression lowering: the module function list
and the builder cursor are untouched, the block store only grows, and the
entry-block-alloca invariant is maintained. -/
def ExprPres (s s2 : St) : Prop :=
  s2.funcs = s.funcs ∧ s2.insertPt = s.insertPt ∧ keysGrow s s2 ∧
    (allocasOnlyInEntry s → allocasOnlyInEntry s2)

/-- State facts preserved by statement lowering: function names (blocks may
be attached), the block store only grows, and the entry-block-alloca
invariant; a straight-line statement additionally leaves the cursor and the
whole function list untouched. -/
def StmtPres (s s2 : St) : Prop :=
  funcNames s2 = funcNames s ∧ keysGrow s s2 ∧
    (allocasOnlyInEntry s → allocasOnlyInEntry s2)

/-- Result predicate for expression lowering. -/
def okPresE (s : St) : Except String (Value × St) → Prop
  | .ok (_, s2) => ExprPres s s2
  | .error _ => True

/-- Result predicate for the argument-list loop. -/
def okPresEs (s : St) : Except String (List Value × St) → Prop
  | .ok (_, s2) => ExprPres s s2
  | .error _ => True

/-- Result predicate for statement lowering; `sl` is the straight-line flag
of the lowered statement (or statement list). -/
def okPresS (sl : Bool) (s : St) : Except String St → Prop
  | .ok s2 => StmtPres s s2 ∧ (sl = true → s2.insertPt = s.insertPt ∧ s2.funcs = s.funcs)
  | .error _ => True

/-- Statements that never move the insertion point or touch the block
structure: everything except if and while. -/
def straightLine : Stmt → Bool
  | .ret _ => true
  | .exprStmt _ => true
  | .varDecl .. => true
  | .ifStmt .. => false
  | .whileStmt .. => false

/-- The names declared at top level of a translation unit. -/
def declaredNames (tu : TranslationUnit) : List String :=
  tu.externs.map ExternDecl.name ++ tu.functions.map Function.name

/-- `int f() { return 1; return 2; }` — a statement after a return. -/
def fnTwoReturns : Function := ⟨"f", [], [.ret (.number 1), .ret (.number 2)]⟩

def tuTwoReturns : TranslationUnit := ⟨[], [fnTwoReturns]⟩

/-- `int f() { if (1) { } else { } }` — the body ends in the if continuation
block. -/
def fnIfEmpty : Function := ⟨"f", [], [.ifStmt (.number 1) [] []]⟩

def tuIfEmpty : TranslationUnit := ⟨[], [fnIfEmpty]⟩

/-- `int f() { return 1; }`. -/
def tuRetOne : TranslationUnit := ⟨[], [⟨"f", [], [.ret (.number 1)]⟩]⟩

/-- `int g() { int x = 1; return x; }`. -/
def fnVarDecl : Function :=
  ⟨"g", [], [.varDecl "x" (some (.number 1)), .ret (.varRef "x")]⟩

def tuVarDecl : TranslationUnit := ⟨[], [fnVarDecl]⟩

/-- `f` calls `g`, and `g` is defined after `f` (a forward reference). -/
def tuForward : TranslationUnit :=
  ⟨[], [⟨"f", [], [.ret (.call "g" [])]⟩, ⟨"g", [], [.ret (.number 1)]⟩]⟩

end CG

namespace CGen

/-- A function context for lowering a single expression: one function `f`
with an attached entry block that the builder points at. -/
def exprTestState : CSt :=
  ⟨1, [(0, ⟨"entry", []⟩)], [⟨"f", [], [], .i32, [0]⟩], some 0, [[]], [], [], some 0⟩

/-- A module knowing `int f(int a)` (one parameter), with the builder in an
unrelated function block. -/
def callTestState : CSt :=
  ⟨1, [(0, ⟨"entry", []⟩)], [⟨"f", [.i32], ["a"], .i32, []⟩, ⟨"main", [], [], .i32, [0]⟩],
   some 0, [[]], [], [], some 1⟩

/-- `int f() { while (1) { int x; } }` — a declaration inside a loop body. -/
def fdWhileDecl : FuncDef :=
  ⟨"int", "f", [], .compound [.whileStmt (.intLit 1) (.compound [.varDecl "int" "x" none])]⟩

/-- `int f() { for (;;) { break; } }`. -/
def fdForBreak : FuncDef :=
  ⟨"int", "f", [], .compound [.forStmt none none none (.compound [.breakStmt])]⟩

/-- The loop stacks of two states agree. -/
def stacksEq (s s2 : CSt) : Prop :=
  s2.breakStack = s.breakStack ∧ s2.continueStack = s.continueStack

/-- Result predicate: a successful lowering leaves the loop stacks as it
found them. -/
def okStacks (s : CSt) : Except String (Option CValue × CSt) → Prop
  | .ok p => stacksEq s p.2
  | .error _ => True

def okStacksL (s : CSt) : Except String (Option (List CValue) × CSt) → Prop
  | .ok p => stacksEq s p.2
  | .error _ => True

/-- The final state of lowering `1.5 + 1` in the expression test context. -/
def C2resState : CSt :=
  match codegenNode 10 (.binaryExpr ("+") (.floatLit 1.5) (.intLit 1)) exprTestState with
  | .ok (_, s) => s
  | .error _ => exprTestState

/-- The expression context with one enclosing loop: break target 7, continue
target 8. -/
def brkTestState : CSt :=
  { exprTestState with breakStack := [7], continueStack := [8] }

/-- The final state of lowering `while (1) { break; }` in the expression test
context. -/
def whileRunState : CSt :=
  match codegenWhileStatement 6 (.intLit 1) (.compound [.breakStmt]) exprTestState with
  | .ok (_, s) => s
  | .error _ => exprTestState

/-- The final state of lowering `for (;;) { break; }` in the expression test
context. -/
def forRunState : CSt :=
  match codegenForStatement 6 none none none (.compound [.breakStmt]) exprTestState with
  | .ok (_, s) => s
  | .error _ => exprTestState

/-- The state of `codegenForStatement` right after it has created the five
loop blocks and pushed the (after, inc) pair onto the loop stacks. -/
def forPushState (fidx : Nat) (s : CSt) : CSt :=
  let (_, s) := createBlockInC ("forinit") fidx s
  let (_, s) := createBlockC ("forcond") s
  let (_, s) := createBlockC ("forbody") s
  let (incBB, s) := createBlockC ("forinc") s
  let (afterBB, s) := createBlockC ("forafter") s
  { s with breakStack := afterBB :: s.breakStack,
           continueStack := incBB :: s.continueStack }

end CGen

namespace IRGen

/-- One function `main` with an attached entry block the builder points at,
and a known unary function `f`. -/
def varTestState : ISt :=
  ⟨1, [(0, ⟨"entry", []⟩)], [⟨"main", 0, [0]⟩, ⟨"f", 1, []⟩], some 0, [[]]⟩

end IRGen

namespace CParser

/-- A token with irrelevant position. -/
def tk (t : CLexer.CTokType) (v : String) : CLexer.CTok := ⟨t, v, 0, 0⟩

/-- The token stream of `if ( a ) if ( b ) c else d` (the current token
followed by the pending ones). -/
def danglingState : PState :=
  ⟨tk .IF ("if"),
   [tk .LEFT_PAREN ("("), tk .IDENTIFIER ("a"), tk .RIGHT_PAREN (")"),
    tk .IF ("if"), tk .LEFT_PAREN ("("), tk .IDENTIFIER ("b"), tk .RIGHT_PAREN (")"),
    tk .IDENTIFIER ("c"), tk .ELSE ("else"), tk .IDENTIFIER ("d")], 0⟩

/-- The parser state after the outer condition of the dangling-else input. -/
def dangS1 : PState :=
  (parseExpression 10 (expectP .LEFT_PAREN (expectP .IF danglingState))).2

/-- The parser state after the inner if (which has consumed the else). -/
def dangS2 : PState :=
  (parseStatement 10 (expectP .RIGHT_PAREN dangS1)).2

end CParser

namespace IRGen

/-- A module knowing only the unary function `f`, with the builder in an
unattached block. -/
def iCallTestState : ISt :=
  ⟨1, [(0, ⟨"entry", []⟩)], [⟨"f", 1, []⟩], some 0, [[]]⟩

/-- `double h() { f(); }` — a body whose only statement is an
arity-mismatched call (`f` takes one argument). -/
def fdBadCall : IFnDef := ⟨"h", [], .blockS [.exprS (.call ("f") [])]⟩

/-- The state after lowering `fdBadCall`'s body (the failing statement). -/
def badBodyState : ISt :=
  match codegenStmtI 8 fdBadCall.body (funcSetupI fdBadCall iCallTestState).2 with
  | .ok (_, s2) => s2
  | .error _ => iCallTestState

end IRGen

namespace TLexer

/-- Drive `getNextToken` to end of file (bounded by fuel), collecting the
token kinds it returns. -/
def lexListT : Nat → TLSt → List TTok
  | 0, _ => []
  | n+1, st =>
      match getNextTokenT st with
      | (.eofT, _) => [.eofT]
      | (t, st2) => t :: lexListT n st2

end TLexer

/-!
## Theorems

Shared helper lemmas come first, then one theorem (with witness or
counterexample) per property.
-/

namespace CG

theorem emit_funcs (i : Instr) (s : St) : (emit i s).2.funcs = s.funcs := by
  cases h : s.insertPt <;> simp [emit, h, updateBlock]

theorem emit_insertPt (i : Instr) (s : St) : (emit i s).2.insertPt = s.insertPt := by
  cases h : s.insertPt <;> simp [emit, h, updateBlock]

theorem createEntryBlockAlloca_funcs (fidx : Nat) (name : String) (s : St) :
    (createEntryBlockAlloca fidx name s).2.funcs = s.funcs := by
  cases h : entryBlock s fidx <;> simp [createEntryBlockAlloca, h, updateBlock]

theorem createEntryBlockAlloca_insertPt (fidx : Nat) (name : String) (s : St) :
    (createEntryBlockAlloca fidx name s).2.insertPt = s.insertPt := by
  cases h : entryBlock s fidx <;> simp [createEntryBlockAlloca, h, updateBlock]

theorem listModify_map (g : α → α) (h : α → β) (hg : ∀ a, h (g a) = h a) :
    ∀ (i : Nat) (l : List α), (listModify g i l).map h = l.map h := by
  intro i l
  induction l generalizing i with
  | nil => cases i <;> rfl
  | cons a as ih =>
      cases i with
      | zero => simp [listModify, hg]
      | succ n => simp [listModify, ih]

theorem mem_listModify (g : α → α) :
    ∀ (i : Nat) (l : List α) (y : α), y ∈ l →
      y ∈ listModify g i l ∨ g y ∈ listModify g i l := by
  intro i l
  induction l generalizing i with
  | nil => intro y hy; cases hy
  | cons a as ih =>
      intro y hy
      cases i with
      | zero =>
          rcases List.mem_cons.mp hy with rfl | hy2
          · exact Or.inr (List.mem_cons_self _ _)
          · exact Or.inl (List.mem_cons_of_mem _ hy2)
      | succ n =>
          rcases List.mem_cons.mp hy with rfl | hy2
          · exact Or.inl (List.mem_cons_self _ _)
          · rcases ih n y hy2 with h1 | h1
            · exact Or.inl (List.mem_cons_of_mem _ h1)
            · exact Or.inr (List.mem_cons_of_mem _ h1)

theorem attachBlock_funcNames (fidx bid : Nat) (s : St) :
    funcNames (attachBlock fidx bid s) = funcNames s := by
  show List.map Fn.name (listModify (fun fn => { fn with blocks := fn.blocks ++ [bid] }) fidx s.funcs) = List.map Fn.name s.funcs
  exact listModify_map (fun fn => { fn with blocks := fn.blocks ++ [bid] }) Fn.name
    (fun a => rfl) fidx s.funcs

theorem isEntryOf_attach (fidx bid : Nat) (fns : List Fn) (b : Nat)
    (h : isEntryOf fns b) :
    isEntryOf (listModify (fun fn => { fn with blocks := fn.blocks ++ [bid] }) fidx fns) b := by
  obtain ⟨fn, hmem, hhead⟩ := h
  rcases mem_listModify _ fidx fns fn hmem with h1 | h1
  · exact ⟨fn, h1, hhead⟩
  · refine ⟨_, h1, ?_⟩
    cases hb : fn.blocks with
    | nil => simp [hb] at hhead
    | cons x xs => simp [hb] at hhead ⊢; exact hhead

theorem isEntryOf_append (fns new : List Fn) (b : Nat) (h : isEntryOf fns b) :
    isEntryOf (fns ++ new) b := by
  obtain ⟨fn, hmem, hhead⟩ := h
  exact ⟨fn, List.mem_append_left _ hmem, hhead⟩

theorem allocasOnly_appendInstr (bm : List (Nat × BasicBlock)) (fns : List Fn)
    (bid : Nat) (i : Instr) (hi : i.isAlloca = false) (h : allocasOnly bm fns) :
    allocasOnly (bm.map (fun p => if p.1 == bid then
      (p.1, { p.2 with instrs := p.2.instrs ++ [i] }) else p)) fns := by
  intro p hp j hj ha
  rw [List.mem_map] at hp
  obtain ⟨q, hq, hpq⟩ := hp
  by_cases hqb : (q.1 == bid) = true
  · rw [if_pos hqb] at hpq
    subst hpq
    simp only at hj
    rcases List.mem_append.mp hj with hj1 | hj1
    · exact h q hq j hj1 ha
    · rw [List.mem_singleton] at hj1
      subst hj1
      rw [ha] at hi
      cases hi
  · rw [if_neg hqb] at hpq
    subst hpq
    exact h q hq j hj ha

theorem allocasOnly_prependAlloca (bm : List (Nat × BasicBlock)) (fns : List Fn)
    (bid : Nat) (name : String) (hbid : isEntryOf fns bid) (h : allocasOnly bm fns) :
    allocasOnly (bm.map (fun p => if p.1 == bid then
      (p.1, { p.2 with instrs := Instr.alloca name :: p.2.instrs }) else p)) fns := by
  intro p hp j hj ha
  rw [List.mem_map] at hp
  obtain ⟨q, hq, hpq⟩ := hp
  by_cases hqb : (q.1 == bid) = true
  · rw [if_pos hqb] at hpq
    subst hpq
    simp only at hj ⊢
    rcases List.mem_cons.mp hj with hj1 | hj1
    · subst hj1
      have hq1 : q.1 = bid := by simpa using hqb
      rw [hq1]
      exact hbid
    · exact h q hq j hj1 ha
  · rw [if_neg hqb] at hpq
    subst hpq
    exact h q hq j hj ha

theorem allocasOnly_newBlock (bm : List (Nat × BasicBlock)) (fns : List Fn)
    (bid : Nat) (name : String) (h : allocasOnly bm fns) :
    allocasOnly (bm ++ [(bid, ⟨name, []⟩)]) fns := by
  intro p hp j hj ha
  rcases List.mem_append.mp hp with hp1 | hp1
  · exact h p hp1 j hj ha
  · rw [List.mem_singleton] at hp1
    subst hp1
    cases hj

theorem allocasOnly_attach (bm : List (Nat × BasicBlock)) (fns : List Fn)
    (fidx bid : Nat) (h : allocasOnly bm fns) :
    allocasOnly bm (listModify (fun fn => { fn with blocks := fn.blocks ++ [bid] }) fidx fns) := by
  intro p hp j hj ha
  exact isEntryOf_attach fidx bid fns p.1 (h p hp j hj ha)

theorem allocasOnly_appendFns (bm : List (Nat × BasicBlock)) (fns new : List Fn)
    (h : allocasOnly bm fns) : allocasOnly bm (fns ++ new) := by
  intro p hp j hj ha
  exact isEntryOf_append fns new p.1 (h p hp j hj ha)

theorem isSome_omap (f : α → β) (o : Option α) : (Option.map f o).isSome = o.isSome := by
  cases o <;> rfl

theorem find?_isSome_map_keys (l : List (Nat × BasicBlock)) (g : BasicBlock → BasicBlock)
    (bid k : Nat) :
    ((l.map (fun p => if p.1 == k then (p.1, g p.2) else p)).find?
        (fun p => p.1 == bid)).isSome
      = (l.find? (fun p => p.1 == bid)).isSome := by
  have hpred : ((fun p : Nat × BasicBlock => p.1 == bid) ∘
      fun p => if p.1 == k then (p.1, g p.2) else p) =
      fun p : Nat × BasicBlock => p.1 == bid := by
    funext q
    by_cases h : q.1 = k <;> simp [h]
  rw [List.find?_map, isSome_omap, hpred]

theorem find?_isSome_append_mono (l l2 : List (Nat × BasicBlock)) (bid : Nat)
    (h : (l.find? (fun p => p.1 == bid)).isSome = true) :
    ((l ++ l2).find? (fun p => p.1 == bid)).isSome = true := by
  induction l with
  | nil => simp [List.find?] at h
  | cons p rest ih =>
      by_cases hb : (p.1 == bid) = true
      · simp [List.find?, hb]
      · simp only [List.find?, hb, List.cons_append] at h ⊢
        simp only [Bool.false_eq_true, if_false] at *
        exact ih h

theorem keysGrow_refl (s : St) : keysGrow s s := fun _ h => h

theorem keysGrow_emit (i : Instr) (s : St) : keysGrow s (emit i s).2 := by
  intro bid h
  simp only [lookupBlock, isSome_omap] at h ⊢
  cases hins : s.insertPt with
  | none =>
      rw [show (emit i s).2.blockMap = s.blockMap from by simp [emit, hins]]
      exact h
  | some k =>
      rw [show (emit i s).2.blockMap = s.blockMap.map
            (fun p => if p.1 == k then
              (p.1, (fun bb => { bb with instrs := bb.instrs ++ [i] }) p.2) else p) from by
          simp [emit, hins, updateBlock]]
      rw [find?_isSome_map_keys s.blockMap
        (fun bb => { bb with instrs := bb.instrs ++ [i] }) bid k]
      exact h

theorem keysGrow_createBlock (n : String) (s : St) : keysGrow s (createBlock n s).2 := by
  intro bid h
  simp only [lookupBlock, isSome_omap] at h ⊢
  exact find?_isSome_append_mono _ _ _ h

theorem keysGrow_createEntryBlockAlloca (fidx : Nat) (n : String) (s : St) :
    keysGrow s (createEntryBlockAlloca fidx n s).2 := by
  intro bid h
  simp only [lookupBlock, isSome_omap] at h ⊢
  cases hE : entryBlock s fidx with
  | none =>
      rw [show (createEntryBlockAlloca fidx n s).2.blockMap = s.blockMap from by
        simp [createEntryBlockAlloca, hE]]
      exact h
  | some k =>
      rw [show (createEntryBlockAlloca fidx n s).2.blockMap = s.blockMap.map
            (fun p => if p.1 == k then
              (p.1, (fun bb => { bb with instrs := Instr.alloca n :: bb.instrs }) p.2)
            else p) from by
          simp [createEntryBlockAlloca, hE, updateBlock]]
      rw [find?_isSome_map_keys s.blockMap
        (fun bb => { bb with instrs := Instr.alloca n :: bb.instrs }) bid k]
      exact h

theorem exprPres_refl (s : St) : ExprPres s s := ⟨rfl, rfl, keysGrow_refl s, fun h => h⟩

theorem exprPres_trans {s1 s2 s3 : St} (h1 : ExprPres s1 s2) (h2 : ExprPres s2 s3) :
    ExprPres s1 s3 := by
  obtain ⟨a1, b1, k1, c1⟩ := h1
  obtain ⟨a2, b2, k2, c2⟩ := h2
  exact ⟨a2.trans a1, b2.trans b1, fun bid h => k2 bid (k1 bid h), fun h => c2 (c1 h)⟩

theorem inv_emit (i : Instr) (hi : i.isAlloca = false) (s : St)
    (h : allocasOnlyInEntry s) : allocasOnlyInEntry (emit i s).2 := by
  cases hins : s.insertPt with
  | none =>
      show allocasOnly _ _
      simp only [emit, hins]
      exact h
  | some bid =>
      show allocasOnly _ _
      simp only [emit, hins, updateBlock]
      exact allocasOnly_appendInstr s.blockMap s.funcs bid i hi h

theorem exprPres_emit (i : Instr) (hi : i.isAlloca = false) (s : St) :
    ExprPres s (emit i s).2 :=
  ⟨emit_funcs i s, emit_insertPt i s, keysGrow_emit i s, inv_emit i hi s⟩

end CG

namespace CG

theorem okE_emit1 (s s2 : St) (i : Instr) (hi : i.isAlloca = false) (h : ExprPres s s2) :
    okPresE s (Except.ok (emit i s2)) :=
  exprPres_trans h (exprPres_emit i hi s2)

theorem okE_cmp (s s2 : St) (i : Instr) (f : Value → Instr) (hi : i.isAlloca = false)
    (hf : ∀ v, (f v).isAlloca = false) (h : ExprPres s s2) :
    okPresE s (match emit i s2 with | (c, s3) => Except.ok (emit (f c) s3)) :=
  exprPres_trans h (exprPres_trans (exprPres_emit i hi s2)
    (exprPres_emit (f (emit i s2).1) (hf _) (emit i s2).2))

theorem okE_logic (s s2 : St) (i1 i2 : Instr) (g : Value → Value → Instr)
    (f : Value → Instr) (h1 : i1.isAlloca = false) (h2 : i2.isAlloca = false)
    (hg : ∀ a b, (g a b).isAlloca = false) (hf : ∀ v, (f v).isAlloca = false)
    (h : ExprPres s s2) :
    okPresE s (match emit i1 s2 with
      | (a, s3) =>
        match emit i2 s3 with
        | (b, s4) =>
          match emit (g a b) s4 with
          | (c, s5) => Except.ok (emit (f c) s5)) :=
  exprPres_trans h (exprPres_trans (exprPres_emit i1 h1 s2)
    (exprPres_trans (exprPres_emit i2 h2 _)
      (exprPres_trans (exprPres_emit _ (hg _ _) _) (exprPres_emit _ (hf _) _))))

mutual
theorem codegenExpr_pres (e : Expr) (s : St) : okPresE s (codegenExpr e s) := by
  match e with
  | .number n => exact exprPres_refl s
  | .varRef name =>
      rw [codegenExpr]
      cases hA : findAlloca s name with
      | none => exact trivial
      | some slot => exact exprPres_emit (Instr.load slot) rfl s
  | .binary op lhs rhs =>
      rw [codegenExpr]
      cases hL : codegenExpr lhs s with
      | error msg => exact trivial
      | ok p =>
        obtain ⟨lv, s1⟩ := p
        have ihl : ExprPres s s1 := by
          have h2 := codegenExpr_pres lhs s
          rw [hL] at h2
          exact h2
        dsimp only
        cases hR : codegenExpr rhs s1 with
        | error msg => exact trivial
        | ok q =>
          obtain ⟨rv, s2⟩ := q
          have ihr : ExprPres s1 s2 := by
            have h2 := codegenExpr_pres rhs s1
            rw [hR] at h2
            exact h2
          have base := exprPres_trans ihl ihr
          dsimp only
          by_cases hc0 : (op == "+") = true
          · rw [if_pos hc0]
            exact okE_emit1 s s2 _ rfl base
          · rw [if_neg hc0]
            by_cases hc1 : (op == "-") = true
            · rw [if_pos hc1]
              exact okE_emit1 s s2 _ rfl base
            · rw [if_neg hc1]
              by_cases hc2 : (op == "*") = true
              · rw [if_pos hc2]
                exact okE_emit1 s s2 _ rfl base
              · rw [if_neg hc2]
                by_cases hc3 : (op == "/") = true
                · rw [if_pos hc3]
                  exact okE_emit1 s s2 _ rfl base
                · rw [if_neg hc3]
                  by_cases hc4 : (op == "%") = true
                  · rw [if_pos hc4]
                    exact okE_emit1 s s2 _ rfl base
                  · rw [if_neg hc4]
                    by_cases hc5 : (op == "==") = true
                    · rw [if_pos hc5]
                      exact okE_cmp s s2 _ _ rfl (fun v => rfl) base
                    · rw [if_neg hc5]
                      by_cases hc6 : (op == "!=") = true
                      · rw [if_pos hc6]
                        exact okE_cmp s s2 _ _ rfl (fun v => rfl) base
                      · rw [if_neg hc6]
                        by_cases hc7 : (op == "<") = true
                        · rw [if_pos hc7]
                          exact okE_cmp s s2 _ _ rfl (fun v => rfl) base
                        · rw [if_neg hc7]
                          by_cases hc8 : (op == "<=") = true
                          · rw [if_pos hc8]
                            exact okE_cmp s s2 _ _ rfl (fun v => rfl) base
                          · rw [if_neg hc8]
                            by_cases hc9 : (op == ">") = true
                            · rw [if_pos hc9]
                              exact okE_cmp s s2 _ _ rfl (fun v => rfl) base
                            · rw [if_neg hc9]
                              by_cases hc10 : (op == ">=") = true
                              · rw [if_pos hc10]
                                exact okE_cmp s s2 _ _ rfl (fun v => rfl) base
                              · rw [if_neg hc10]
                                by_cases hc11 : (op == "&&") = true
                                · rw [if_pos hc11]
                                  exact okE_logic s s2 _ _ _ _ rfl rfl (fun a b => rfl) (fun v => rfl) base
                                · rw [if_neg hc11]
                                  by_cases hc12 : (op == "||") = true
                                  · rw [if_pos hc12]
                                    exact okE_logic s s2 _ _ _ _ rfl rfl (fun a b => rfl) (fun v => rfl) base
                                  · rw [if_neg hc12]
                                    exact trivial
  | .unary op operand =>
      rw [codegenExpr]
      cases hO : codegenExpr operand s with
      | error msg => exact trivial
      | ok p =>
        obtain ⟨ov, s1⟩ := p
        have iho : ExprPres s s1 := by
          have h2 := codegenExpr_pres operand s
          rw [hO] at h2
          exact h2
        dsimp only
        by_cases hc0 : (op == "-") = true
        · rw [if_pos hc0]
          exact okE_emit1 s s1 _ rfl iho
        · rw [if_neg hc0]
          by_cases hc1 : (op == "+") = true
          · rw [if_pos hc1]
            exact iho
          · rw [if_neg hc1]
            by_cases hc2 : (op == "!") = true
            · rw [if_pos hc2]
              exact okE_cmp s s1 _ _ rfl (fun v => rfl) iho
            · rw [if_neg hc2]
              exact trivial
  | .call callee args =>
      rw [codegenExpr]
      cases hF : getFunction s callee with
      | none => exact trivial
      | some fidx =>
        dsimp only
        cases hA : codegenExprs args s with
        | error msg => exact trivial
        | ok p =>
          obtain ⟨argsV, s1⟩ := p
          have iha : ExprPres s s1 := by
            have h2 := codegenExprs_pres args s
            rw [hA] at h2
            exact h2
          exact okE_emit1 s s1 _ rfl iha
  | .assign name value =>
      rw [codegenExpr]
      cases hA : findAlloca s name with
      | none => exact trivial
      | some slot =>
        dsimp only
        cases hV : codegenExpr value s with
        | error msg => exact trivial
        | ok p =>
          obtain ⟨vv, s1⟩ := p
          have ihv : ExprPres s s1 := by
            have h2 := codegenExpr_pres value s
            rw [hV] at h2
            exact h2
          dsimp only
          exact exprPres_trans ihv (exprPres_emit (Instr.store vv slot) rfl s1)

theorem codegenExprs_pres (es : List Expr) (s : St) : okPresEs s (codegenExprs es s) := by
  match es with
  | [] => exact exprPres_refl s
  | e :: rest =>
      rw [codegenExprs]
      cases hE : codegenExpr e s with
      | error msg => exact trivial
      | ok p =>
        obtain ⟨v, s1⟩ := p
        have ih1 : ExprPres s s1 := by
          have h2 := codegenExpr_pres e s
          rw [hE] at h2
          exact h2
        dsimp only
        cases hR : codegenExprs rest s1 with
        | error msg => exact trivial
        | ok q =>
          obtain ⟨vs, s2⟩ := q
          have ih2 : ExprPres s1 s2 := by
            have h2 := codegenExprs_pres rest s1
            rw [hR] at h2
            exact h2
          exact exprPres_trans ih1 ih2
end

end CG

namespace CG

theorem inv_createBlock (n : String) (s : St) (h : allocasOnlyInEntry s) :
    allocasOnlyInEntry (createBlock n s).2 := by
  show allocasOnly _ _
  exact allocasOnly_newBlock s.blockMap s.funcs s.nextId n h

theorem inv_attachBlock (fidx bid : Nat) (s : St) (h : allocasOnlyInEntry s) :
    allocasOnlyInEntry (attachBlock fidx bid s) := by
  show allocasOnly _ _
  exact allocasOnly_attach s.blockMap s.funcs fidx bid h

theorem entryBlock_isEntryOf (s : St) (fidx bid : Nat) (h : entryBlock s fidx = some bid) :
    isEntryOf s.funcs bid := by
  unfold entryBlock at h
  cases hg : s.funcs.get? fidx with
  | none => rw [hg] at h; cases h
  | some fn =>
      rw [hg] at h
      exact ⟨fn, List.get?_mem hg, h⟩

theorem inv_createEntryBlockAlloca (fidx : Nat) (n : String) (s : St)
    (h : allocasOnlyInEntry s) :
    allocasOnlyInEntry (createEntryBlockAlloca fidx n s).2 := by
  cases hE : entryBlock s fidx with
  | none =>
      show allocasOnly _ _
      simp only [createEntryBlockAlloca, hE]
      exact h
  | some bid =>
      show allocasOnly _ _
      simp only [createEntryBlockAlloca, hE, updateBlock]
      exact allocasOnly_prependAlloca s.blockMap s.funcs bid n
        (entryBlock_isEntryOf s fidx bid hE) h

theorem exprPres_createEntryBlockAlloca (fidx : Nat) (n : String) (s : St) :
    ExprPres s (createEntryBlockAlloca fidx n s).2 :=
  ⟨createEntryBlockAlloca_funcs fidx n s, createEntryBlockAlloca_insertPt fidx n s,
   keysGrow_createEntryBlockAlloca fidx n s, inv_createEntryBlockAlloca fidx n s⟩

theorem exprPres_bindAlloca (n : String) (v : Value) (s : St) :
    ExprPres s (bindAlloca n v s) :=
  ⟨rfl, rfl, fun _ h => h, fun h => h⟩

theorem stmtPres_refl (s : St) : StmtPres s s := ⟨rfl, keysGrow_refl s, fun h => h⟩

theorem stmtPres_trans {s1 s2 s3 : St} (h1 : StmtPres s1 s2) (h2 : StmtPres s2 s3) :
    StmtPres s1 s3 :=
  ⟨h2.1.trans h1.1, fun bid h => h2.2.1 bid (h1.2.1 bid h), fun h => h2.2.2 (h1.2.2 h)⟩

theorem stmtPres_of_expr {s s2 : St} (h : ExprPres s s2) : StmtPres s s2 :=
  ⟨congrArg (List.map Fn.name) h.1, h.2.2.1, h.2.2.2⟩

theorem stmtPres_emit (i : Instr) (hi : i.isAlloca = false) (s : St) :
    StmtPres s (emit i s).2 :=
  stmtPres_of_expr (exprPres_emit i hi s)

theorem stmtPres_createBlock (n : String) (s : St) : StmtPres s (createBlock n s).2 :=
  ⟨rfl, keysGrow_createBlock n s, inv_createBlock n s⟩

theorem stmtPres_attachBlock (fidx bid : Nat) (s : St) :
    StmtPres s (attachBlock fidx bid s) :=
  ⟨attachBlock_funcNames fidx bid s, fun _ h => h, inv_attachBlock fidx bid s⟩

theorem stmtPres_createBlockIn (n : String) (fidx : Nat) (s : St) :
    StmtPres s (createBlockIn n fidx s).2 :=
  stmtPres_trans (stmtPres_createBlock n s)
    (stmtPres_attachBlock fidx (createBlock n s).1 (createBlock n s).2)

theorem stmtPres_setInsertPoint (bid : Nat) (s : St) :
    StmtPres s (setInsertPoint bid s) :=
  ⟨rfl, fun _ h => h, fun h => h⟩

theorem stmtPres_maybeBr (c : Bool) (t : Nat) (s : St) :
    StmtPres s (if c = true then s else (emit (.br t) s).2) := by
  cases c with
  | true => simpa using stmtPres_refl s
  | false => simpa using stmtPres_emit (.br t) rfl s

theorem codegenExpr_ok_pres (e : Expr) (s : St) (v : Value) (s2 : St)
    (h : codegenExpr e s = .ok (v, s2)) : ExprPres s s2 := by
  have h2 := codegenExpr_pres e s
  rw [h] at h2
  exact h2

theorem codegenExprs_ok_pres (es : List Expr) (s : St) (vs : List Value) (s2 : St)
    (h : codegenExprs es s = .ok (vs, s2)) : ExprPres s s2 := by
  have h2 := codegenExprs_pres es s
  rw [h] at h2
  exact h2

mutual
theorem codegenStmt_pres (st : Stmt) (fidx : Nat) (s : St) :
    okPresS (straightLine st) s (codegenStmt st fidx s) := by
  match st with
  | .ret v =>
      rw [codegenStmt]
      cases hV : codegenExpr v s with
      | error msg => exact trivial
      | ok p =>
        obtain ⟨rv, s1⟩ := p
        have ihv : ExprPres s s1 := codegenExpr_ok_pres v s rv s1 hV
        have h2 := exprPres_trans ihv (exprPres_emit (Instr.ret rv) rfl s1)
        exact ⟨stmtPres_of_expr h2, fun _ => ⟨h2.2.1, h2.1⟩⟩
  | .exprStmt e =>
      rw [codegenStmt]
      cases hE : codegenExpr e s with
      | error msg => exact trivial
      | ok p =>
        obtain ⟨v, s1⟩ := p
        have ih : ExprPres s s1 := codegenExpr_ok_pres e s v s1 hE
        exact ⟨stmtPres_of_expr ih, fun _ => ⟨ih.2.1, ih.1⟩⟩
  | .varDecl name init =>
      rw [codegenStmt]
      cases hI : s.insertPt with
      | none => exact trivial
      | some cur =>
        dsimp only
        cases hP : parentOf s cur with
        | none => exact trivial
        | some ownerIdx =>
          dsimp only
          have hbase : ExprPres s (bindAlloca name (createEntryBlockAlloca ownerIdx name s).1
              (createEntryBlockAlloca ownerIdx name s).2) :=
            exprPres_trans (exprPres_createEntryBlockAlloca ownerIdx name s)
              (exprPres_bindAlloca name _ _)
          cases init with
          | none =>
              exact ⟨stmtPres_of_expr hbase, fun _ => ⟨hbase.2.1, hbase.1⟩⟩
          | some ie =>
              dsimp only
              cases hV : codegenExpr ie (bindAlloca name
                  (createEntryBlockAlloca ownerIdx name s).1
                  (createEntryBlockAlloca ownerIdx name s).2) with
              | error msg => exact trivial
              | ok p =>
                obtain ⟨iv, s1⟩ := p
                have ihv := codegenExpr_ok_pres ie _ iv s1 hV
                have h2 := exprPres_trans hbase (exprPres_trans ihv
                  (exprPres_emit (Instr.store iv (createEntryBlockAlloca ownerIdx name s).1)
                    rfl s1))
                exact ⟨stmtPres_of_expr h2, fun _ => ⟨h2.2.1, h2.1⟩⟩
  | .ifStmt cond thenStmts elseStmts =>
      rw [codegenStmt]
      cases hC : codegenExpr cond s with
      | error msg => exact trivial
      | ok p =>
        obtain ⟨cv, s1⟩ := p
        have ihc : ExprPres s s1 := codegenExpr_ok_pres cond s cv s1 hC
        dsimp only
        split
        next msg heqT => exact trivial
        next s7 heqT =>
          have ihT := codegenStmts_ok_pres thenStmts fidx _ s7 heqT
          split
          next msg heqE => exact trivial
          next s8 heqE =>
            have ihE := codegenStmts_ok_pres elseStmts fidx _ s8 heqE
            refine ⟨?_, fun hf => nomatch hf⟩
            exact stmtPres_trans
              (stmtPres_trans (stmtPres_of_expr ihc)
                (stmtPres_trans (stmtPres_emit _ (by rfl) s1)
                  (stmtPres_trans (stmtPres_createBlockIn _ fidx _)
                    (stmtPres_trans (stmtPres_createBlock _ _)
                      (stmtPres_trans (stmtPres_createBlock _ _)
                        (stmtPres_trans (stmtPres_emit _ (by rfl) _)
                          (stmtPres_setInsertPoint _ _)))))))
              (stmtPres_trans ihT.1
                (stmtPres_trans (stmtPres_maybeBr _ _ s7)
                  (stmtPres_trans (stmtPres_attachBlock fidx _ _)
                    (stmtPres_trans (stmtPres_setInsertPoint _ _)
                      (stmtPres_trans ihE.1
                        (stmtPres_trans (stmtPres_maybeBr _ _ s8)
                          (stmtPres_trans (stmtPres_attachBlock fidx _ _)
                            (stmtPres_setInsertPoint _ _))))))))
  | .whileStmt cond body =>
      rw [codegenStmt]
      dsimp only
      split
      next msg heqC => exact trivial
      next cv s5 heqC =>
        have ihc : ExprPres _ s5 := codegenExpr_ok_pres cond _ cv s5 heqC
        split
        next msg heqB => exact trivial
        next s8 heqB =>
          have ihb := codegenStmts_ok_pres body fidx _ s8 heqB
          refine ⟨?_, fun hf => nomatch hf⟩
          exact stmtPres_trans
            (stmtPres_trans (stmtPres_createBlockIn _ fidx s)
              (stmtPres_trans (stmtPres_createBlock _ _)
                (stmtPres_trans (stmtPres_createBlock _ _)
                  (stmtPres_trans (stmtPres_emit _ (by rfl) _)
                    (stmtPres_setInsertPoint _ _)))))
            (stmtPres_trans (stmtPres_of_expr ihc)
              (stmtPres_trans (stmtPres_emit _ (by rfl) s5)
                (stmtPres_trans (stmtPres_emit _ (by rfl) _)
                  (stmtPres_trans (stmtPres_attachBlock fidx _ _)
                    (stmtPres_trans (stmtPres_setInsertPoint _ _)
                      (stmtPres_trans ihb.1
                        (stmtPres_trans (stmtPres_maybeBr _ _ s8)
                          (stmtPres_trans (stmtPres_attachBlock fidx _ _)
                            (stmtPres_setInsertPoint _ _)))))))))

termination_by (sizeOf st, 0)

theorem codegenStmts_pres (sts : List Stmt) (fidx : Nat) (s : St) :
    okPresS (sts.all straightLine) s (codegenStmts sts fidx s) := by
  match sts with
  | [] => exact ⟨stmtPres_refl s, fun _ => ⟨rfl, rfl⟩⟩
  | st :: rest =>
      rw [codegenStmts]
      cases hS : codegenStmt st fidx s with
      | error msg => exact trivial
      | ok s1 =>
        have ih1 := codegenStmt_pres st fidx s
        rw [hS] at ih1
        dsimp only
        cases hR : codegenStmts rest fidx s1 with
        | error msg => exact trivial
        | ok s2 =>
          have ih2 := codegenStmts_pres rest fidx s1
          rw [hR] at ih2
          refine ⟨stmtPres_trans ih1.1 ih2.1, fun hall => ?_⟩
          have hsplit : straightLine st = true ∧ rest.all straightLine = true := by
            simpa [List.all_cons, Bool.and_eq_true] using hall
          have e1 := ih1.2 hsplit.1
          have e2 := ih2.2 hsplit.2
          exact ⟨e2.1.trans e1.1, e2.2.trans e1.2⟩

termination_by (sizeOf sts, 0)

theorem codegenStmts_ok_pres (l : List Stmt) (fidx : Nat) (sp r : St)
    (h : codegenStmts l fidx sp = .ok r) :
    StmtPres sp r ∧ (l.all straightLine = true → r.insertPt = sp.insertPt ∧ r.funcs = sp.funcs) := by
  have h2 := codegenStmts_pres l fidx sp
  rw [h] at h2
  exact h2
termination_by (sizeOf l, 1)
end

end CG

namespace CG

theorem stmtPres_bindAlloca (n : String) (v : Value) (s : St) :
    StmtPres s (bindAlloca n v s) := ⟨rfl, fun _ h => h, fun h => h⟩

theorem stmtPres_createEntryBlockAlloca (fidx : Nat) (n : String) (s : St) :
    StmtPres s (createEntryBlockAlloca fidx n s).2 :=
  stmtPres_of_expr (exprPres_createEntryBlockAlloca fidx n s)

theorem stmtPres_clearAllocas (s : St) :
    StmtPres s { s with namedAllocas := [] } := ⟨rfl, fun _ h => h, fun h => h⟩

theorem paramLoop_pres (fidx : Nat) (names : List String) :
    ∀ (idx : Nat) (s : St), StmtPres s (paramLoop fidx names idx s) := by
  induction names with
  | nil => intro idx s; exact stmtPres_refl s
  | cons n rest ih =>
      intro idx s
      rw [paramLoop]
      dsimp only
      exact stmtPres_trans (stmtPres_createEntryBlockAlloca fidx n s)
        (stmtPres_trans (stmtPres_bindAlloca n _ _)
          (stmtPres_trans (stmtPres_emit _ (by rfl) _) (ih (idx + 1) _)))

theorem setupEntryAndParams_pres (fidx : Nat) (names : List String) (s : St) :
    StmtPres s (setupEntryAndParams fidx names s) := by
  rw [setupEntryAndParams]
  dsimp only
  exact stmtPres_trans (stmtPres_createBlockIn ("entry") fidx s)
    (stmtPres_trans (stmtPres_setInsertPoint _ _)
      (stmtPres_trans (stmtPres_clearAllocas _) (paramLoop_pres fidx names 0 _)))

theorem synthesizeDefaultReturn_pres (fidx : Nat) (s : St) :
    StmtPres s (synthesizeDefaultReturn fidx s) := by
  rw [synthesizeDefaultReturn]
  cases h : entryBlock s fidx with
  | none => exact stmtPres_refl s
  | some entryId =>
      dsimp only
      by_cases hb : blockTerminated s entryId = true
      · rw [if_pos hb]; exact stmtPres_refl s
      · rw [if_neg hb]; exact stmtPres_emit _ (by rfl) s

theorem lowerFunction_pres (fn : Function) (s s2 : St)
    (h : lowerFunction fn s = .ok s2) : StmtPres s s2 := by
  rw [lowerFunction] at h
  cases hg : getFunction s fn.name with
  | none => rw [hg] at h; cases h
  | some fidx =>
      rw [hg] at h
      dsimp only at h
      cases hc : codegenStmts fn.body fidx
          (setupEntryAndParams fidx (((s.funcs.get? fidx).map Fn.paramNames).getD []) s) with
      | error msg => rw [hc] at h; cases h
      | ok s3 =>
          rw [hc] at h
          dsimp only at h
          have h1 := setupEntryAndParams_pres fidx
            (((s.funcs.get? fidx).map Fn.paramNames).getD []) s
          have h2 := (codegenStmts_ok_pres fn.body fidx _ s3 hc).1
          by_cases hv : verifyFunctionOk fidx (synthesizeDefaultReturn fidx s3) = true
          · rw [if_pos hv] at h
            cases h
            exact stmtPres_trans h1 (stmtPres_trans h2 (synthesizeDefaultReturn_pres fidx s3))
          · rw [if_neg hv] at h; cases h

theorem lowerFunctions_pres (fns : List Function) :
    ∀ (s s2 : St), lowerFunctions fns s = .ok s2 → StmtPres s s2 := by
  induction fns with
  | nil =>
      intro s s2 h
      rw [lowerFunctions] at h
      cases h
      exact stmtPres_refl s
  | cons fn rest ih =>
      intro s s2 h
      rw [lowerFunctions] at h
      cases hf : lowerFunction fn s with
      | error msg => rw [hf] at h; cases h
      | ok s1 =>
          rw [hf] at h
          dsimp only at h
          exact stmtPres_trans (lowerFunction_pres fn s s1 hf) (ih s1 s2 h)

theorem funcNames_declareExtern (d : ExternDecl) (s : St) :
    funcNames (declareExtern d s) = funcNames s ++ [d.name] := by
  simp [funcNames, declareExtern]

theorem funcNames_declareFunction (fn : Function) (s : St) :
    funcNames (declareFunction fn s) = funcNames s ++ [fn.name] := by
  simp [funcNames, declareFunction]

theorem funcNames_foldExterns (ds : List ExternDecl) :
    ∀ (s : St), funcNames (ds.foldl (fun s d => declareExtern d s) s)
      = funcNames s ++ ds.map ExternDecl.name := by
  induction ds with
  | nil => intro s; simp
  | cons d rest ih =>
      intro s
      rw [List.foldl_cons, ih (declareExtern d s), funcNames_declareExtern]
      simp

theorem funcNames_foldFunctions (fns : List Function) :
    ∀ (s : St), funcNames (fns.foldl (fun s fn => declareFunction fn s) s)
      = funcNames s ++ fns.map Function.name := by
  induction fns with
  | nil => intro s; simp
  | cons fn rest ih =>
      intro s
      rw [List.foldl_cons, ih (declareFunction fn s), funcNames_declareFunction]
      simp

theorem funcNames_declarePhase (tu : TranslationUnit) :
    funcNames (declarePhase tu) = declaredNames tu := by
  simp only [declarePhase, declaredNames]
  rw [funcNames_foldFunctions, funcNames_foldExterns]
  simp [funcNames, initState]

theorem allocas_initState : allocasOnlyInEntry initState := by
  intro p hp
  cases hp

theorem allocas_declareExtern (d : ExternDecl) (s : St)
    (h : allocasOnlyInEntry s) : allocasOnlyInEntry (declareExtern d s) := by
  show allocasOnly s.blockMap
    (s.funcs ++ [⟨d.name, List.map (fun p => p.name) d.params, ([] : List Nat)⟩])
  exact allocasOnly_appendFns s.blockMap s.funcs _ h

theorem allocas_declareFunction (fn : Function) (s : St)
    (h : allocasOnlyInEntry s) : allocasOnlyInEntry (declareFunction fn s) := by
  show allocasOnly s.blockMap
    (s.funcs ++ [⟨fn.name, List.map (fun p => p.name) fn.params, ([] : List Nat)⟩])
  exact allocasOnly_appendFns s.blockMap s.funcs _ h

theorem allocas_foldExterns (ds : List ExternDecl) :
    ∀ (s : St), allocasOnlyInEntry s →
      allocasOnlyInEntry (ds.foldl (fun s d => declareExtern d s) s) := by
  induction ds with
  | nil => intro s h; exact h
  | cons d rest ih =>
      intro s h
      rw [List.foldl_cons]
      exact ih (declareExtern d s) (allocas_declareExtern d s h)

theorem allocas_foldFunctions (fns : List Function) :
    ∀ (s : St), allocasOnlyInEntry s →
      allocasOnlyInEntry (fns.foldl (fun s fn => declareFunction fn s) s) := by
  induction fns with
  | nil => intro s h; exact h
  | cons fn rest ih =>
      intro s h
      rw [List.foldl_cons]
      exact ih (declareFunction fn s) (allocas_declareFunction fn s h)

theorem allocas_declarePhase (tu : TranslationUnit) :
    allocasOnlyInEntry (declarePhase tu) := by
  simp only [declarePhase]
  exact allocas_foldFunctions tu.functions _ (allocas_foldExterns tu.externs initState allocas_initState)

theorem emitIR_pres (tu : TranslationUnit) (s : St) (h : emitIR tu = .ok s) :
    StmtPres (declarePhase tu) s := by
  rw [emitIR] at h
  cases hl : lowerFunctions tu.functions (declarePhase tu) with
  | error msg => rw [hl] at h; cases h
  | ok s1 =>
      rw [hl] at h
      dsimp only at h
      by_cases hv : verifyModuleOk s1 = true
      · rw [if_pos hv] at h
        cases h
        exact lowerFunctions_pres tu.functions _ _ hl
      · rw [if_neg hv] at h; cases h

theorem emitIR_verified (tu : TranslationUnit) (s : St) (h : emitIR tu = .ok s) :
    verifyModuleOk s = true := by
  rw [emitIR] at h
  cases hl : lowerFunctions tu.functions (declarePhase tu) with
  | error msg => rw [hl] at h; cases h
  | ok s1 =>
      rw [hl] at h
      dsimp only at h
      by_cases hv : verifyModuleOk s1 = true
      · rw [if_pos hv] at h
        cases h
        exact hv
      · rw [if_neg hv] at h; cases h

theorem emitIR_allocas (tu : TranslationUnit) (s : St) (h : emitIR tu = .ok s) :
    allocasOnlyInEntry s :=
  (emitIR_pres tu s h).2.2 (allocas_declarePhase tu)

theorem emitIR_funcNames (tu : TranslationUnit) (s : St) (h : emitIR tu = .ok s) :
    funcNames s = declaredNames tu :=
  ((emitIR_pres tu s h).1).trans (funcNames_declarePhase tu)

theorem countP_of_wellFormed (bb : BasicBlock) (h : wellFormedBlock bb = true) :
    bb.instrs.countP (fun i => Instr.isTerminator i) = 1 := by
  rw [wellFormedBlock] at h
  cases hl : bb.instrs.getLast? with
  | none => rw [hl] at h; cases h
  | some last =>
      rw [hl, Bool.and_eq_true] at h
      have hne : bb.instrs ≠ [] := by
        intro he
        rw [he] at hl
        cases hl
      have hgl : bb.instrs.getLast hne = last := by
        have := List.getLast?_eq_getLast bb.instrs hne
        rw [hl] at this
        exact (Option.some.inj this).symm
      have hsplit : bb.instrs = bb.instrs.dropLast ++ [last] := by
        conv_lhs => rw [← List.dropLast_append_getLast hne]
        rw [hgl]
      rw [hsplit, List.countP_append]
      have hz : bb.instrs.dropLast.countP (fun i => Instr.isTerminator i) = 0 := by
        rw [List.countP_eq_zero]
        intro a ha
        have := List.all_eq_true.mp h.2 a ha
        simpa using this
      rw [hz]
      simp [List.countP_cons, h.1]

theorem verifyModule_blocks (s : St) (hv : verifyModuleOk s = true) :
    ∀ fn ∈ s.funcs, ∀ bid ∈ fn.blocks,
      ∃ bb, lookupBlock s bid = some bb ∧
        bb.instrs.countP (fun i => Instr.isTerminator i) = 1 := by
  intro fn hfn bid hbid
  have hv2 : s.funcs.all (fun fn => fn.blocks.isEmpty || verifyFn s fn) = true := hv
  have h1 := List.all_eq_true.mp hv2 fn hfn
  rw [Bool.or_eq_true] at h1
  cases h1 with
  | inl h1 =>
      cases hb : fn.blocks with
      | nil => rw [hb] at hbid; cases hbid
      | cons a l => rw [hb] at h1; cases h1
  | inr h1 =>
      have h1b : fn.blocks.all (fun bid =>
          match lookupBlock s bid with
          | some bb => wellFormedBlock bb
          | none => false) = true := h1
      have h2 := List.all_eq_true.mp h1b bid hbid
      cases hlb : lookupBlock s bid with
      | none =>
          rw [hlb] at h2
          cases h2
      | some bb =>
          refine ⟨bb, rfl, countP_of_wellFormed bb ?_⟩
          rw [hlb] at h2
          exact h2

end CG

namespace CG

/-- Extract the final module state of a successful `emitIR` run. -/
def okState (tu : TranslationUnit) : St :=
  match emitIR tu with
  | .ok s => s
  | .error _ => initState

/-- Whether `emitIR` succeeds. -/
def emitOk (tu : TranslationUnit) : Bool :=
  match emitIR tu with
  | .ok _ => true
  | .error _ => false

theorem findIdx_isSome_of_name_mem (n : String) :
    ∀ (fns : List Fn) (i : Nat), n ∈ fns.map Fn.name →
      (List.findIdx? (fun fn => fn.name == n) fns i).isSome = true := by
  intro fns
  induction fns with
  | nil => intro i h; cases h
  | cons fn rest ih =>
      intro i h
      rw [List.map_cons, List.mem_cons] at h
      simp only [List.findIdx?]
      by_cases hp : (fn.name == n) = true
      · rw [if_pos hp]; rfl
      · rw [if_neg hp]
        cases h with
        | inl h => exact absurd (beq_iff_eq.mpr h.symm) hp
        | inr h => exact ih (i + 1) h

theorem getFunction_isSome_of_mem (s : St) (n : String)
    (h : n ∈ funcNames s) : (getFunction s n).isSome = true :=
  findIdx_isSome_of_name_mem n s.funcs 0 h

end CG

/-! ## Claim theorems -/

namespace CG

/-- C1 (amended): in every module that `CodeGen::emitIR` emits without a fatal
error, every basic block of every function contains exactly one terminator.
This holds because `llvm::verifyFunction` gates the output, not because of a
per-statement terminator check: the lowering has no such check, and a
statement after a `return` emits into the already-terminated block (see the
counterexample), after which the function is rejected. -/
theorem C1_one_terminator_per_block (tu : TranslationUnit) (s : St)
    (h : emitIR tu = .ok s) :
    ∀ fn ∈ s.funcs, ∀ bid ∈ fn.blocks,
      ∃ bb, lookupBlock s bid = some bb ∧
        bb.instrs.countP (fun i => Instr.isTerminator i) = 1 :=
  verifyModule_blocks s (emitIR_verified tu s h)

/-- C1 witness: `int f() { return 1; }` lowers successfully and the emitted
module satisfies the one-terminator-per-block property. -/
theorem C1_one_terminator_per_block_witness :
    emitIR tuRetOne = Except.ok (okState tuRetOne) ∧
      ∀ fn ∈ (okState tuRetOne).funcs, ∀ bid ∈ fn.blocks,
        ∃ bb, lookupBlock (okState tuRetOne) bid = some bb ∧
          bb.instrs.countP (fun i => Instr.isTerminator i) = 1 :=
  ⟨rfl, C1_one_terminator_per_block tuRetOne (okState tuRetOne) rfl⟩

/-- C1 counterexample: lowering `int f() { return 1; return 2; }` emits the
second `ret` into the entry block, which then holds two terminators, and the
whole run aborts with the verifier error — the claimed per-statement
"skip if the block already has a terminator" check does not exist. -/
theorem C1_counterexample_second_terminator :
    (match codegenStmts fnTwoReturns.body 0
        (setupEntryAndParams 0 [] (declarePhase tuTwoReturns)) with
     | .ok s => (lookupBlock s 0).map
         (fun bb => bb.instrs.countP (fun i => Instr.isTerminator i))
     | .error _ => none) = some 2
    ∧ emitIR tuTwoReturns = .error ("Generated invalid function IR") :=
  ⟨rfl, rfl⟩

/-- C3 (amended): the default-return backstop of `CodeGen::emitIR` tests the
ENTRY block, not the block that is current after the body, and it always
synthesizes `ret 0` (at the current insertion point) regardless of return
type. -/
theorem C3_default_return_checks_entry (fidx bid : Nat) (s : St)
    (h : entryBlock s fidx = some bid) :
    synthesizeDefaultReturn fidx s =
      if blockTerminated s bid then s else (emit (Instr.ret (Value.constInt 0)) s).2 := by
  rw [synthesizeDefaultReturn, h]

/-- C3 witness: in the state reached just after entry/parameter setup for
`int f() { return 1; }`, the entry block is block 0 and is unterminated, so
the backstop emits `ret 0`. -/
theorem C3_default_return_checks_entry_witness :
    entryBlock (setupEntryAndParams 0 [] (declarePhase tuRetOne)) 0 = some 0 ∧
      synthesizeDefaultReturn 0 (setupEntryAndParams 0 [] (declarePhase tuRetOne)) =
        if blockTerminated (setupEntryAndParams 0 [] (declarePhase tuRetOne)) 0 then
          setupEntryAndParams 0 [] (declarePhase tuRetOne)
        else (emit (Instr.ret (Value.constInt 0))
          (setupEntryAndParams 0 [] (declarePhase tuRetOne))).2 :=
  ⟨rfl, C3_default_return_checks_entry 0 0 (setupEntryAndParams 0 [] (declarePhase tuRetOne)) rfl⟩

/-- C3 counterexample: for `int f() { if (1) { } else { } }` the body ends
with the builder in the empty `ifcont` block (block 4): the entry block is
terminated, so the backstop synthesizes nothing, the final block stays
unterminated, and lowering aborts — refuting "lowering a function always
leaves its final block terminated". -/
theorem C3_counterexample_ifcont_unterminated :
    (match codegenStmts fnIfEmpty.body 0
        (setupEntryAndParams 0 [] (declarePhase tuIfEmpty)) with
     | .ok s => some (s.insertPt, blockTerminated s 0, blockTerminated s 4)
     | .error _ => none) = some (some 4, true, false)
    ∧ emitIR tuIfEmpty = .error ("Generated invalid function IR") :=
  ⟨rfl, rfl⟩

/-- C4 (amended for `CodeGen`, src/src/codegen.cpp): `createEntryBlockAlloca`
prepends every parameter and variable slot to the function's entry block, so
in every successfully emitted module every alloca resides in the entry block
of its function. (The parallel `CodeGenerator`, src/codegen.cpp, instead
allocates at the current insertion point — see the counterexample.) -/
theorem C4_allocas_in_entry_block (tu : TranslationUnit) (s : St)
    (h : emitIR tu = .ok s) : allocasOnlyInEntry s :=
  (emitIR_pres tu s h).2.2 (allocas_declarePhase tu)

/-- C4 witness: `int g() { int x = 1; return x; }` emits successfully and
every alloca of the module sits in an entry block. -/
theorem C4_allocas_in_entry_block_witness :
    emitIR tuVarDecl = Except.ok (okState tuVarDecl) ∧
      allocasOnlyInEntry (okState tuVarDecl) :=
  ⟨rfl, C4_allocas_in_entry_block tuVarDecl (okState tuVarDecl) rfl⟩

/-- C10: `CodeGen::emitIR` declares every extern and every function before
lowering any body, so at the start of each function's lowering the module's
function-name list is already the full declared list, and every declared
name — including functions defined later in the file — resolves via
`getFunction`.  The state `smid` is the one in which the next body of `rest`
is lowered. -/
theorem C10_declare_before_lower (tu : TranslationUnit)
    (done rest : List Function) (smid : St)
    (hsplit : tu.functions = done ++ rest)
    (h : lowerFunctions done (declarePhase tu) = .ok smid) :
    ∀ n ∈ declaredNames tu, (getFunction smid n).isSome = true := by
  intro n hn
  have h1 := (lowerFunctions_pres done (declarePhase tu) smid h).1
  rw [funcNames_declarePhase tu] at h1
  exact getFunction_isSome_of_mem smid n (by rw [h1]; exact hn)

/-- C10 witness: in `int f() { return g(); } int g() { return 1; }` the name
`g` resolves while lowering `f` (the split `[] ++ functions`), and the whole
unit emits successfully — the forward reference works. -/
theorem C10_declare_before_lower_witness :
    tuForward.functions = [] ++ tuForward.functions ∧
      lowerFunctions [] (declarePhase tuForward) = .ok (declarePhase tuForward) ∧
      (∀ n ∈ declaredNames tuForward,
        (getFunction (declarePhase tuForward) n).isSome = true) ∧
      emitOk tuForward = true :=
  ⟨rfl, rfl,
    C10_declare_before_lower tuForward [] tuForward.functions (declarePhase tuForward) rfl rfl,
    rfl⟩

end CG

namespace CGen

theorem stacksEq_refl (s : CSt) : stacksEq s s := ⟨rfl, rfl⟩

theorem stacksEq_trans {a b c : CSt} (h1 : stacksEq a b) (h2 : stacksEq b c) :
    stacksEq a c := ⟨h2.1.trans h1.1, h2.2.trans h1.2⟩

theorem emitv_stacks (i : CInstr) (t : Ty) (s : CSt) : stacksEq s (emitv i t s).2 := by
  rw [emitv]
  cases s.insertPt <;> exact ⟨rfl, rfl⟩

theorem emitn_stacks (i : CInstr) (s : CSt) : stacksEq s (emitn i s) :=
  emitv_stacks i .voidTy s

theorem createBlockC_stacks (n : String) (s : CSt) : stacksEq s (createBlockC n s).2 :=
  ⟨rfl, rfl⟩

theorem attachBlockC_stacks (fidx bid : Nat) (s : CSt) :
    stacksEq s (attachBlockC fidx bid s) := ⟨rfl, rfl⟩

theorem createBlockInC_stacks (n : String) (fidx : Nat) (s : CSt) :
    stacksEq s (createBlockInC n fidx s).2 :=
  stacksEq_trans (createBlockC_stacks n s)
    (attachBlockC_stacks fidx (createBlockC n s).1 (createBlockC n s).2)

theorem setInsertPointC_stacks (bid : Nat) (s : CSt) :
    stacksEq s (setInsertPointC bid s) := ⟨rfl, rfl⟩

theorem enterScope_stacks (s : CSt) : stacksEq s (enterScope s) := ⟨rfl, rfl⟩

theorem exitScope_stacks (s : CSt) : stacksEq s (exitScope s) := ⟨rfl, rfl⟩

theorem setVariable_stacks (n : String) (v : CValue) (s : CSt) :
    stacksEq s (setVariable n v s) := ⟨rfl, rfl⟩

theorem createCast_stacks (v : CValue) (t : Ty) (s : CSt) :
    stacksEq s (createCast v t s).2 := by
  rw [createCast]
  split_ifs <;> first | exact stacksEq_refl _ | exact emitv_stacks _ _ _

theorem okStacks_pairUp {s s1 : CSt} (h : stacksEq s s1) (i : CInstr) (t : Ty) :
    okStacks s (.ok (pairUp (emitv i t s1))) :=
  stacksEq_trans h (emitv_stacks i t s1)

theorem okStacks_okp {s s1 : CSt} (h : stacksEq s s1) (v : Option CValue) :
    okStacks s (.ok (v, s1)) := h

theorem okStacks_ite {s : CSt} (c : Prop) [Decidable c]
    {e1 e2 : Except String (Option CValue × CSt)}
    (h1 : okStacks s e1) (h2 : okStacks s e2) : okStacks s (if c then e1 else e2) := by
  by_cases hc : c
  · rw [if_pos hc]; exact h1
  · rw [if_neg hc]; exact h2

theorem okStacks_okite {s : CSt} (c : Prop) [Decidable c] {p1 p2 : Option CValue × CSt}
    (h1 : okStacks s (.ok p1)) (h2 : okStacks s (.ok p2)) :
    okStacks s (.ok (if c then p1 else p2)) := by
  by_cases hc : c
  · rw [if_pos hc]; exact h1
  · rw [if_neg hc]; exact h2

/-- Push a pair, run a stack-preserving computation, pop: the stacks are
restored. -/
theorem stacksEq_pop {s sP sPush s6 : CSt} {a c : Nat}
    (hpre : stacksEq s sP)
    (hb : sPush.breakStack = a :: sP.breakStack)
    (hc : sPush.continueStack = c :: sP.continueStack)
    (hmid : stacksEq sPush s6) :
    stacksEq s { s6 with breakStack := s6.breakStack.tail,
                         continueStack := s6.continueStack.tail } := by
  constructor
  · show s6.breakStack.tail = s.breakStack
    rw [hmid.1, hb]
    exact hpre.1
  · show s6.continueStack.tail = s.continueStack
    rw [hmid.2, hc]
    exact hpre.2

theorem codegenIdentifier_stacks (name : String) (s : CSt) :
    okStacks s (codegenIdentifier name s) := by
  rw [codegenIdentifier]
  cases getVariable s name with
  | none => exact stacksEq_refl s
  | some slot =>
      dsimp only
      cases slot.ty.pointerElement with
      | none => exact trivial
      | some elemTy => exact okStacks_pairUp (stacksEq_refl s) _ _

theorem codegenBreakStatement_stacks (s : CSt) :
    okStacks s (codegenBreakStatement s) := by
  rw [codegenBreakStatement]
  cases s.breakStack with
  | nil => exact stacksEq_refl s
  | cons b rest => exact okStacks_okp (emitn_stacks _ s) none

theorem codegenContinueStatement_stacks (s : CSt) :
    okStacks s (codegenContinueStatement s) := by
  rw [codegenContinueStatement]
  cases s.continueStack with
  | nil => exact stacksEq_refl s
  | cons c rest => exact okStacks_okp (emitn_stacks _ s) none

theorem codegenNodes_cons_eq (fuel : Nat) (n : Node) (rest : List Node) (s : CSt) :
    codegenNodes (fuel+1) (n :: rest) s =
      (match codegenNode fuel n s with
       | .error msg => .error msg
       | .ok (v, s) =>
         match rest with
         | [] => .ok (v, s)
         | m :: ms => codegenNodes fuel (m :: ms) s) := rfl

theorem codegenCallArgs_cons_eq (fuel : Nat) (n : Node) (rest : List Node) (s : CSt) :
    codegenCallArgs (fuel+1) (n :: rest) s =
      (match codegenNode fuel n s with
       | .error msg => .error msg
       | .ok (none, s) => .ok (none, s)
       | .ok (some v, s) =>
         match codegenCallArgs fuel rest s with
         | .error msg => .error msg
         | .ok (none, s) => .ok (none, s)
         | .ok (some vs, s) => .ok (some (v :: vs), s)) := rfl

mutual
theorem codegenNode_stacks (fuel : Nat) (n : Node) (s : CSt) :
    okStacks s (codegenNode fuel n s) := by
  match fuel with
  | 0 => exact trivial
  | fuel+1 =>
      match n with
      | .intLit v => exact stacksEq_refl s
      | .floatLit v => exact stacksEq_refl s
      | .charLit v => exact stacksEq_refl s
      | .boolLit b => exact stacksEq_refl s
      | .identifier name => exact codegenIdentifier_stacks name s
      | .binaryExpr op left right => exact codegenBinaryExpression_stacks fuel op left right s
      | .assignment lhs rhs => exact codegenAssignment_stacks fuel lhs rhs s
      | .functionCall name args => exact codegenFunctionCall_stacks fuel name args s
      | .compound stmts => exact codegenCompoundStatement_stacks fuel stmts s
      | .exprStmt e =>
          cases e with
          | none => exact stacksEq_refl s
          | some e => exact codegenNode_stacks fuel e s
      | .ifStmt cond thenStmt elseStmt => exact codegenIfStatement_stacks fuel cond thenStmt elseStmt s
      | .whileStmt cond body => exact codegenWhileStatement_stacks fuel cond body s
      | .forStmt init cond inc body => exact codegenForStatement_stacks fuel init cond inc body s
      | .returnStmt e => exact codegenReturnStatement_stacks fuel e s
      | .breakStmt => exact codegenBreakStatement_stacks s
      | .continueStmt => exact codegenContinueStatement_stacks s
      | .varDecl tyName name init => exact codegenVariableDeclaration_stacks fuel tyName name init s
termination_by (fuel, 0)

theorem codegenNode_stacks_ok (fuel : Nat) (n : Node) (s : CSt) (v : Option CValue) (s2 : CSt)
    (h : codegenNode fuel n s = .ok (v, s2)) : stacksEq s s2 := by
  have h2 := codegenNode_stacks fuel n s
  rw [h] at h2
  exact h2
termination_by (fuel, 1)

theorem optNode_stacks_ok (fuel : Nat) (o : Option Node) (st : CSt) (v : Option CValue) (s2 : CSt)
    (h : (match o with
          | some e => codegenNode fuel e st
          | none => .ok (none, st)) = Except.ok (v, s2)) :
    stacksEq st s2 := by
  cases o with
  | none =>
      cases h
      exact stacksEq_refl st
  | some e => exact codegenNode_stacks_ok fuel e st v s2 h
termination_by (fuel, 2)

theorem optCond_stacks_ok (fuel : Nat) (o : Option Node) (st : CSt) (cmp : CValue) (s2 : CSt)
    (h : (match o with
          | some c =>
            match codegenNode fuel c st with
            | .error msg => .error msg
            | .ok (none, _) => .error ("null condition value dereferenced")
            | .ok (some condV, s) => .ok (emitv (.icmpNe condV ⟨.i32, .constInt 0⟩) .i1 s)
          | none => .ok (⟨.i1, .constInt 1⟩, st)) = Except.ok (cmp, s2)) :
    stacksEq st s2 := by
  cases o with
  | none =>
      dsimp only at h
      cases h
      exact stacksEq_refl st
  | some c =>
      revert h
      dsimp only
      cases hc2 : codegenNode fuel c st with
      | error msg =>
          dsimp only
          intro h
          cases h
      | ok pc =>
        obtain ⟨cvo, s7⟩ := pc
        have h7 := codegenNode_stacks_ok fuel c st cvo s7 hc2
        cases cvo with
        | none =>
            dsimp only
            intro h
            simp at h
        | some condV =>
            dsimp only
            intro h
            have hs2 : (emitv (.icmpNe condV ⟨.i32, .constInt 0⟩) .i1 s7).2 = s2 :=
              congrArg Prod.snd (Except.ok.inj h)
            exact hs2 ▸ stacksEq_trans h7 (emitv_stacks _ _ s7)
termination_by (fuel, 2)

theorem codegenBinaryExpression_stacks (fuel : Nat) (op : String) (left right : Node) (s : CSt) :
    okStacks s (codegenBinaryExpression fuel op left right s) := by
  match fuel with
  | 0 => exact trivial
  | fuel+1 =>
    rw [codegenBinaryExpression]
    cases hL : codegenNode fuel left s with
    | error msg => exact trivial
    | ok p =>
      obtain ⟨lv, s1⟩ := p
      have h1 : stacksEq s s1 := codegenNode_stacks_ok fuel left s lv s1 hL
      cases lv with
      | none =>
          dsimp only
          cases hR : codegenNode fuel right s1 with
          | error msg => exact trivial
          | ok q =>
            obtain ⟨rv, s2⟩ := q
            have h2 := codegenNode_stacks_ok fuel right s1 rv s2 hR
            exact okStacks_okp (stacksEq_trans h1 h2) none
      | some l =>
          dsimp only
          cases hR : codegenNode fuel right s1 with
          | error msg => exact trivial
          | ok q =>
            obtain ⟨rv, s2⟩ := q
            have h2 := codegenNode_stacks_ok fuel right s1 rv s2 hR
            have hs : stacksEq s s2 := stacksEq_trans h1 h2
            cases rv with
            | none => exact okStacks_okp hs none
            | some r =>
                dsimp only
                exact (okStacks_ite _ (okStacks_okite _ (okStacks_pairUp hs _ _) (okStacks_pairUp hs _ _)) (okStacks_ite _ (okStacks_okite _ (okStacks_pairUp hs _ _) (okStacks_pairUp hs _ _)) (okStacks_ite _ (okStacks_okite _ (okStacks_pairUp hs _ _) (okStacks_pairUp hs _ _)) (okStacks_ite _ (okStacks_okite _ (okStacks_pairUp hs _ _) (okStacks_pairUp hs _ _)) (okStacks_ite _ (okStacks_pairUp hs _ _) (okStacks_ite _ (okStacks_okite _ (okStacks_pairUp hs _ _) (okStacks_pairUp hs _ _)) (okStacks_ite _ (okStacks_okite _ (okStacks_pairUp hs _ _) (okStacks_pairUp hs _ _)) (okStacks_ite _ (okStacks_okite _ (okStacks_pairUp hs _ _) (okStacks_pairUp hs _ _)) (okStacks_ite _ (okStacks_okite _ (okStacks_pairUp hs _ _) (okStacks_pairUp hs _ _)) (okStacks_ite _ (okStacks_okite _ (okStacks_pairUp hs _ _) (okStacks_pairUp hs _ _)) (okStacks_ite _ (okStacks_okite _ (okStacks_pairUp hs _ _) (okStacks_pairUp hs _ _)) (okStacks_ite _ (okStacks_pairUp hs _ _) (okStacks_ite _ (okStacks_pairUp hs _ _) (okStacks_okp hs none))))))))))))))
termination_by (fuel, 2)

theorem codegenAssignment_stacks (fuel : Nat) (lhs rhs : Node) (s : CSt) :
    okStacks s (codegenAssignment fuel lhs rhs s) := by
  match fuel with
  | 0 => exact trivial
  | fuel+1 =>
    rw [codegenAssignment]
    cases hR : codegenNode fuel rhs s with
    | error msg => exact trivial
    | ok p =>
      obtain ⟨rv, s1⟩ := p
      have h1 := codegenNode_stacks_ok fuel rhs s rv s1 hR
      cases rv with
      | none => exact okStacks_okp h1 none
      | some v =>
          dsimp only
          split
          next name =>
            cases getVariable s1 name with
            | none => exact okStacks_okp h1 none
            | some slot =>
                dsimp only
                cases slot.ty.pointerElement with
                | none => exact trivial
                | some varTy =>
                    dsimp only
                    exact okStacks_okp (stacksEq_trans h1
                      (stacksEq_trans (createCast_stacks v varTy s1)
                        (emitn_stacks _ _))) _
          next hne => exact okStacks_okp h1 none
termination_by (fuel, 2)

theorem codegenFunctionCall_stacks (fuel : Nat) (name : String) (args : List Node) (s : CSt) :
    okStacks s (codegenFunctionCall fuel name args s) := by
  match fuel with
  | 0 => exact trivial
  | fuel+1 =>
    rw [codegenFunctionCall]
    cases getFunctionC s name with
    | none => exact stacksEq_refl s
    | some fidx =>
        dsimp only
        cases hA : codegenCallArgs fuel args s with
        | error msg => exact trivial
        | ok p =>
          obtain ⟨avs, s1⟩ := p
          have h1 := codegenCallArgs_stacks_ok fuel args s avs s1 hA
          cases avs with
          | none => exact okStacks_okp h1 none
          | some argVals => exact okStacks_pairUp h1 _ _
termination_by (fuel, 2)

theorem codegenCompoundStatement_stacks (fuel : Nat) (stmts : List Node) (s : CSt) :
    okStacks s (codegenCompoundStatement fuel stmts s) := by
  match fuel with
  | 0 => exact trivial
  | fuel+1 =>
    rw [codegenCompoundStatement]
    cases hN : codegenNodes fuel stmts (enterScope s) with
    | error msg => exact trivial
    | ok p =>
      obtain ⟨v, s1⟩ := p
      have h1 := codegenNodes_stacks_ok fuel stmts (enterScope s) v s1 hN
      exact okStacks_okp
        (stacksEq_trans (stacksEq_trans (enterScope_stacks s) h1) (exitScope_stacks s1)) v
termination_by (fuel, 2)

theorem codegenIfStatement_stacks (fuel : Nat) (cond thenStmt : Node) (elseStmt : Option Node) (s : CSt) :
    okStacks s (codegenIfStatement fuel cond thenStmt elseStmt s) := by
  match fuel with
  | 0 => exact trivial
  | fuel+1 =>
    rw [codegenIfStatement]
    cases hC : codegenNode fuel cond s with
    | error msg => exact trivial
    | ok p =>
      obtain ⟨cv, s1⟩ := p
      have h1 := codegenNode_stacks_ok fuel cond s cv s1 hC
      cases cv with
      | none => exact okStacks_okp h1 none
      | some condV =>
          dsimp only
          cases (emitv (.icmpNe condV ⟨.i32, .constInt 0⟩) .i1 s1).2.insertPt.bind
              (parentOfC (emitv (.icmpNe condV ⟨.i32, .constInt 0⟩) .i1 s1).2) with
          | none => exact trivial
          | some fidx =>
              dsimp only
              split
              next msg heqT => exact trivial
              next tv s5 heqT =>
                have hT := codegenNode_stacks_ok fuel thenStmt _ tv s5 heqT
                split
                next msg heqE => exact trivial
                next ev s6 heqE =>
                  have hE := optNode_stacks_ok fuel elseStmt _ ev s6 heqE
                  exact okStacks_okp (stacksEq_trans h1 (stacksEq_trans (emitv_stacks _ _ s1) (stacksEq_trans (createBlockInC_stacks _ fidx _) (stacksEq_trans (createBlockC_stacks _ _) (stacksEq_trans (createBlockC_stacks _ _) (stacksEq_trans (emitn_stacks _ _) (stacksEq_trans (setInsertPointC_stacks _ _) (stacksEq_trans hT (stacksEq_trans (emitn_stacks _ _) (stacksEq_trans (attachBlockC_stacks fidx _ _) (stacksEq_trans (setInsertPointC_stacks _ _) (stacksEq_trans hE (stacksEq_trans (emitn_stacks _ _) (stacksEq_trans (attachBlockC_stacks fidx _ _) (setInsertPointC_stacks _ _))))))))))))))) none
termination_by (fuel, 2)

theorem codegenWhileStatement_stacks (fuel : Nat) (cond body : Node) (s : CSt) :
    okStacks s (codegenWhileStatement fuel cond body s) := by
  match fuel with
  | 0 => exact trivial
  | fuel+1 =>
    rw [codegenWhileStatement]
    cases s.insertPt.bind (parentOfC s) with
    | none => exact trivial
    | some fidx =>
        dsimp only
        split
        next msg heqC => exact trivial
        next s7 heqC => exact trivial
        next condV s5 heqC =>
          split
          next msg heqB => exact trivial
          next bv s6 heqB =>
                have hB := codegenNode_stacks_ok fuel body _ bv s6 heqB
                have hC := codegenNode_stacks_ok fuel cond _ (some condV) s5 heqC
                refine okStacks_okp ?_ none
                have hpre := stacksEq_trans (createBlockInC_stacks ("whilecond") fidx s)
                  (stacksEq_trans (createBlockC_stacks ("whilebody") _)
                    (createBlockC_stacks ("whileafter") _))
                exact stacksEq_pop hpre rfl rfl (stacksEq_trans (emitn_stacks _ _) (stacksEq_trans (setInsertPointC_stacks _ _) (stacksEq_trans hC (stacksEq_trans (emitv_stacks _ _ s5) (stacksEq_trans (emitn_stacks _ _) (stacksEq_trans (attachBlockC_stacks fidx _ _) (stacksEq_trans (setInsertPointC_stacks _ _) (stacksEq_trans hB (stacksEq_trans (emitn_stacks _ _) (stacksEq_trans (attachBlockC_stacks fidx _ _) ((setInsertPointC_stacks _ _))))))))))))
termination_by (fuel, 2)

theorem codegenForStatement_stacks (fuel : Nat) (init cond inc : Option Node) (body : Node) (s : CSt) :
    okStacks s (codegenForStatement fuel init cond inc body s) := by
  match fuel with
  | 0 => exact trivial
  | fuel+1 =>
    rw [codegenForStatement]
    cases s.insertPt.bind (parentOfC s) with
    | none => exact trivial
    | some fidx =>
        dsimp only
        split
        next msg heqI => exact trivial
        next iv s5 heqI =>
          have hI := optNode_stacks_ok fuel init _ iv s5 heqI
          split
          next msg heqC => exact trivial
          next cmp s6 heqC =>
            have hCn := optCond_stacks_ok fuel cond _ cmp s6 heqC
            split
            next msg heqB => exact trivial
            next bv s8 heqB =>
              have hB := codegenNode_stacks_ok fuel body _ bv s8 heqB
              split
              next msg heqN => exact trivial
              next nv s9 heqN =>
                have hN := optNode_stacks_ok fuel inc _ nv s9 heqN
                refine okStacks_okp ?_ none
                have hpre := stacksEq_trans (createBlockInC_stacks ("forinit") fidx s)
                  (stacksEq_trans (createBlockC_stacks ("forcond") _)
                    (stacksEq_trans (createBlockC_stacks ("forbody") _)
                      (stacksEq_trans (createBlockC_stacks ("forinc") _)
                        (createBlockC_stacks ("forafter") _))))
                exact stacksEq_pop hpre rfl rfl (stacksEq_trans (emitn_stacks _ _) (stacksEq_trans (setInsertPointC_stacks _ _) (stacksEq_trans hI (stacksEq_trans (emitn_stacks _ _) (stacksEq_trans (attachBlockC_stacks fidx _ _) (stacksEq_trans (setInsertPointC_stacks _ _) (stacksEq_trans hCn (stacksEq_trans (emitn_stacks _ _) (stacksEq_trans (attachBlockC_stacks fidx _ _) (stacksEq_trans (setInsertPointC_stacks _ _) (stacksEq_trans hB (stacksEq_trans (emitn_stacks _ _) (stacksEq_trans (attachBlockC_stacks fidx _ _) (stacksEq_trans (setInsertPointC_stacks _ _) (stacksEq_trans hN (stacksEq_trans (emitn_stacks _ _) (stacksEq_trans (attachBlockC_stacks fidx _ _) ((setInsertPointC_stacks _ _)))))))))))))))))))
termination_by (fuel, 2)

theorem codegenReturnStatement_stacks (fuel : Nat) (e : Option Node) (s : CSt) :
    okStacks s (codegenReturnStatement fuel e s) := by
  match fuel with
  | 0 => exact trivial
  | fuel+1 =>
    cases e with
    | none => exact emitn_stacks _ s
    | some e =>
        rw [codegenReturnStatement.eq_def]
        dsimp only
        cases hV : codegenNode fuel e s with
        | error msg => exact trivial
        | ok p =>
          obtain ⟨rv, s1⟩ := p
          have h1 := codegenNode_stacks_ok fuel e s rv s1 hV
          dsimp only
          cases s1.currentFunction.bind (fun i => (s1.funcs.get? i).map CFn.retTy) with
          | none => exact trivial
          | some retTy =>
              dsimp only
              by_cases hv : retTy.isVoidTy = true
              · rw [if_pos hv]
                exact okStacks_okp (stacksEq_trans h1 (emitn_stacks _ s1)) none
              · rw [if_neg hv]
                cases rv with
                | none => exact trivial
                | some rv =>
                    dsimp only
                    exact okStacks_okp (stacksEq_trans h1
                      (stacksEq_trans (createCast_stacks rv retTy s1) (emitn_stacks _ _))) none
termination_by (fuel, 2)

theorem codegenVariableDeclaration_stacks (fuel : Nat) (tyName name : String) (init : Option Node) (s : CSt) :
    okStacks s (codegenVariableDeclaration fuel tyName name init s) := by
  match fuel with
  | 0 => exact trivial
  | fuel+1 =>
    rw [codegenVariableDeclaration]
    dsimp only
    have hbase := stacksEq_trans
      (emitv_stacks (.alloca (getLLVMType tyName) name) (.ptr (getLLVMType tyName)) s)
      (setVariable_stacks name
        (emitv (.alloca (getLLVMType tyName) name) (.ptr (getLLVMType tyName)) s).1
        (emitv (.alloca (getLLVMType tyName) name) (.ptr (getLLVMType tyName)) s).2)
    cases init with
    | none => exact okStacks_okp hbase _
    | some ie =>
        dsimp only
        cases hV : codegenNode fuel ie (setVariable name
            (emitv (.alloca (getLLVMType tyName) name) (.ptr (getLLVMType tyName)) s).1
            (emitv (.alloca (getLLVMType tyName) name) (.ptr (getLLVMType tyName)) s).2) with
        | error msg => exact trivial
        | ok p =>
          obtain ⟨ivo, s1⟩ := p
          have h1 := codegenNode_stacks_ok fuel ie _ ivo s1 hV
          cases ivo with
          | none => exact okStacks_okp (stacksEq_trans hbase h1) _
          | some iv =>
              dsimp only
              exact okStacks_okp (stacksEq_trans hbase (stacksEq_trans h1
                (stacksEq_trans (createCast_stacks iv _ s1) (emitn_stacks _ _)))) _
termination_by (fuel, 2)

theorem codegenNodes_stacks (fuel : Nat) (ns : List Node) (s : CSt) :
    okStacks s (codegenNodes fuel ns s) := by
  match fuel, ns with
  | 0, [] => exact stacksEq_refl s
  | fuel+1, [] => exact stacksEq_refl s
  | 0, n :: rest => exact trivial
  | fuel+1, n :: rest =>
      rw [codegenNodes_cons_eq]
      cases hN : codegenNode fuel n s with
      | error msg => exact trivial
      | ok p =>
        obtain ⟨v, s1⟩ := p
        have h1 := codegenNode_stacks_ok fuel n s v s1 hN
        cases rest with
        | nil => exact okStacks_okp h1 v
        | cons m ms =>
            dsimp only
            cases hR : codegenNodes fuel (m :: ms) s1 with
            | error msg => exact trivial
            | ok q =>
              obtain ⟨v2, s2⟩ := q
              have h2 := codegenNodes_stacks_ok fuel (m :: ms) s1 v2 s2 hR
              exact okStacks_okp (stacksEq_trans h1 h2) v2
termination_by (fuel, 0)

theorem codegenNodes_stacks_ok (fuel : Nat) (ns : List Node) (s : CSt) (v : Option CValue) (s2 : CSt)
    (h : codegenNodes fuel ns s = .ok (v, s2)) : stacksEq s s2 := by
  have h2 := codegenNodes_stacks fuel ns s
  rw [h] at h2
  exact h2
termination_by (fuel, 1)

theorem codegenCallArgs_stacks (fuel : Nat) (ns : List Node) (s : CSt) :
    okStacksL s (codegenCallArgs fuel ns s) := by
  match fuel, ns with
  | 0, [] => exact stacksEq_refl s
  | fuel+1, [] => exact stacksEq_refl s
  | 0, n :: rest => exact trivial
  | fuel+1, n :: rest =>
      rw [codegenCallArgs_cons_eq]
      cases hN : codegenNode fuel n s with
      | error msg => exact trivial
      | ok p =>
        obtain ⟨v, s1⟩ := p
        have h1 := codegenNode_stacks_ok fuel n s v s1 hN
        cases v with
        | none => exact h1
        | some v =>
            dsimp only
            cases hR : codegenCallArgs fuel rest s1 with
            | error msg => exact trivial
            | ok q =>
              obtain ⟨vs, s2⟩ := q
              have h2 := codegenCallArgs_stacks_ok fuel rest s1 vs s2 hR
              cases vs with
              | none => exact stacksEq_trans h1 h2
              | some vals => exact stacksEq_trans h1 h2
termination_by (fuel, 0)

theorem codegenCallArgs_stacks_ok (fuel : Nat) (ns : List Node) (s : CSt)
    (v : Option (List CValue)) (s2 : CSt)
    (h : codegenCallArgs fuel ns s = .ok (v, s2)) : stacksEq s s2 := by
  have h2 := codegenCallArgs_stacks fuel ns s
  rw [h] at h2
  exact h2
termination_by (fuel, 1)
end

end CGen
namespace CGen

/-- C2: REFUTED for `CodeGenerator::codegenBinaryExpression` (src/codegen.cpp):
lowering `1.5 + 1` — a float and an int operand — emits `fadd` directly on the
mixed operands with no `sitofp` conversion of the integer side.  The function
picks the floating variant when either operand is floating but never casts the
other operand, so the emitted `fadd` has one `fl32` and one `i32` operand. -/
theorem C2_mixed_add_no_promotion :
    codegenNode 10 (.binaryExpr ("+") (.floatLit 1.5) (.intLit 1)) exprTestState =
      .ok (some ⟨.fl32, .inst 1⟩, C2resState) ∧
    (lookupBlockC C2resState 0).map CBlock.instrs =
      some [.fadd ⟨.fl32, .constFP 1.5⟩ ⟨.i32, .constInt 1⟩] ∧
    (lookupBlockC C2resState 0).map (fun bb => bb.instrs.any CInstr.isSitofp) =
      some false :=
  ⟨rfl, rfl, rfl⟩

/-- C4 counterexample: in `CodeGenerator::codegenVariableDeclaration`
(src/codegen.cpp:165) allocas are created by `builder->CreateAlloca` at the
CURRENT insertion point.  Lowering `int f() { while (1) { int x; } }` places
`alloca i32 x` in block 2 ("whilebody"), not in the function's entry block
(block 0, the head of its block list, which holds no alloca). -/
theorem C4_counterexample_alloca_in_loop_body :
    (match codegenFunctionDefinition 20 fdWhileDecl initStateC with
     | .ok s => (lookupBlockC s 2).map (fun bb => (bb.name, bb.instrs.filter CInstr.isAlloca))
     | .error _ => none) = some (("whilebody"), [.alloca .i32 ("x")]) ∧
    (match codegenFunctionDefinition 20 fdWhileDecl initStateC with
     | .ok s => s.funcs.map (fun fn => fn.blocks)
     | .error _ => []) = [[0, 1, 2, 3]] ∧
    (match codegenFunctionDefinition 20 fdWhileDecl initStateC with
     | .ok s => (lookupBlockC s 0).map (fun bb => bb.instrs.filter CInstr.isAlloca)
     | .error _ => none) = some [] :=
  ⟨rfl, rfl, rfl⟩

/-- C5 counterexample: `CodeGenerator::codegenFunctionCall` (src/codegen.cpp:577)
has no arity check.  `f` is declared with one parameter, yet the zero-argument
call `f()` lowers without any error and emits `call f()`. -/
theorem C5_counterexample_no_arity_check :
    (callTestState.funcs.get? 0).map (fun fn => (fn.name, fn.paramTys.length)) =
      some (("f"), 1) ∧
    (match codegenNode 10 (.functionCall ("f") []) callTestState with
     | .ok (some v, s2) => some (v.ty, (lookupBlockC s2 0).map CBlock.instrs)
     | _ => none) = some (.i32, some [.call ("f") []]) :=
  ⟨rfl, rfl⟩

end CGen

namespace IRGen

/-- C5 (amended): the checks live in `IRGenerator::codegen(CallExpr&)`
(src/src/ir_generator.cpp:71) and for that generator the claim holds,
fatality included: an unknown callee or an argument-count mismatch yields
null with no call emitted, before any argument is evaluated, and the null is
fatal — the enclosing block aborts at that statement (the remaining
statements are skipped), `codegen(FunctionDef&)` erases the enclosing
function from the module, and `codegen(Program&)` aborts the lowering of the
program with a null module.  With a known callee of matching arity the
arguments are evaluated left to right and the call is emitted.  (The
parallel `CodeGenerator::codegenFunctionCall` never checks the arity — see
the counterexample.) -/
theorem codegenStmtI_block_eq (fuel : Nat) (stmts : List IStmt) (s : ISt) :
    codegenStmtI (fuel+1) (.blockS stmts) s =
      match codegenStmtsI fuel stmts (enterScopeI s) with
      | .error msg => .error msg
      | .ok (v, s) => .ok (v, exitScopeI s) := rfl

theorem codegenStmtsI_cons_eq (fuel : Nat) (st : IStmt) (rest : List IStmt) (s : ISt) :
    codegenStmtsI (fuel+1) (st :: rest) s =
      match codegenStmtI fuel st s with
      | .error msg => .error msg
      | .ok (none, s) => .ok (none, s)
      | .ok (some v, s) =>
          match rest with
          | [] => .ok (some v, s)
          | r :: rs => codegenStmtsI fuel (r :: rs) s := rfl

theorem C5_call_checks (name : String) (args : List IExpr) (s : ISt) (fuel : Nat) :
    (getFunctionI s name = none → codegenExprI (.call name args) s = (none, s)) ∧
    (∀ fidx, getFunctionI s name = some fidx →
      ((s.funcs.get? fidx).map IFn.arity).getD 0 ≠ args.length →
      codegenExprI (.call name args) s = (none, s)) ∧
    (∀ fidx, getFunctionI s name = some fidx →
      ((s.funcs.get? fidx).map IFn.arity).getD 0 = args.length →
      ∀ argVals s1, codegenArgsI args s = (some argVals, s1) →
        codegenExprI (.call name args) s =
          (some (emitI (.call name argVals) s1).1, (emitI (.call name argVals) s1).2)) ∧
    (∀ (st : IStmt) (rest : List IStmt) (s0 s1 : ISt),
      codegenStmtI fuel st (enterScopeI s0) = .ok (none, s1) →
      codegenStmtI (fuel+1+1) (.blockS (st :: rest)) s0 = .ok (none, exitScopeI s1)) ∧
    (∀ (fd : IFnDef) (s1 : ISt), getFunctionI s fd.name = none →
      codegenStmtI fuel fd.body (funcSetupI fd s).2 = .ok (none, s1) →
      codegenFunctionDefI fuel fd s =
        .ok (none, exitScopeI (eraseFunctionI (funcSetupI fd s).1 s1))) ∧
    (∀ (fd : IFnDef) (rest : List IFnDef) (s1 : ISt),
      codegenFunctionDefI fuel fd s = .ok (none, s1) →
      codegenProgramI fuel (fd :: rest) s = .ok none) := by
  refine ⟨?_, ?_, ?_, ?_, ?_, ?_⟩
  · intro h
    rw [codegenExprI, h]
  · intro fidx hf hne
    rw [codegenExprI, hf]
    dsimp only
    rw [if_pos hne]
  · intro fidx hf he argVals s1 hargs
    rw [codegenExprI, hf]
    dsimp only
    rw [if_neg (fun hc => hc he), hargs]
  · intro st rest s0 s1 h
    rw [codegenStmtI_block_eq, codegenStmtsI_cons_eq, h]
  · intro fd s1 hnew hbody
    rw [codegenFunctionDefI, hnew]
    dsimp only
    rw [hbody]
  · intro fd rest s1 h
    rw [codegenProgramI, codegenFnsI, h]

/-- C5 witness: in a module knowing only the unary `f`, the call `g()` is
refused (unknown callee), `f(1.0, 2.0)` is refused (arity) — both with a
null result and no call emitted — and `f(2.0)` lowers to a call instruction;
the refusal is fatal: the block `{ f(); 1.0; }` aborts at the bad call,
lowering `double h() { f(); }` erases `h` again (only `f` remains in the
module), and lowering the one-function program `h` yields the null module. -/
theorem C5_call_checks_witness :
    codegenExprI (.call ("g") []) iCallTestState = (none, iCallTestState) ∧
    codegenExprI (.call ("f") [.number 1.0, .number 2.0]) iCallTestState =
      (none, iCallTestState) ∧
    codegenExprI (.call ("f") [.number 2.0]) iCallTestState =
      (some (emitI (.call ("f") [.constFP 2.0]) iCallTestState).1,
       (emitI (.call ("f") [.constFP 2.0]) iCallTestState).2) ∧
    codegenStmtI 10 (.blockS [.exprS (.call ("f") []), .exprS (.number 1.0)])
        iCallTestState =
      .ok (none, exitScopeI (enterScopeI iCallTestState)) ∧
    codegenFunctionDefI 8 fdBadCall iCallTestState =
      .ok (none,
        exitScopeI (eraseFunctionI (funcSetupI fdBadCall iCallTestState).1 badBodyState)) ∧
    codegenProgramI 8 [fdBadCall] iCallTestState = .ok none ∧
    (exitScopeI (eraseFunctionI (funcSetupI fdBadCall iCallTestState).1
      badBodyState)).funcs.map IFn.name = ["f"] :=
  ⟨(C5_call_checks ("g") [] iCallTestState 8).1 rfl,
   (C5_call_checks ("f") [.number 1.0, .number 2.0] iCallTestState 8).2.1 0 rfl (by decide),
   (C5_call_checks ("f") [.number 2.0] iCallTestState 8).2.2.1 0 rfl rfl
     [.constFP 2.0] iCallTestState rfl,
   (C5_call_checks ("f") [] iCallTestState 8).2.2.2.1 (.exprS (.call ("f") []))
     [.exprS (.number 1.0)] iCallTestState (enterScopeI iCallTestState) rfl,
   (C5_call_checks ("f") [] iCallTestState 8).2.2.2.2.1 fdBadCall badBodyState rfl rfl,
   (C5_call_checks ("f") [] iCallTestState 8).2.2.2.2.2 fdBadCall []
     (exitScopeI (eraseFunctionI (funcSetupI fdBadCall iCallTestState).1 badBodyState)) rfl,
   rfl⟩

/-- C9: `IRGenerator::codegen(VarDeclStmt&)` (src/src/ir_generator.cpp:97)
zero-initializes: a declaration without an initializer creates the entry-block
slot, stores the constant 0.0 into it, and binds the name, so the slot is
never left indeterminate. -/
theorem C9_uninitialized_var_zero_store (name : String) (s : ISt) (fidx : Nat)
    (h : s.insertPt.bind (parentOfI s) = some fidx) :
    codegenVarDeclI name none s =
      .ok (some (createEntryBlockAllocaI fidx name s).1,
        addSymbol name (createEntryBlockAllocaI fidx name s).1
          (emitI (.store (.constFP 0.0) (createEntryBlockAllocaI fidx name s).1)
            (createEntryBlockAllocaI fidx name s).2).2) := by
  rw [codegenVarDeclI, h]

/-- C9 witness: `var x;` in the test module stores 0.0 into the fresh slot,
and under the straight-line memory semantics the slot then holds 0.0 — the
first load of the uninitialized variable yields zero. -/
theorem C9_uninitialized_var_zero_store_witness :
    codegenVarDeclI ("x") none varTestState =
      .ok (some (createEntryBlockAllocaI 0 ("x") varTestState).1,
        addSymbol ("x") (createEntryBlockAllocaI 0 ("x") varTestState).1
          (emitI (.store (.constFP 0.0) (createEntryBlockAllocaI 0 ("x") varTestState).1)
            (createEntryBlockAllocaI 0 ("x") varTestState).2).2) ∧
    (match codegenVarDeclI ("x") none varTestState with
     | .ok (some (.inst id), s2) =>
         (lookupBlockI s2 0).map (fun bb => memLookup (memAfter bb.instrs) id)
     | _ => none) = some (some (.constFP 0.0)) :=
  ⟨C9_uninitialized_var_zero_store ("x") varTestState 0 rfl, rfl⟩

end IRGen

namespace TLexer

/-- C7 counterexample: `Lexer::getNextToken` (src/lexer.cpp:182) SILENTLY
skips an unrecognized byte ("Unknown character, skip it") — lexing `a @ b`
yields two identifier tokens and end-of-file with no error of any kind (the
lexer has no error channel at all). -/
theorem C7_counterexample_silent_skip :
    lexListT 5 (mkLexer ("a @ b")) = [.identifierT, .identifierT, .eofT] :=
  rfl

end TLexer

namespace CLexer

/-- C7 (amended): neither lexer raises a fatal error on an unrecognized byte.
`clike::Lexer::getNextToken` (src/src/lexer.cpp:10) consumes the byte and
returns it as an UNKNOWN token, continuing the stream after it; the other
lexer skips such bytes silently (see the counterexample). -/
theorem C7_unrecognized_byte_unknown_token (c : Char) (r : List Char) (line col : Int)
    (h1 : c ≠ ' ') (h2 : c ≠ '\t') (h3 : c ≠ '\n') (h4 : c ≠ '\r')
    (h5 : c.isDigit = false) (h6 : c.isAlpha = false) (h7 : c ≠ '_')
    (h8 : c ≠ '+') (h9 : c ≠ '-') (h10 : c ≠ '*') (h11 : c ≠ '/')
    (h12 : c ≠ '=') (h13 : c ≠ '<') (h14 : c ≠ '>') (h15 : c ≠ '!')
    (h16 : c ≠ '(') (h17 : c ≠ ')') (h18 : c ≠ Char.ofNat 123)
    (h19 : c ≠ Char.ofNat 125) (h20 : c ≠ ';') (h21 : c ≠ ',') :
    getNextTokenC ⟨c :: r, line, col⟩ =
      (⟨.UNKNOWN, String.mk [c], line, col + 1⟩, ⟨r, line, col + 1⟩) := by
  rw [getNextTokenC]
  rw [skipWhitespaceC]
  simp only [isDigitC, isAlphaC, isOperatorC, h1, h2, h3, h4, h5, h6, h7, h8, h9, h10,
    h11, h12, h13, h14, h15, h16, h17, h18, h19, h20, h21,
    if_false, Bool.or_false, Bool.false_or, ite_false, decide_False]
  simp [h1, h2, h3, h4, h5, h6, h7, h8, h9, h10, h11, h12, h13, h14, h15, h16, h17,
    h18, h19, h20, h21]

/-- C7 witness: the byte `@` becomes an UNKNOWN token and the stream
continues after it. -/
theorem C7_unrecognized_byte_unknown_token_witness :
    getNextTokenC ⟨['@'], 1, 1⟩ =
      (⟨.UNKNOWN, String.mk ['@'], 1, 1 + 1⟩, ⟨[], 1, 1 + 1⟩) :=
  C7_unrecognized_byte_unknown_token '@' [] 1 1 (by decide) (by decide) (by decide)
    (by decide) (by decide) (by decide) (by decide) (by decide) (by decide) (by decide)
    (by decide) (by decide) (by decide) (by decide) (by decide) (by decide) (by decide)
    (by decide) (by decide) (by decide) (by decide)

end CLexer

namespace CParser

/-- C8: `clike::Parser::parseIfStatement` (src/src/parser.cpp:232) attaches an
else branch exactly when the token current AFTER the then-statement is `else`.
When the then-branch is itself an if-statement, that inner parse has already
consumed the `else` (nearest-if binding): if the inner statement came back as
`If(c2, s1, else=s2)` and no second `else` follows, the outer if gets no else
branch — the result is `If(c1, If(c2, s1, else=s2), no-else)`. -/
theorem C8_dangling_else_nearest_if (n : Nat) (s : PState) (cond : CExpr) (s1 : PState)
    (hcond : parseExpression n (expectP .LEFT_PAREN (expectP .IF s)) = (some cond, s1))
    (innerCond : CExpr) (innerThen innerElse : CStmt) (s2 : PState)
    (hinner : parseStatement n (expectP .RIGHT_PAREN s1) =
      (some (.ifS innerCond innerThen (some innerElse)), s2))
    (hne : s2.cur.type ≠ .ELSE) :
    parseIfStatement (n+1) s =
      (some (.ifS cond (.ifS innerCond innerThen (some innerElse)) none), s2) := by
  rw [parseIfStatement]
  rw [hcond]
  dsimp only
  rw [hinner]
  dsimp only
  rw [if_neg hne]

/-- C8 witness: parsing `if ( a ) if ( b ) c else d` yields
`If(a, If(b, c, else=d), no-else)` — the else binds to the inner if. -/
theorem C8_dangling_else_nearest_if_witness :
    parseIfStatement 11 danglingState =
      (some (.ifS (.variableE "a")
        (.ifS (.variableE "b") (.exprS (some (.variableE "c")))
          (some (.exprS (some (.variableE "d"))))) none), dangS2) :=
  C8_dangling_else_nearest_if 10 danglingState (.variableE "a") dangS1 rfl
    (.variableE "b") (.exprS (some (.variableE "c"))) (.exprS (some (.variableE "d")))
    dangS2 rfl (by decide)

end CParser
namespace CGen

/-- C6: break and continue branch to the heads of `break_stack` and
`continue_stack`; `codegenWhileStatement` (src/codegen.cpp:251) pushes the
fresh `whileafter` block as break target and the fresh `whilecond` block as
continue target before lowering condition and body, and pops both stacks on
exit; `codegenForStatement` (src/codegen.cpp:290) pushes `forafter` as break
target and `forinc` as continue target likewise.  The existentials expose the
pushed state `sPush` (whose block store ends with the three/five fresh named
loop blocks), the state `sBody` in which the loop body is lowered — its
stacks still carry the push, so a break inside the body branches to the
loop's after block and a continue to its cond/inc block — and the final
state `s2` with both stacks restored (popped). -/
theorem C6_loop_stacks (s : CSt) (fuel : Nat) :
    (∀ b rest, s.breakStack = b :: rest →
        codegenBreakStatement s = .ok (none, emitn (.br b) s)) ∧
    (∀ c rest, s.continueStack = c :: rest →
        codegenContinueStatement s = .ok (none, emitn (.br c) s)) ∧
    (∀ cond body v s2, codegenWhileStatement (fuel+1) cond body s = .ok (v, s2) →
      ∃ condBB bodyBB afterBB sPush condV s5 bv s6 sBody,
        codegenNode fuel cond (setInsertPointC condBB (emitn (.br condBB) sPush)) =
          .ok (some condV, s5) ∧
        codegenNode fuel body sBody = .ok (bv, s6) ∧
        sBody.insertPt = some bodyBB ∧
        sPush.breakStack = afterBB :: s.breakStack ∧
        sPush.continueStack = condBB :: s.continueStack ∧
        sBody.breakStack = afterBB :: s.breakStack ∧
        sBody.continueStack = condBB :: s.continueStack ∧
        sPush.blockMap = s.blockMap ++
          [(condBB, ⟨("whilecond"), []⟩), (bodyBB, ⟨("whilebody"), []⟩),
           (afterBB, ⟨("whileafter"), []⟩)] ∧
        s2.breakStack = s.breakStack ∧ s2.continueStack = s.continueStack) ∧
    (∀ init cond inc body v s2,
        codegenForStatement (fuel+1) init cond inc body s = .ok (v, s2) →
      ∃ initBB condBB bodyBB incBB afterBB sPush iv s5 bv s6 sBody,
        ((match init with
          | some i => codegenNode fuel i (setInsertPointC initBB (emitn (.br initBB) sPush))
          | none => .ok (none, setInsertPointC initBB (emitn (.br initBB) sPush))) :
         Except String (Option CValue × CSt)) = .ok (iv, s5) ∧
        codegenNode fuel body sBody = .ok (bv, s6) ∧
        sBody.insertPt = some bodyBB ∧
        sPush.breakStack = afterBB :: s.breakStack ∧
        sPush.continueStack = incBB :: s.continueStack ∧
        condBB = initBB + 1 ∧
        sBody.breakStack = afterBB :: s.breakStack ∧
        sBody.continueStack = incBB :: s.continueStack ∧
        sPush.blockMap = s.blockMap ++
          [(initBB, ⟨("forinit"), []⟩), (condBB, ⟨("forcond"), []⟩),
           (bodyBB, ⟨("forbody"), []⟩), (incBB, ⟨("forinc"), []⟩),
           (afterBB, ⟨("forafter"), []⟩)] ∧
        s2.breakStack = s.breakStack ∧ s2.continueStack = s.continueStack) := by
  refine ⟨?_, ?_, ?_, ?_⟩
  · intro b rest hb
    rw [codegenBreakStatement, hb]
  · intro c rest hc
    rw [codegenContinueStatement, hc]
  · intro cond body v s2 h
    have hre : stacksEq s s2 := by
      have hrest := codegenWhileStatement_stacks (fuel+1) cond body s
      rw [h] at hrest
      exact hrest
    rw [codegenWhileStatement] at h
    cases hP : s.insertPt.bind (parentOfC s) with
    | none =>
        rw [hP] at h
        exact (Except.noConfusion h)
    | some fidx =>
        rw [hP] at h
        dsimp only at h
        split at h
        next msg heqC => exact (Except.noConfusion h)
        next s7 heqC => exact (Except.noConfusion h)
        next condV s5 heqC =>
          split at h
          next msg heqB => exact (Except.noConfusion h)
          next bv s6 heqB =>
            have hC := codegenNode_stacks_ok fuel cond _ (some condV) s5 heqC
            refine ⟨_, _, _, _, _, _, _, _, _, heqC, heqB, rfl, rfl, rfl, ?_, ?_, ?_,
              hre.1, hre.2⟩
            · exact Eq.trans ((stacksEq_trans (emitn_stacks _ _)
                (stacksEq_trans (setInsertPointC_stacks _ _)
                  (stacksEq_trans hC
                    (stacksEq_trans (emitv_stacks _ _ _)
                      (stacksEq_trans (emitn_stacks _ _)
                        (stacksEq_trans (attachBlockC_stacks _ _ _)
                          (setInsertPointC_stacks _ _))))))).1) rfl
            · exact Eq.trans ((stacksEq_trans (emitn_stacks _ _)
                (stacksEq_trans (setInsertPointC_stacks _ _)
                  (stacksEq_trans hC
                    (stacksEq_trans (emitv_stacks _ _ _)
                      (stacksEq_trans (emitn_stacks _ _)
                        (stacksEq_trans (attachBlockC_stacks _ _ _)
                          (setInsertPointC_stacks _ _))))))).2) rfl
            · simp [createBlockInC, createBlockC, attachBlockC]
  · intro init cond inc body v s2 h
    have hre : stacksEq s s2 := by
      have hrest := codegenForStatement_stacks (fuel+1) init cond inc body s
      rw [h] at hrest
      exact hrest
    rw [codegenForStatement] at h
    cases hP : s.insertPt.bind (parentOfC s) with
    | none =>
        rw [hP] at h
        exact (Except.noConfusion h)
    | some fidx =>
        rw [hP] at h
        dsimp only at h
        cases init with
        | none =>
            dsimp only at h
            split at h
            next msg heqC => exact (Except.noConfusion h)
            next cmp s6c heqC =>
              split at h
              next msg heqB => exact (Except.noConfusion h)
              next bv s8 heqB =>
                split at h
                next msg heqN => exact (Except.noConfusion h)
                next nv s9 heqN =>
                  have hCn := optCond_stacks_ok fuel cond _ cmp s6c heqC
                  refine ⟨s.nextId, s.nextId + 1, s.nextId + 2, s.nextId + 3,
                    s.nextId + 4, forPushState fidx s, _, _, _, _, _, rfl, heqB,
                    rfl, rfl, rfl, rfl, ?_, ?_, ?_, hre.1, hre.2⟩
                  · exact Eq.trans ((stacksEq_trans (emitn_stacks _ _)
                      (stacksEq_trans (setInsertPointC_stacks _ _)
                        (stacksEq_trans (emitn_stacks _ _)
                          (stacksEq_trans (attachBlockC_stacks _ _ _)
                            (stacksEq_trans (setInsertPointC_stacks _ _)
                              (stacksEq_trans hCn
                                (stacksEq_trans (emitn_stacks _ _)
                                  (stacksEq_trans (attachBlockC_stacks _ _ _)
                                    (setInsertPointC_stacks _ _))))))))).1) rfl
                  · exact Eq.trans ((stacksEq_trans (emitn_stacks _ _)
                      (stacksEq_trans (setInsertPointC_stacks _ _)
                        (stacksEq_trans (emitn_stacks _ _)
                          (stacksEq_trans (attachBlockC_stacks _ _ _)
                            (stacksEq_trans (setInsertPointC_stacks _ _)
                              (stacksEq_trans hCn
                                (stacksEq_trans (emitn_stacks _ _)
                                  (stacksEq_trans (attachBlockC_stacks _ _ _)
                                    (setInsertPointC_stacks _ _))))))))).2) rfl
                  · simp [forPushState, createBlockInC, createBlockC, attachBlockC]
        | some i0 =>
            dsimp only at h
            split at h
            next msg heqI => exact (Except.noConfusion h)
            next iv s5 heqI =>
              split at h
              next msg heqC => exact (Except.noConfusion h)
              next cmp s6c heqC =>
                split at h
                next msg heqB => exact (Except.noConfusion h)
                next bv s8 heqB =>
                  split at h
                  next msg heqN => exact (Except.noConfusion h)
                  next nv s9 heqN =>
                    have hI := codegenNode_stacks_ok fuel i0 _ iv s5 heqI
                    have hCn := optCond_stacks_ok fuel cond _ cmp s6c heqC
                    refine ⟨_, _, _, _, _, _, _, _, _, _, _, heqI, heqB, rfl, rfl, rfl, rfl,
                      ?_, ?_, ?_, hre.1, hre.2⟩
                    · exact Eq.trans ((stacksEq_trans (emitn_stacks _ _)
                        (stacksEq_trans (setInsertPointC_stacks _ _)
                          (stacksEq_trans hI
                            (stacksEq_trans (emitn_stacks _ _)
                              (stacksEq_trans (attachBlockC_stacks _ _ _)
                                (stacksEq_trans (setInsertPointC_stacks _ _)
                                  (stacksEq_trans hCn
                                    (stacksEq_trans (emitn_stacks _ _)
                                      (stacksEq_trans (attachBlockC_stacks _ _ _)
                                        (setInsertPointC_stacks _ _)))))))))).1) rfl
                    · exact Eq.trans ((stacksEq_trans (emitn_stacks _ _)
                        (stacksEq_trans (setInsertPointC_stacks _ _)
                          (stacksEq_trans hI
                            (stacksEq_trans (emitn_stacks _ _)
                              (stacksEq_trans (attachBlockC_stacks _ _ _)
                                (stacksEq_trans (setInsertPointC_stacks _ _)
                                  (stacksEq_trans hCn
                                    (stacksEq_trans (emitn_stacks _ _)
                                      (stacksEq_trans (attachBlockC_stacks _ _ _)
                                        (setInsertPointC_stacks _ _)))))))))).2) rfl
                    · simp [createBlockInC, createBlockC, attachBlockC]

/-- C6 witness: concrete runs.  A break/continue in a context whose loop
stacks hold targets 7/8 branches there; `while (1) { break; }` and
`for (;;) { break; }` lowered from the expression test context succeed with
the pushed states exposed and the loop stacks restored on exit. -/
theorem C6_loop_stacks_witness :
    (codegenBreakStatement brkTestState = .ok (none, emitn (.br 7) brkTestState)) ∧
    (codegenContinueStatement brkTestState = .ok (none, emitn (.br 8) brkTestState)) ∧
    (∃ condBB bodyBB afterBB sPush condV s5 bv s6 sBody,
      codegenNode 5 (.intLit 1) (setInsertPointC condBB (emitn (.br condBB) sPush)) =
        .ok (some condV, s5) ∧
      codegenNode 5 (.compound [.breakStmt]) sBody = .ok (bv, s6) ∧
      sBody.insertPt = some bodyBB ∧
      sPush.breakStack = afterBB :: exprTestState.breakStack ∧
      sPush.continueStack = condBB :: exprTestState.continueStack ∧
      sBody.breakStack = afterBB :: exprTestState.breakStack ∧
      sBody.continueStack = condBB :: exprTestState.continueStack ∧
      sPush.blockMap = exprTestState.blockMap ++
        [(condBB, ⟨("whilecond"), []⟩), (bodyBB, ⟨("whilebody"), []⟩),
         (afterBB, ⟨("whileafter"), []⟩)] ∧
      whileRunState.breakStack = exprTestState.breakStack ∧
      whileRunState.continueStack = exprTestState.continueStack) ∧
    (∃ initBB condBB bodyBB incBB afterBB sPush iv s5 bv s6 sBody,
      ((match (none : Option Node) with
        | some i => codegenNode 5 i (setInsertPointC initBB (emitn (.br initBB) sPush))
        | none => .ok (none, setInsertPointC initBB (emitn (.br initBB) sPush))) :
       Except String (Option CValue × CSt)) = .ok (iv, s5) ∧
      codegenNode 5 (.compound [.breakStmt]) sBody = .ok (bv, s6) ∧
      sBody.insertPt = some bodyBB ∧
      sPush.breakStack = afterBB :: exprTestState.breakStack ∧
      sPush.continueStack = incBB :: exprTestState.continueStack ∧
      condBB = initBB + 1 ∧
      sBody.breakStack = afterBB :: exprTestState.breakStack ∧
      sBody.continueStack = incBB :: exprTestState.continueStack ∧
      sPush.blockMap = exprTestState.blockMap ++
        [(initBB, ⟨("forinit"), []⟩), (condBB, ⟨("forcond"), []⟩),
         (bodyBB, ⟨("forbody"), []⟩), (incBB, ⟨("forinc"), []⟩),
         (afterBB, ⟨("forafter"), []⟩)] ∧
      forRunState.breakStack = exprTestState.breakStack ∧
      forRunState.continueStack = exprTestState.continueStack) :=
  ⟨(C6_loop_stacks brkTestState 5).1 7 [] rfl,
   (C6_loop_stacks brkTestState 5).2.1 8 [] rfl,
   (C6_loop_stacks exprTestState 5).2.2.1 (.intLit 1) (.compound [.breakStmt]) none
     whileRunState rfl,
   (C6_loop_stacks exprTestState 5).2.2.2 none none none (.compound [.breakStmt]) none
     forRunState rfl⟩

end CGen
